import Mathlib

/-!
# Shipinator configuration: pipeline schema and validator

Shallow embedding of `internal/config/config.go`.

* Go structs become structures with the same field names (`Type` is spelled
  `Type_`, the bare word being reserved).
* A pointer field `*T` is an `Option T` (`none` is `nil`).
* A slice field `[]T` is an `Option (List T)`: `none` is the nil slice,
  `some []` the empty non-nil slice (`steps: []`).  The validator's
  `required` and `omitempty` look at nil-ness, `min` at the length.
* The two results `(*ShipinatorConfig, error)` of `Load` are a pair of options.
* The struct tags `validate:"..."` are read with the semantics of
  go-playground/validator v10: the tags of one field run left to right and
  the first one that fails is reported for the field, all fields of a struct
  are visited, `dive` visits every element of a slice.
-/

set_option autoImplicit false

namespace Internal
namespace Config

/-! ## Data model -/

structure BuildOutput where
  Type_ : String
  Path : String
  Ref : String
deriving DecidableEq, Repr

structure BuildStep where
  Name : String
  Run : String
  Outputs : Option (List BuildOutput)
deriving DecidableEq, Repr

structure BuildConfig where
  Steps : Option (List BuildStep)
deriving DecidableEq, Repr

structure TestArtifact where
  Type_ : String
  Path : String
deriving DecidableEq, Repr

structure TestStep where
  Name : String
  Run : String
  Parallel : Bool
  Artifacts : Option (List TestArtifact)
deriving DecidableEq, Repr

structure TestConfig where
  Steps : Option (List TestStep)
deriving DecidableEq, Repr

structure DeployConfig where
  Artifact : String
  Target : String
  Namespace : String
deriving DecidableEq, Repr

structure ShipinatorConfig where
  Build : Option BuildConfig
  Test : Option TestConfig
  Deploy : Option DeployConfig
deriving DecidableEq, Repr

/-! ## The validator library, as far as the struct tags use it -/

/-- One entry of the validator's `ValidationErrors`: the namespace of the
field and the tag that failed. -/
structure FieldError where
  ns : String
  tag : String
deriving DecidableEq, Repr

/-- The validator's `hasValue` on a string field: it is not the zero value. -/
def hasValue (s : String) : Bool := s != ""

/-- The validator's `hasValue` on a slice field: it is not nil. -/
def hasValueSlice {α : Type} (s : Option (List α)) : Bool := s.isSome

/-- Tag `oneof=v1 v2 ...` on a string field. -/
def isOneOf (vals : List String) (s : String) : Bool := vals.contains s

/-- Tag `required_if=Other value` on a string field: when the sibling field
equals the value the field must have a value, otherwise the tag passes. -/
def requiredIf (other value field : String) : Bool :=
  if other == value then hasValue field else true

/-- Length of a slice, `0` for nil. -/
def sliceLen {α : Type} (s : Option (List α)) : Nat :=
  match s with
  | none => 0
  | some xs => xs.length

/-- Runs the tags of one field in order; the first failing tag is the field's
error, later tags are not tried. -/
def runTags (ns : String) : List (String × Bool) → List FieldError
  | [] => []
  | (tag, ok) :: rest => if ok then runTags ns rest else [{ ns := ns, tag := tag }]

/-- Tag `dive` on a slice of structs: element `i` is validated under the
namespace `ns[i]`, errors are collected in order. -/
def diveFrom {α : Type} (f : String → α → List FieldError) (ns : String) :
    Nat → List α → List FieldError
  | _, [] => []
  | i, x :: xs => f (ns ++ "[" ++ toString i ++ "]") x ++ diveFrom f ns (i + 1) xs

/-- Tags `required,min=1,dive` on a slice of structs. -/
def requiredMin1Dive {α : Type} (f : String → α → List FieldError) (ns : String)
    (s : Option (List α)) : List FieldError :=
  if !hasValueSlice s then [{ ns := ns, tag := "required" }]
  else if !(decide (1 ≤ sliceLen s)) then [{ ns := ns, tag := "min" }]
  else diveFrom f ns 0 (s.getD [])

/-- Tags `omitempty,dive` on a slice of structs: a nil slice is skipped. -/
def omitemptyDive {α : Type} (f : String → α → List FieldError) (ns : String)
    (s : Option (List α)) : List FieldError :=
  if !hasValueSlice s then [] else diveFrom f ns 0 (s.getD [])

/-- Tag `omitempty` on a pointer to a struct: nil is skipped, otherwise the
struct behind the pointer is validated. -/
def omitemptyStruct {α : Type} (f : String → α → List FieldError) (ns : String)
    (p : Option α) : List FieldError :=
  match p with
  | none => []
  | some x => f ns x

/-! ## Validation of each struct, field by field in declaration order -/

def validateBuildOutput (ns : String) (o : BuildOutput) : List FieldError :=
  runTags (ns ++ ".Type")
      [("required", hasValue o.Type_),
       ("oneof", isOneOf ["binary", "oci_image", "helm_chart"] o.Type_)]
  ++ runTags (ns ++ ".Path")
      [("required_if", requiredIf o.Type_ "binary" o.Path),
       ("required_if", requiredIf o.Type_ "helm_chart" o.Path)]
  ++ runTags (ns ++ ".Ref")
      [("required_if", requiredIf o.Type_ "oci_image" o.Ref)]

def validateBuildStep (ns : String) (s : BuildStep) : List FieldError :=
  runTags (ns ++ ".Name") [("required", hasValue s.Name)]
  ++ runTags (ns ++ ".Run") [("required", hasValue s.Run)]
  ++ omitemptyDive validateBuildOutput (ns ++ ".Outputs") s.Outputs

def validateBuildConfig (ns : String) (b : BuildConfig) : List FieldError :=
  requiredMin1Dive validateBuildStep (ns ++ ".Steps") b.Steps

def validateTestArtifact (ns : String) (a : TestArtifact) : List FieldError :=
  runTags (ns ++ ".Type")
      [("required", hasValue a.Type_),
       ("oneof", isOneOf ["coverage", "test_report"] a.Type_)]
  ++ runTags (ns ++ ".Path") [("required", hasValue a.Path)]

def validateTestStep (ns : String) (s : TestStep) : List FieldError :=
  runTags (ns ++ ".Name") [("required", hasValue s.Name)]
  ++ runTags (ns ++ ".Run") [("required", hasValue s.Run)]
  ++ omitemptyDive validateTestArtifact (ns ++ ".Artifacts") s.Artifacts

def validateTestConfig (ns : String) (t : TestConfig) : List FieldError :=
  requiredMin1Dive validateTestStep (ns ++ ".Steps") t.Steps

def validateDeployConfig (ns : String) (d : DeployConfig) : List FieldError :=
  runTags (ns ++ ".Artifact")
      [("required", hasValue d.Artifact),
       ("oneof", isOneOf ["binary", "oci_image", "helm_chart"] d.Artifact)]
  ++ runTags (ns ++ ".Target") [("required", hasValue d.Target)]
  ++ runTags (ns ++ ".Namespace") [("required", hasValue d.Namespace)]

/-- The call `validate.Struct(&cfg)`: the list of field errors, empty when the
call returns nil. -/
def validateStruct (cfg : ShipinatorConfig) : List FieldError :=
  omitemptyStruct validateBuildConfig "ShipinatorConfig.Build" cfg.Build
  ++ omitemptyStruct validateTestConfig "ShipinatorConfig.Test" cfg.Test
  ++ omitemptyStruct validateDeployConfig "ShipinatorConfig.Deploy" cfg.Deploy

/-! ## Load -/

/-- The reader handed to `Load`, described by what yaml.v3's
`Decoder.Decode(&cfg)` with `KnownFields(true)` does on its content. -/
inductive Reader where
  /-- No document in the stream (the empty input): `Decode` returns `io.EOF`. -/
  | empty
  /-- The decoder reports an error: malformed YAML, a value of the wrong
  type, or a key that is not a field of the schema. -/
  | invalid (cause : String)
  /-- The first document decodes without error and fills `cfg`. -/
  | document (cfg : ShipinatorConfig)
deriving DecidableEq, Repr

/-- The call `dec.Decode(&cfg)`: an error, or the filled struct. -/
def Decode : Reader → Except String ShipinatorConfig
  | .empty => .error "EOF"
  | .invalid cause => .error cause
  | .document cfg => .ok cfg

/-- The three errors `Load` builds with `fmt.Errorf`. -/
inductive LoadError where
  /-- Wraps the decoder's error: "parsing config: ...". -/
  | parsing (cause : String)
  /-- The message "config must define at least one of: build, test, deploy". -/
  | noSections
  /-- Wraps the validator's errors: "validating config: ...". -/
  | validating (errs : List FieldError)
deriving DecidableEq, Repr

/-- `Load` reads YAML from `r`, parses it into `ShipinatorConfig`, and
validates.  The pair is Go's `(*ShipinatorConfig, error)`. -/
def Load (r : Reader) : Option ShipinatorConfig × Option LoadError :=
  match Decode r with
  | .error cause => (none, some (.parsing cause))
  | .ok cfg =>
    if cfg.Build.isNone && cfg.Test.isNone && cfg.Deploy.isNone then
      (none, some .noSections)
    else
      match validateStruct cfg with
      | [] => (some cfg, none)
      | e :: es => (none, some (.validating (e :: es)))

/-! ## The schema rules in the words of the specification

Used to state what an accepted document satisfies; the validator above is
what the code runs. -/

/-- A build output obeys the schema: its type is one of the three enumerated
values, `path` is non-empty for `binary` and `helm_chart`, `ref` is non-empty
for `oci_image`. -/
def OutputRule (o : BuildOutput) : Prop :=
  (o.Type_ = "binary" ∨ o.Type_ = "oci_image" ∨ o.Type_ = "helm_chart") ∧
  ((o.Type_ = "binary" ∨ o.Type_ = "helm_chart") → o.Path ≠ "") ∧
  (o.Type_ = "oci_image" → o.Ref ≠ "")

instance (o : BuildOutput) : Decidable (OutputRule o) := by
  unfold OutputRule; infer_instance

/-- A test artifact obeys the schema: its type is one of the two enumerated
values and `path` is non-empty. -/
def ArtifactRule (a : TestArtifact) : Prop :=
  (a.Type_ = "coverage" ∨ a.Type_ = "test_report") ∧ a.Path ≠ ""

instance (a : TestArtifact) : Decidable (ArtifactRule a) := by
  unfold ArtifactRule; infer_instance

/-- A build step obeys the schema: non-empty `name` and `run`, every output
obeys `OutputRule`. -/
def BuildStepRule (s : BuildStep) : Prop :=
  s.Name ≠ "" ∧ s.Run ≠ "" ∧ ∀ o ∈ s.Outputs.getD [], OutputRule o

instance (s : BuildStep) : Decidable (BuildStepRule s) := by
  unfold BuildStepRule; infer_instance

/-- A test step obeys the schema: non-empty `name` and `run`, every artifact
obeys `ArtifactRule`. -/
def TestStepRule (s : TestStep) : Prop :=
  s.Name ≠ "" ∧ s.Run ≠ "" ∧ ∀ a ∈ s.Artifacts.getD [], ArtifactRule a

instance (s : TestStep) : Decidable (TestStepRule s) := by
  unfold TestStepRule; infer_instance

/-- A build section obeys the schema: at least one step, every step obeys
`BuildStepRule`. -/
def BuildRule (b : BuildConfig) : Prop :=
  1 ≤ (b.Steps.getD []).length ∧ ∀ s ∈ b.Steps.getD [], BuildStepRule s

instance (b : BuildConfig) : Decidable (BuildRule b) := by
  unfold BuildRule; infer_instance

/-- A test section obeys the schema: at least one step, every step obeys
`TestStepRule`. -/
def TestRule (t : TestConfig) : Prop :=
  1 ≤ (t.Steps.getD []).length ∧ ∀ s ∈ t.Steps.getD [], TestStepRule s

instance (t : TestConfig) : Decidable (TestRule t) := by
  unfold TestRule; infer_instance

/-- A deploy section obeys the schema: `artifact` is one of the three
enumerated values, `target` and `namespace` are non-empty. -/
def DeployRule (d : DeployConfig) : Prop :=
  (d.Artifact = "binary" ∨ d.Artifact = "oci_image" ∨ d.Artifact = "helm_chart") ∧
  d.Target ≠ "" ∧ d.Namespace ≠ ""

instance (d : DeployConfig) : Decidable (DeployRule d) := by
  unfold DeployRule; infer_instance

/-- Every present section of the document obeys its rule. -/
def SectionsRule (cfg : ShipinatorConfig) : Prop :=
  (∀ b, cfg.Build = some b → BuildRule b) ∧
  (∀ t, cfg.Test = some t → TestRule t) ∧
  (∀ d, cfg.Deploy = some d → DeployRule d)

/-- Every validation rule of the schema: at least one of build, test and
deploy is present, and every present section obeys its rule. -/
def SchemaRules (cfg : ShipinatorConfig) : Prop :=
  (cfg.Build ≠ none ∨ cfg.Test ≠ none ∨ cfg.Deploy ≠ none) ∧ SectionsRule cfg

/-! ## Documents with one distinguished element

`docWithOutput` is a pipeline document in which the build output `o` sits at
an arbitrary place: after `before` and ahead of `after` in the outputs of a
step that follows the steps `pre` and precedes the steps `post`. -/

def docWithOutput (pre : List BuildStep) (name run : String)
    (before after : List BuildOutput) (post : List BuildStep)
    (test : Option TestConfig) (deploy : Option DeployConfig)
    (o : BuildOutput) : ShipinatorConfig :=
  { Build := some
      { Steps := some
          (pre ++ { Name := name, Run := run, Outputs := some (before ++ o :: after) } :: post) },
    Test := test,
    Deploy := deploy }

/-- A document whose only section is deploy. -/
def deployOnly (d : DeployConfig) : ShipinatorConfig :=
  { Build := none, Test := none, Deploy := some d }

/-- Go's `(nil, err)` with a non-nil `err`. -/
def Failed (res : Option ShipinatorConfig × Option LoadError) : Prop :=
  res.1 = none ∧ res.2 ≠ none

instance (res : Option ShipinatorConfig × Option LoadError) : Decidable (Failed res) := by
  unfold Failed; infer_instance

end Config
end Internal

/-!
# Shipinator configuration: layered runtime configuration

Shallow embedding of `internal/server/config/config.go`.  `Load` drives a
`viper.Viper`; the calls it makes are modelled on a record of the registry's
fields, with the behaviour of spf13/viper and of `mapstructure`:

* the process environment is a function `os.LookupEnv`;
* the file system maps a path to what reading it and decoding it as YAML
  gives;
* a configuration file is held as `v.config`, keyed by viper's dotted
  lower-case keys (`db.host`); a key whose value is null is absent.  The
  files covered are those in which `db`, when present, is a mapping and the
  value under a leaf key is a scalar or a sequence;
* the registry's `find` goes through the layers this program fills: the
  environment (a variable set to the empty string counts as unset, and a
  variable of a parent key hides the lower layers of its children), the
  file, the defaults;
* `strings.ToUpper`, `strings.ToLower` act on the ASCII letters, which is
  all the keys of this program contain.
-/

namespace Internal
namespace Server

/-! ## Data model -/

structure DBConfig where
  Host : String
  Port : String
  User : String
  Password : String
  Name : String
  SSLMode : String
deriving DecidableEq, Repr

structure Config where
  ListenAddr : String
  DB : DBConfig
  ArtifactPath : String
  KubeConfig : String
  LogLevel : String
deriving DecidableEq, Repr

/-! ## The outside world -/

/-- The process environment, `os.LookupEnv`: `none` when the variable is not
set, `some ""` when it is set to the empty string. -/
abbrev Env := String → Option String

/-- A non-null value found in a configuration file under one of the keys. -/
inductive FileValue where
  /-- A scalar; `s` is the string `mapstructure` makes of it for a string
  field (the string itself, or the rendering of a number or boolean). -/
  | text (s : String)
  /-- A sequence: it cannot be decoded into a string field. -/
  | sequence
deriving DecidableEq, Repr

/-- What is behind a path of the file system. -/
inductive File where
  /-- The file exists and cannot be read. -/
  | unreadable
  /-- The file is read and is not well-formed YAML. -/
  | malformed
  /-- The file is read and decoded; `kv` lists its non-null values by key. -/
  | settings (kv : List (String × FileValue))
deriving DecidableEq, Repr

/-- The file system: `none` when no file exists at the path. -/
abbrev FS := String → Option File

/-! ## Strings -/

def ToUpper (s : String) : String := String.mk (s.data.map Char.toUpper)

def ToLower (s : String) : String := String.mk (s.data.map Char.toLower)

/-- A `strings.Replacer` built from one-character pairs: each character is
replaced by the partner of the first pair that has it on the left. -/
def Replace (pairs : List (Char × Char)) (s : String) : String :=
  String.mk (s.data.map fun c => (pairs.lookup c).getD c)

/-- Splits at every `.`, as `strings.Split(key, ".")` does. -/
def splitDots : List Char → List (List Char)
  | [] => [[]]
  | c :: cs =>
    if c = '.' then [] :: splitDots cs
    else
      match splitDots cs with
      | [] => [[c]]
      | w :: ws => (c :: w) :: ws

/-- The call `strings.Split(key, v.keyDelim)` with the delimiter `.`. -/
def Split (key : String) : List String := (splitDots key.data).map String.mk

/-- The proper non-empty prefixes of a path joined with `.`: for `i` from `1`
below `len(path)`, `strings.Join(path[0:i], ".")`. -/
def parentKeys (path : List String) : List String :=
  (List.range (path.length - 1)).map fun i => ".".intercalate (path.take (i + 1))

/-! ## The viper registry -/

structure Viper where
  defaults : List (String × String)
  configType : String
  configFile : String
  configName : String
  configPaths : List String
  config : List (String × FileValue)
  envPrefix : String
  envKeyReplacer : Option (List (Char × Char))
  automaticEnvApplied : Bool
  allowEmptyEnv : Bool
  env : List (String × List String)
deriving Repr

/-- The call `viper.New()`. -/
def New : Viper :=
  { defaults := [], configType := "", configFile := "", configName := "config",
    configPaths := [], config := [], envPrefix := "", envKeyReplacer := none,
    automaticEnvApplied := false, allowEmptyEnv := false, env := [] }

/-- The extensions viper knows, in the order it tries them. -/
def SupportedExts : List String :=
  ["json", "toml", "yaml", "yml", "properties", "props", "prop", "hcl", "tfvars", "dotenv",
   "env", "ini"]

def SetDefault (v : Viper) (key value : String) : Viper :=
  { v with defaults := v.defaults ++ [(ToLower key, value)] }

def SetConfigType (v : Viper) (t : String) : Viper :=
  if t != "" then { v with configType := t } else v

def SetConfigFile (v : Viper) (path : String) : Viper :=
  if path != "" then { v with configFile := path } else v

def SetConfigName (v : Viper) (name : String) : Viper :=
  if name != "" then { v with configName := name, configFile := "" } else v

def AddConfigPath (v : Viper) (dir : String) : Viper :=
  if dir != "" then
    if v.configPaths.contains dir then v else { v with configPaths := v.configPaths ++ [dir] }
  else v

def SetEnvPrefix (v : Viper) (p : String) : Viper :=
  if p != "" then { v with envPrefix := p } else v

def SetEnvKeyReplacer (v : Viper) (r : List (Char × Char)) : Viper :=
  { v with envKeyReplacer := some r }

def AutomaticEnv (v : Viper) : Viper :=
  { v with automaticEnvApplied := true }

def mergeWithEnvPrefix (v : Viper) (key : String) : String :=
  if v.envPrefix != "" then ToUpper (v.envPrefix ++ "_" ++ key) else ToUpper key

/-- The call `v.BindEnv(input...)`: with the key alone, the variable bound to
it is the prefixed upper-case key; with no input it is an error. -/
def BindEnv (v : Viper) (input : List String) : Except String Viper :=
  match input with
  | [] => .error "missing key to bind to"
  | [key] =>
    let k := ToLower key
    .ok { v with env := v.env.filter (fun e => e.1 != k) ++
            [(k, ((v.env.lookup k).getD []) ++ [mergeWithEnvPrefix v k])] }
  | key :: names =>
    let k := ToLower key
    .ok { v with env := v.env.filter (fun e => e.1 != k) ++
            [(k, ((v.env.lookup k).getD []) ++ names)] }

/-- The registry's `getEnv`: the replacer is applied to the name, and a
variable set to the empty string counts as not set unless `allowEmptyEnv`. -/
def getEnv (env : Env) (v : Viper) (key : String) : Option String :=
  let name := match v.envKeyReplacer with
    | some r => Replace r key
    | none => key
  match env name with
  | some val => if v.allowEmptyEnv || val != "" then some val else none
  | none => none

/-- The registry's `isPathShadowedInAutoEnv`: some parent of the path has a
value in the environment. -/
def isPathShadowedInAutoEnv (env : Env) (v : Viper) (path : List String) : Bool :=
  (parentKeys path).any fun parent => (getEnv env v (mergeWithEnvPrefix v parent)).isSome

/-- The registry's `isPathShadowedInFlatMap` on the bound variables: some
parent of the path is itself a bound key. -/
def isPathShadowedInEnvBindings (v : Viper) (path : List String) : Bool :=
  (parentKeys path).any fun parent => (v.env.lookup parent).isSome

/-- The first of the variables bound to a key that has a value. -/
def firstBoundEnv (env : Env) (v : Viper) : List String → Option String
  | [] => none
  | name :: names =>
    match getEnv env v name with
    | some val => some val
    | none => firstBoundEnv env v names

/-- The registry's `find` for a lower-case key, through the layers this
program uses, highest priority first: the environment (automatic, then bound
variables), the configuration file, the defaults.  `none` is Go's `nil`. -/
def find (env : Env) (v : Viper) (lcaseKey : String) : Option FileValue :=
  let path := Split lcaseKey
  let nested := decide (path.length > 1)
  match (if v.automaticEnvApplied then getEnv env v (mergeWithEnvPrefix v lcaseKey) else none) with
  | some val => some (.text val)
  | none =>
    if v.automaticEnvApplied && nested && isPathShadowedInAutoEnv env v path then none
    else
      match firstBoundEnv env v ((v.env.lookup lcaseKey).getD []) with
      | some val => some (.text val)
      | none =>
        if nested && isPathShadowedInEnvBindings v path then none
        else
          match v.config.lookup lcaseKey with
          | some val => some val
          | none =>
            match v.defaults.lookup lcaseKey with
            | some d => some (.text d)
            | none => none

/-- The call `v.Get(key)`. -/
def Get (env : Env) (v : Viper) (key : String) : Option FileValue :=
  find env v (ToLower key)

/-- The call `v.AllKeys()`: the keys that hold a value in some layer, which
for the environment are the bound keys only. -/
def AllKeys (v : Viper) : List String :=
  v.env.map (fun e => e.1) ++ v.config.map (fun e => e.1) ++ v.defaults.map (fun e => e.1)

/-- The entry of `v.AllSettings()` under a key: present for the keys of
`AllKeys` whose `Get` is not nil. -/
def setting (env : Env) (v : Viper) (key : String) : Option FileValue :=
  if (AllKeys v).contains key then Get env v key else none

/-- How `mapstructure` (weakly typed) fills a string field from a setting: a
missing entry leaves the zero value, a sequence is an error. -/
def decodeString : Option FileValue → Except String String
  | none => .ok ""
  | some (.text s) => .ok s
  | some .sequence => .error "expected type 'string', got unconvertible type"

/-- The call `v.Unmarshal(&cfg)` for `Config`: every field is filled from the
setting named by its `mapstructure` tag. -/
def Unmarshal (env : Env) (v : Viper) : Except String Config := do
  let listenAddr ← decodeString (setting env v "listen_addr")
  let host ← decodeString (setting env v "db.host")
  let port ← decodeString (setting env v "db.port")
  let user ← decodeString (setting env v "db.user")
  let password ← decodeString (setting env v "db.password")
  let name ← decodeString (setting env v "db.name")
  let sslMode ← decodeString (setting env v "db.ssl_mode")
  let artifactPath ← decodeString (setting env v "artifact_path")
  let kubeConfig ← decodeString (setting env v "kubeconfig")
  let logLevel ← decodeString (setting env v "log_level")
  pure
    { ListenAddr := listenAddr,
      DB := { Host := host, Port := port, User := user, Password := password, Name := name,
              SSLMode := sslMode },
      ArtifactPath := artifactPath,
      KubeConfig := kubeConfig,
      LogLevel := logLevel }

/-! ## Reading the configuration file -/

/-- The errors of `v.ReadInConfig()`; `Load` tells `ConfigFileNotFoundError`
from all others. -/
inductive ReadError where
  | ConfigFileNotFoundError
  | UnsupportedConfigError
  | readFailed (path : String)
  | ConfigParseError
deriving DecidableEq, Repr

/-- The registry's `searchInPath`: the first `configName.ext` that exists in
the directory, then, a config type being set, the bare `configName`. -/
def searchInPath (fs : FS) (v : Viper) (dir : String) : Option String :=
  match SupportedExts.find? fun ext => (fs (dir ++ "/" ++ v.configName ++ "." ++ ext)).isSome with
  | some ext => some (dir ++ "/" ++ v.configName ++ "." ++ ext)
  | none =>
    if v.configType != "" && (fs (dir ++ "/" ++ v.configName)).isSome then
      some (dir ++ "/" ++ v.configName)
    else none

/-- The registry's `findConfigFile`: the search paths in the order added. -/
def findConfigFile (fs : FS) (v : Viper) : Except ReadError String :=
  match v.configPaths.findSome? (searchInPath fs v) with
  | some file => .ok file
  | none => .error .ConfigFileNotFoundError

/-- The registry's `getConfigFile`: the explicit file when one is set,
without checking that it exists, else the result of the search (which the
registry then remembers as its file). -/
def getConfigFile (fs : FS) (v : Viper) : Except ReadError String :=
  if v.configFile == "" then findConfigFile fs v else .ok v.configFile

/-- The call `v.ReadInConfig()`. -/
def ReadInConfig (fs : FS) (v : Viper) : Except ReadError Viper :=
  match getConfigFile fs v with
  | .error e => .error e
  | .ok filename =>
    if !(SupportedExts.contains v.configType) then .error .UnsupportedConfigError
    else
      match fs filename with
      | none => .error (.readFailed filename)
      | some .unreadable => .error (.readFailed filename)
      | some .malformed => .error .ConfigParseError
      | some (.settings kv) => .ok { v with configFile := filename, config := kv }

/-! ## Load -/

/-- The errors `Load` builds with `fmt.Errorf`. -/
inductive LoadError where
  /-- Wraps the error of `ReadInConfig`: "reading config: ...". -/
  | reading (cause : ReadError)
  /-- Wraps the error of `BindEnv`: "binding env for key: ...". -/
  | binding (key : String) (cause : String)
  /-- Wraps the error of `Unmarshal`: "unmarshalling config: ...". -/
  | unmarshalling (cause : String)
  /-- The message "db.name is required". -/
  | dbNameRequired
deriving DecidableEq, Repr

/-- The keys `Load` binds explicitly, in its order. -/
def boundKeys : List String :=
  ["db.host", "db.port", "db.user", "db.password", "db.name", "db.ssl_mode", "kubeconfig"]

/-- The loop over the explicitly bound keys: stops at the first key whose
`BindEnv` fails. -/
def bindAll (v : Viper) : List String → Except (String × String) Viper
  | [] => .ok v
  | key :: keys =>
    match BindEnv v [key] with
    | .error e => .error (key, e)
    | .ok v1 => bindAll v1 keys

/-- The registry as `Load` has it before `ReadInConfig`: defaults, config
type, and either the explicit file or the name and the search paths. -/
def configure (configPath : String) : Viper :=
  let v := New
  let v := SetDefault v "listen_addr" ":8080"
  let v := SetDefault v "artifact_path" "/var/lib/shipinator/artifacts"
  let v := SetDefault v "log_level" "info"
  let v := SetDefault v "db.host" "localhost"
  let v := SetDefault v "db.port" "5432"
  let v := SetDefault v "db.user" "postgres"
  let v := SetDefault v "db.password" "postgres"
  let v := SetDefault v "db.ssl_mode" "disable"
  let v := SetConfigType v "yaml"
  if configPath != "" then SetConfigFile v configPath
  else AddConfigPath (AddConfigPath (SetConfigName v "config") ".") "/etc/shipinator"

/-- The second half of `Load`, after the configuration file is dealt with:
environment set-up, explicit bindings, unmarshalling, and the check of
`db.name`. -/
def resolve (env : Env) (v : Viper) : Option Config × Option LoadError :=
  let v := SetEnvPrefix v "SHIPINATOR"
  let v := SetEnvKeyReplacer v [('.', '_'), ('-', '_')]
  let v := AutomaticEnv v
  match bindAll v boundKeys with
  | .error (key, e) => (none, some (.binding key e))
  | .ok v =>
    match Unmarshal env v with
    | .error e => (none, some (.unmarshalling e))
    | .ok cfg =>
      if cfg.DB.Name == "" then (none, some .dbNameRequired)
      else (some cfg, none)

/-- `Load` of the runtime configuration, in the environment `env` and on the
file system `fs`.  The pair is Go's `(*Config, error)`. -/
def Load (env : Env) (fs : FS) (configPath : String) : Option Config × Option LoadError :=
  let v := configure configPath
  match ReadInConfig fs v with
  | .error .ConfigFileNotFoundError => resolve env v
  | .error e => (none, some (.reading e))
  | .ok v1 => resolve env v1

/-! ## Vocabulary for the properties of the resolver -/

/-- The ten leaf keys of the runtime configuration, named by the
`mapstructure` tags of `Config` and `DBConfig`. -/
def leafKeys : List String :=
  ["listen_addr", "artifact_path", "kubeconfig", "log_level", "db.host", "db.port", "db.user",
   "db.password", "db.name", "db.ssl_mode"]

/-- The field of a resolved configuration that a leaf key names. -/
def Config.field (c : Config) (key : String) : String :=
  match key with
  | "listen_addr" => c.ListenAddr
  | "artifact_path" => c.ArtifactPath
  | "kubeconfig" => c.KubeConfig
  | "log_level" => c.LogLevel
  | "db.host" => c.DB.Host
  | "db.port" => c.DB.Port
  | "db.user" => c.DB.User
  | "db.password" => c.DB.Password
  | "db.name" => c.DB.Name
  | "db.ssl_mode" => c.DB.SSLMode
  | _ => ""

/-- The documented default of a leaf key; `db.name` and `kubeconfig` have
none, which is the empty string. -/
def defaultOf (key : String) : String :=
  match key with
  | "listen_addr" => ":8080"
  | "artifact_path" => "/var/lib/shipinator/artifacts"
  | "log_level" => "info"
  | "db.host" => "localhost"
  | "db.port" => "5432"
  | "db.user" => "postgres"
  | "db.password" => "postgres"
  | "db.ssl_mode" => "disable"
  | _ => ""

/-- The environment variable of a key as the specification names it: the
prefix `SHIPINATOR_`, then the key in upper case with every `.` and `-`
turned into `_`. -/
def envVarOf (key : String) : String :=
  Replace [('.', '_'), ('-', '_')] (ToUpper ("SHIPINATOR" ++ "_" ++ key))

/-- The value the resolver takes from a variable: it is set and it is not the
empty string. -/
def envValue (env : Env) (name : String) : Option String :=
  match env name with
  | some val => if val != "" then some val else none
  | none => none

/-- Some parent of the key (`db` for `db.host`) has a variable with a
non-empty value. -/
def parentSet (env : Env) (key : String) : Bool :=
  (parentKeys (Split key)).any fun parent => (envValue env (envVarOf parent)).isSome

/-- The file layer of one resolution: the settings `ReadInConfig` leaves in
the registry, none when no file is read. -/
def fileLayer (fs : FS) (configPath : String) : List (String × FileValue) :=
  match ReadInConfig fs (configure configPath) with
  | .ok v => v.config
  | .error _ => []

/-- A variable that is not set, or set to the empty string. -/
def unsetOrEmpty (env : Env) (name : String) : Prop :=
  env name = none ∨ env name = some ""

instance (env : Env) (name : String) : Decidable (unsetOrEmpty env name) := by
  unfold unsetOrEmpty; infer_instance

/-- Go's `(nil, err)` with a non-nil `err`. -/
def Failed (res : Option Config × Option LoadError) : Prop :=
  res.1 = none ∧ res.2 ≠ none

instance (res : Option Config × Option LoadError) : Decidable (Failed res) := by
  unfold Failed; infer_instance

/-- The per-key precedence in the words of the specification, for one
resolution and one leaf key: the resolved value is the environment's value,
whatever value the key's variable is set to; otherwise the file's value when
the file sets the key; otherwise the default. -/
def PrecedenceAsStated (env : Env) (fs : FS) (configPath : String) (cfg : Config)
    (key : String) : Prop :=
  (∀ val, env (envVarOf key) = some val → cfg.field key = val) ∧
  (env (envVarOf key) = none →
    (∀ s, (fileLayer fs configPath).lookup key = some (.text s) → cfg.field key = s) ∧
    ((fileLayer fs configPath).lookup key = none → cfg.field key = defaultOf key))

/-! ## The registry at the stages of `Load` -/

/-- The registry is set up for the environment the way `Load` does it. -/
structure EnvReady (v : Viper) : Prop where
  auto : v.automaticEnvApplied = true
  pref : v.envPrefix = "SHIPINATOR"
  repl : v.envKeyReplacer = some [('.', '_'), ('-', '_')]
  allow : v.allowEmptyEnv = false

/-- The defaults `Load` registers. -/
def loadDefaults : List (String × String) :=
  [("listen_addr", ":8080"), ("artifact_path", "/var/lib/shipinator/artifacts"),
   ("log_level", "info"), ("db.host", "localhost"), ("db.port", "5432"),
   ("db.user", "postgres"), ("db.password", "postgres"), ("db.ssl_mode", "disable")]

/-- The bindings after the loop over `boundKeys`. -/
def loadBindings : List (String × List String) :=
  [("db.host", ["SHIPINATOR_DB.HOST"]), ("db.port", ["SHIPINATOR_DB.PORT"]),
   ("db.user", ["SHIPINATOR_DB.USER"]), ("db.password", ["SHIPINATOR_DB.PASSWORD"]),
   ("db.name", ["SHIPINATOR_DB.NAME"]), ("db.ssl_mode", ["SHIPINATOR_DB.SSL_MODE"]),
   ("kubeconfig", ["SHIPINATOR_KUBECONFIG"])]

/-- The registry carries the defaults of `Load`, no binding yet, and does not
allow empty variables. -/
structure Configured (v : Viper) : Prop where
  defaults : v.defaults = loadDefaults
  env : v.env = []
  allow : v.allowEmptyEnv = false

/-! ## Example worlds -/

/-- A file system with no file at all. -/
def noFiles : FS := fun _ => none

/-- A file system whose only file is `/etc/app.yaml`, which sets
`db.name: fromyaml` and `log_level: warn`. -/
def oneFile : FS := fun p =>
  if p = "/etc/app.yaml" then
    some (.settings [("db.name", .text "fromyaml"), ("log_level", .text "warn")])
  else none

/-- An environment that sets `SHIPINATOR_DB_NAME=app` and sets
`SHIPINATOR_LOG_LEVEL` to the empty string. -/
def envEmptyLogLevel : Env := fun name =>
  if name = "SHIPINATOR_DB_NAME" then some "app"
  else if name = "SHIPINATOR_LOG_LEVEL" then some ""
  else none

/-- An environment that sets `SHIPINATOR_DB_NAME=app` and `SHIPINATOR_DB=x`. -/
def envParentSet : Env := fun name =>
  if name = "SHIPINATOR_DB_NAME" then some "app"
  else if name = "SHIPINATOR_DB" then some "x"
  else none

/-- An environment that sets `SHIPINATOR_DB_NAME=fromenv` and
`SHIPINATOR_DB_HOST=db.internal`. -/
def envNameAndHost : Env := fun name =>
  if name = "SHIPINATOR_DB_NAME" then some "fromenv"
  else if name = "SHIPINATOR_DB_HOST" then some "db.internal"
  else none

/-- What `Load` resolves in `envEmptyLogLevel` without a file. -/
def resolvedEmptyLogLevel : Config :=
  { ListenAddr := ":8080",
    DB := { Host := "localhost", Port := "5432", User := "postgres", Password := "postgres",
            Name := "app", SSLMode := "disable" },
    ArtifactPath := "/var/lib/shipinator/artifacts",
    KubeConfig := "",
    LogLevel := "info" }

/-- What `Load` resolves in `envParentSet` without a file. -/
def resolvedParentSet : Config :=
  { ListenAddr := ":8080",
    DB := { Host := "", Port := "", User := "", Password := "", Name := "app", SSLMode := "" },
    ArtifactPath := "/var/lib/shipinator/artifacts",
    KubeConfig := "",
    LogLevel := "info" }

/-- What `Load` resolves in `envNameAndHost` from `/etc/app.yaml` of `oneFile`. -/
def resolvedMixed : Config :=
  { ListenAddr := ":8080",
    DB := { Host := "db.internal", Port := "5432", User := "postgres", Password := "postgres",
            Name := "fromenv", SSLMode := "disable" },
    ArtifactPath := "/var/lib/shipinator/artifacts",
    KubeConfig := "",
    LogLevel := "warn" }

end Server
end Internal

/-!
# Shipinator configuration: the YAML layer of the pipeline `Load`

`Load` hands its reader to a yaml.v3 decoder with `KnownFields(true)`.  The
reader's content is taken as the YAML parser delivers it, a tree of nodes in
which anchors, aliases and merge keys are already resolved and every mapping
key is a scalar, given by its text.  The decoder is modelled on that tree, for
the struct types of `config.go` and their `yaml:"..."` field names: it
collects its type errors as yaml.v3 does and reports them together at the
end.  `Marshal` is the encoder of the same library on the same structs; what
it writes is read back through the scanner of the library, the block scalars
by their text.
-/

namespace Internal
namespace Config

/-- A node of a YAML document. -/
inductive Node where
  /-- The null value: `~`, `null`, or a key without a value. -/
  | null
  /-- A scalar that resolves as a string. -/
  | str (value : String)
  /-- A plain scalar that resolves as a boolean, with its spelling. -/
  | bool (value : Bool) (text : String)
  /-- A plain scalar that resolves as a number or a timestamp, by its text. -/
  | other (text : String)
  | sequence (items : List Node)
  | mapping (pairs : List (String × Node))

/-- The reader's content as the YAML parser delivers it. -/
inductive Stream where
  /-- No document: the empty input. -/
  | noDocument
  /-- The text is not well-formed YAML. -/
  | syntaxError (cause : String)
  /-- The first document of the stream. -/
  | document (root : Node)

/-- A decoded value together with the type errors collected on the way. -/
abbrev Decoded (α : Type) := α × List String

def Node.isNull : Node → Bool
  | .null => true
  | _ => false

/-- Decoding into a string field: a null leaves the zero value, any scalar
gives its text, a sequence or a mapping is a type error. -/
def unmarshalString : Node → Decoded String
  | .null => ("", [])
  | .str value => (value, [])
  | .bool _ text => (text, [])
  | .other text => (text, [])
  | .sequence _ => ("", ["cannot unmarshal !!seq into string"])
  | .mapping _ => ("", ["cannot unmarshal !!map into string"])

/-- Decoding into a bool field: a null leaves the zero value, a boolean
scalar gives its value, a string scalar is accepted in the YAML 1.1
spellings of yes and no. -/
def unmarshalBool : Node → Decoded Bool
  | .null => (false, [])
  | .bool value _ => (value, [])
  | .str value =>
    if ["y", "Y", "yes", "Yes", "YES", "on", "On", "ON"].contains value then (true, [])
    else if ["n", "N", "no", "No", "NO", "off", "Off", "OFF"].contains value then (false, [])
    else (false, ["cannot unmarshal !!str into bool"])
  | .other _ => (false, ["cannot unmarshal into bool"])
  | .sequence _ => (false, ["cannot unmarshal !!seq into bool"])
  | .mapping _ => (false, ["cannot unmarshal !!map into bool"])

/-- Two pairs of a mapping have the same key. -/
def hasDuplicateKey : List (String × Node) → Bool
  | [] => false
  | (key, _) :: rest => rest.any (fun p => p.1 == key) || hasDuplicateKey rest

/-- With `KnownFields(true)`: one error for every key of the mapping that is
not a field of the struct. -/
def unknownFields (fields : List String) (pairs : List (String × Node)) : List String :=
  (pairs.filter fun p => !fields.contains p.1).map fun p => "field " ++ p.1 ++ " not found"

/-- The node a mapping holds for a field.  An absent key leaves the field at
its zero value, which is what a null value does. -/
def fieldNode (pairs : List (String × Node)) (name : String) : Node :=
  (pairs.lookup name).getD .null

/-- Decoding into a pointer field: a null gives nil, any other node allocates
the target and decodes into it. -/
def unmarshalPtr {α : Type} (f : Node → Decoded α) : Node → Decoded (Option α)
  | .null => (none, [])
  | n => (some (f n).1, (f n).2)

/-- Decoding into a slice of structs: a null gives the nil slice, a sequence
gives a non-nil slice of its items decoded in order, the null items left out;
any other node is a type error. -/
def unmarshalSlice {α : Type} (f : Node → Decoded α) : Node → Decoded (Option (List α))
  | .null => (none, [])
  | .sequence items =>
    (some (((items.filter fun n => !n.isNull).map f).map fun d => d.1),
     ((items.filter fun n => !n.isNull).map f).flatMap fun d => d.2)
  | _ => (none, ["cannot unmarshal into a slice"])

def unmarshalBuildOutput : Node → Decoded BuildOutput
  | .mapping pairs =>
    if hasDuplicateKey pairs then (⟨"", "", ""⟩, ["mapping key already defined"])
    else
      let type_ := unmarshalString (fieldNode pairs "type")
      let path := unmarshalString (fieldNode pairs "path")
      let ref := unmarshalString (fieldNode pairs "ref")
      ({ Type_ := type_.1, Path := path.1, Ref := ref.1 },
       unknownFields ["type", "path", "ref"] pairs ++ type_.2 ++ path.2 ++ ref.2)
  | _ => (⟨"", "", ""⟩, ["cannot unmarshal into config.BuildOutput"])

def unmarshalBuildStep : Node → Decoded BuildStep
  | .mapping pairs =>
    if hasDuplicateKey pairs then (⟨"", "", none⟩, ["mapping key already defined"])
    else
      let name := unmarshalString (fieldNode pairs "name")
      let run := unmarshalString (fieldNode pairs "run")
      let outputs := unmarshalSlice unmarshalBuildOutput (fieldNode pairs "outputs")
      ({ Name := name.1, Run := run.1, Outputs := outputs.1 },
       unknownFields ["name", "run", "outputs"] pairs ++ name.2 ++ run.2 ++ outputs.2)
  | _ => (⟨"", "", none⟩, ["cannot unmarshal into config.BuildStep"])

def unmarshalBuildConfig : Node → Decoded BuildConfig
  | .mapping pairs =>
    if hasDuplicateKey pairs then (⟨none⟩, ["mapping key already defined"])
    else
      let steps := unmarshalSlice unmarshalBuildStep (fieldNode pairs "steps")
      ({ Steps := steps.1 }, unknownFields ["steps"] pairs ++ steps.2)
  | _ => (⟨none⟩, ["cannot unmarshal into config.BuildConfig"])

def unmarshalTestArtifact : Node → Decoded TestArtifact
  | .mapping pairs =>
    if hasDuplicateKey pairs then (⟨"", ""⟩, ["mapping key already defined"])
    else
      let type_ := unmarshalString (fieldNode pairs "type")
      let path := unmarshalString (fieldNode pairs "path")
      ({ Type_ := type_.1, Path := path.1 },
       unknownFields ["type", "path"] pairs ++ type_.2 ++ path.2)
  | _ => (⟨"", ""⟩, ["cannot unmarshal into config.TestArtifact"])

def unmarshalTestStep : Node → Decoded TestStep
  | .mapping pairs =>
    if hasDuplicateKey pairs then (⟨"", "", false, none⟩, ["mapping key already defined"])
    else
      let name := unmarshalString (fieldNode pairs "name")
      let run := unmarshalString (fieldNode pairs "run")
      let parallel := unmarshalBool (fieldNode pairs "parallel")
      let artifacts := unmarshalSlice unmarshalTestArtifact (fieldNode pairs "artifacts")
      ({ Name := name.1, Run := run.1, Parallel := parallel.1, Artifacts := artifacts.1 },
       unknownFields ["name", "run", "parallel", "artifacts"] pairs ++ name.2 ++ run.2 ++
         parallel.2 ++ artifacts.2)
  | _ => (⟨"", "", false, none⟩, ["cannot unmarshal into config.TestStep"])

def unmarshalTestConfig : Node → Decoded TestConfig
  | .mapping pairs =>
    if hasDuplicateKey pairs then (⟨none⟩, ["mapping key already defined"])
    else
      let steps := unmarshalSlice unmarshalTestStep (fieldNode pairs "steps")
      ({ Steps := steps.1 }, unknownFields ["steps"] pairs ++ steps.2)
  | _ => (⟨none⟩, ["cannot unmarshal into config.TestConfig"])

def unmarshalDeployConfig : Node → Decoded DeployConfig
  | .mapping pairs =>
    if hasDuplicateKey pairs then (⟨"", "", ""⟩, ["mapping key already defined"])
    else
      let artifact := unmarshalString (fieldNode pairs "artifact")
      let target := unmarshalString (fieldNode pairs "target")
      let namespace_ := unmarshalString (fieldNode pairs "namespace")
      ({ Artifact := artifact.1, Target := target.1, Namespace := namespace_.1 },
       unknownFields ["artifact", "target", "namespace"] pairs ++ artifact.2 ++ target.2 ++
         namespace_.2)
  | _ => (⟨"", "", ""⟩, ["cannot unmarshal into config.DeployConfig"])

/-- Decoding the root of a document into `cfg`: a null document leaves `cfg`
at its zero value. -/
def unmarshalShipinatorConfig : Node → Decoded ShipinatorConfig
  | .null => (⟨none, none, none⟩, [])
  | .mapping pairs =>
    if hasDuplicateKey pairs then (⟨none, none, none⟩, ["mapping key already defined"])
    else
      let build := unmarshalPtr unmarshalBuildConfig (fieldNode pairs "build")
      let test := unmarshalPtr unmarshalTestConfig (fieldNode pairs "test")
      let deploy := unmarshalPtr unmarshalDeployConfig (fieldNode pairs "deploy")
      ({ Build := build.1, Test := test.1, Deploy := deploy.1 },
       unknownFields ["build", "test", "deploy"] pairs ++ build.2 ++ test.2 ++ deploy.2)
  | _ => (⟨none, none, none⟩, ["cannot unmarshal into config.ShipinatorConfig"])

/-- What the decoder of `Load` makes of the reader's content: `Decode`
returns `io.EOF` without a document, the parser's error on malformed text,
the collected type errors when there are any, and fills `cfg` otherwise. -/
def Stream.reader : Stream → Reader
  | .noDocument => .empty
  | .syntaxError cause => .invalid cause
  | .document root =>
    match (unmarshalShipinatorConfig root).2 with
    | [] => .document (unmarshalShipinatorConfig root).1
    | e :: es => .invalid ("yaml: unmarshal errors: " ++ "; ".intercalate (e :: es))

/-! ## The node tree of a document

No field has `omitempty`: a document is written with every field under its
YAML name, a nil pointer as null, a nil slice as the empty sequence, a bool as
`true` or `false`.  These are the nodes the parser delivers for that text when
every string scalar reads as the string of its field. -/

def ptrNode {α : Type} (f : α → Node) : Option α → Node
  | none => .null
  | some x => f x

def sliceNode {α : Type} (f : α → Node) : Option (List α) → Node
  | none => .sequence []
  | some xs => .sequence (xs.map f)

def boolNode (b : Bool) : Node := .bool b (if b then "true" else "false")

def buildOutputNode (o : BuildOutput) : Node :=
  .mapping [("type", .str o.Type_), ("path", .str o.Path), ("ref", .str o.Ref)]

def buildStepNode (s : BuildStep) : Node :=
  .mapping [("name", .str s.Name), ("run", .str s.Run),
    ("outputs", sliceNode buildOutputNode s.Outputs)]

def buildConfigNode (b : BuildConfig) : Node :=
  .mapping [("steps", sliceNode buildStepNode b.Steps)]

def testArtifactNode (a : TestArtifact) : Node :=
  .mapping [("type", .str a.Type_), ("path", .str a.Path)]

def testStepNode (s : TestStep) : Node :=
  .mapping [("name", .str s.Name), ("run", .str s.Run), ("parallel", boolNode s.Parallel),
    ("artifacts", sliceNode testArtifactNode s.Artifacts)]

def testConfigNode (t : TestConfig) : Node :=
  .mapping [("steps", sliceNode testStepNode t.Steps)]

def deployConfigNode (d : DeployConfig) : Node :=
  .mapping [("artifact", .str d.Artifact), ("target", .str d.Target),
    ("namespace", .str d.Namespace)]

def documentNode (cfg : ShipinatorConfig) : Node :=
  .mapping [("build", ptrNode buildConfigNode cfg.Build),
    ("test", ptrNode testConfigNode cfg.Test),
    ("deploy", ptrNode deployConfigNode cfg.Deploy)]

/-! ## The encoder: how a string is written

`yaml.Marshal` writes block style with an indentation of 4.  A string goes
through the encoder's `stringv` and the emitter's `yaml_emitter_analyze_scalar`
and `yaml_emitter_select_scalar_style`: one that contains a line feed is
written as a literal block scalar when the emitter allows it, every other one
in a flow style (plain, single-quoted or double-quoted).  The text of a block
scalar is modelled character by character, because its header and its
indentation decide what is read back. -/

/-- The emitter's `is_break`: CR, LF, NEL, LS, PS. -/
def isBreak (c : Char) : Bool :=
  c == '\r' || c == '\n' || c.toNat == 0x85 || c.toNat == 0x2028 || c.toNat == 0x2029

/-- The emitter's `is_printable`, on code points. -/
def isPrintable (c : Char) : Bool :=
  c == '\n' || (0x20 ≤ c.toNat && c.toNat ≤ 0x7E) || (0xA0 ≤ c.toNat && c.toNat ≤ 0xD7FF) ||
    (0xE000 ≤ c.toNat && c.toNat ≤ 0xFFFD && c.toNat != 0xFEFF)

/-- A space directly before a line break (`space_break` of
`yaml_emitter_analyze_scalar`). -/
def spaceBreak : List Char → Bool
  | a :: b :: rest => (a == ' ' && isBreak b) || spaceBreak (b :: rest)
  | _ => false

/-- The flag `block_allowed` of `yaml_emitter_analyze_scalar`: no trailing
space, no space before a line break, no character that needs an escape (a tab
does not count as one). -/
def blockAllowed (value : List Char) : Bool :=
  !(value.getLast? == some ' ') && !spaceBreak value &&
    value.all fun c => c == '\t' || isPrintable c

/-- The hints of `yaml_emitter_write_block_scalar_hints`: the indentation
indicator (the emitter's `best_indent`, 4) when the value starts with a space
or a line break, then the chomping indicator: `-` when the value does not end
in a line break, `+` when it is one line break or ends in two, none
otherwise. -/
def blockScalarHints (value : List Char) : List Char :=
  (match value with
   | c :: _ => if c == ' ' || isBreak c then ['4'] else []
   | [] => []) ++
  (match value.reverse with
   | [] => ['-']
   | last :: before =>
     if !isBreak last then ['-']
     else match before with
       | [] => ['+']
       | c :: _ => if isBreak c then ['+'] else [])

/-- The loop of `yaml_emitter_write_literal_scalar`: a line break is written
as it is; any other character that follows a line break is preceded by
`yaml_emitter_write_indent`, which ends the line when it is open and pads to
`column`.  `breaks` is the emitter's flag, `lineOpen` the negation of its
`indention`.  A line left open at the end is ended by what is written next. -/
def writeLiteralBody (column : Nat) : Bool → Bool → List Char → List Char
  | _, lineOpen, [] => if lineOpen then ['\n'] else []
  | breaks, lineOpen, c :: rest =>
    if isBreak c then c :: writeLiteralBody column true false rest
    else
      (if breaks then (if lineOpen then ['\n'] else []) ++ List.replicate column ' ' else []) ++
        c :: writeLiteralBody column false true rest

/-- The text of `yaml_emitter_write_literal_scalar` for a value whose lines go
to `column`: the indicator, the hints, and the lines.  No line break is put
after the hints; the loop starts with the header line open, so that a value
that starts with a line break ends the header line with it. -/
def writeLiteralScalar (column : Nat) (value : List Char) : List Char :=
  '|' :: blockScalarHints value ++ writeLiteralBody column true true value

/-- The indentation after `yaml_emitter_increase_indent` below a mapping key at
column `indent`: the next multiple of `best_indent`. -/
def increaseIndent (indent : Nat) : Nat := 4 * ((indent + 4) / 4)

/-- A string as the emitter writes it. -/
inductive Scalar where
  /-- In a flow style: plain when the text would read back as a string,
  quoted otherwise, every character that needs it escaped. -/
  | flow (value : String)
  /-- As a literal block scalar that is the value of a key at column
  `indent`, by its text from the indicator to the end of its last line. -/
  | block (indent : Nat) (text : String)
deriving DecidableEq, Repr

/-- The encoder's `stringv` for the value of a key at column `indent`, with
the emitter's choice of style: a string that contains a line feed asks for
the literal style and gets it when `block_allowed` holds, its lines indented
by `increaseIndent`; every other string is written in a flow style. -/
def marshalString (indent : Nat) (s : String) : Scalar :=
  if s.data.contains '\n' && blockAllowed s.data then
    .block indent (String.mk (writeLiteralScalar (increaseIndent indent) s.data))
  else .flow s

/-! ## The scanner: how a block scalar is read -/

/-- The lines of a text: the content of each line with its line break as the
scanner's `read_line` returns it (CR LF, CR, LF and NEL as a line feed, LS and
PS as themselves); the last entry is the line the text ends in, without a
break. -/
def textLines : List Char → List (List Char × List Char)
  | [] => [([], [])]
  | c :: rest =>
    if c == '\r' && rest.head? == some '\n' then textLines rest
    else if c == '\r' || c == '\n' || c.toNat == 0x85 then ([], ['\n']) :: textLines rest
    else if c.toNat == 0x2028 || c.toNat == 0x2029 then ([], [c]) :: textLines rest
    else
      match textLines rest with
      | [] => [([c], [])]
      | (line, brk) :: more => (c :: line, brk) :: more

/-- The header of a block scalar. -/
structure BlockHeader where
  /-- The chomping: `-1` strip, `0` clip, `+1` keep. -/
  chomping : Int
  /-- The indentation indicator, `0` when there is none. -/
  increment : Nat
deriving DecidableEq, Repr

def chompingOf (c : Char) : Int := if c == '+' then 1 else -1

/-- What may follow the indicators on the header line: blanks and a comment. -/
def headerRest (h : BlockHeader) (rest : List Char) : Except String BlockHeader :=
  match rest.dropWhile fun c => c == ' ' || c == '\t' with
  | [] => .ok h
  | c :: _ => if c == '#' then .ok h else .error "did not find expected comment or line break"

/-- The indicators of the header line, after the `|`: a chomping indicator and
an indentation indicator, in either order. -/
def scanHeader : List Char → Except String BlockHeader
  | [] => .ok ⟨0, 0⟩
  | c :: rest =>
    if c == '+' || c == '-' then
      match rest with
      | d :: rest2 =>
        if d.isDigit then
          if d == '0' then .error "found an indentation indicator equal to 0"
          else headerRest ⟨chompingOf c, d.toNat - 48⟩ rest2
        else headerRest ⟨chompingOf c, 0⟩ rest
      | [] => .ok ⟨chompingOf c, 0⟩
    else if c.isDigit then
      if c == '0' then .error "found an indentation indicator equal to 0"
      else
        match rest with
        | d :: rest2 =>
          if d == '+' || d == '-' then headerRest ⟨chompingOf d, c.toNat - 48⟩ rest2
          else headerRest ⟨0, c.toNat - 48⟩ rest
        | [] => .ok ⟨0, c.toNat - 48⟩
    else headerRest ⟨0, 0⟩ (c :: rest)

def leadingSpaces (line : List Char) : Nat := (line.takeWhile fun c => c == ' ').length

/-- The first call of `yaml_parser_scan_block_scalar_breaks` when the header
has no indentation indicator: the empty lines are consumed, a tab in the
indentation is refused, and the indentation is the widest column seen, at
least one more than that of the enclosing block `parent`. -/
def detectIndent (parent : Nat) : Nat → List Char → List (List Char × List Char) →
    Except String (Nat × List Char × List (List Char × List Char))
  | maxIndent, breaks, [] => .ok (max maxIndent (parent + 1), breaks, [])
  | maxIndent, breaks, (line, brk) :: more =>
    let column := leadingSpaces line
    let rest := line.drop column
    if rest.head? == some '\t' then
      .error "found a tab character where an indentation space is expected"
    else if rest.isEmpty && !brk.isEmpty then
      detectIndent parent (max maxIndent column) (breaks ++ brk) more
    else .ok (max (max maxIndent column) (parent + 1), breaks, (line, brk) :: more)

/-- What the scanner holds when a block scalar ends. -/
structure BlockContent where
  value : List Char
  leadingBreak : List Char
  trailingBreaks : List Char
  /-- The lines of the text after the scalar. -/
  following : List (List Char × List Char)
deriving DecidableEq, Repr

/-- The loop of `yaml_parser_scan_block_scalar` for the literal style, with
the indentation known: a line indented to `indent` is content and is added
after the breaks kept so far, an empty line adds its break to the trailing
ones, a tab in the indentation is refused, and a line that is not empty and
is indented less ends the scalar. -/
def scanContent (indent : Nat) : List Char → List Char → List Char →
    List (List Char × List Char) → Except String BlockContent
  | value, leading, trailing, [] => .ok ⟨value, leading, trailing, []⟩
  | value, leading, trailing, (line, brk) :: more =>
    let column := min (leadingSpaces line) indent
    let rest := line.drop column
    if column < indent && rest.head? == some '\t' then
      .error "found a tab character where an indentation space is expected"
    else if rest.isEmpty then
      if brk.isEmpty then .ok ⟨value, leading, trailing, []⟩
      else scanContent indent value leading (trailing ++ brk) more
    else if column == indent then
      scanContent indent (value ++ leading ++ trailing ++ rest) brk [] more
    else .ok ⟨value, leading, trailing, (rest, brk) :: more⟩

/-- The chomping at the end of `yaml_parser_scan_block_scalar`. -/
def chomp (chomping : Int) (c : BlockContent) : List Char :=
  c.value ++ (if chomping != -1 then c.leadingBreak else []) ++
    (if chomping == 1 then c.trailingBreaks else [])

/-- The lines of the scalar's text that the scanner did not take stand where
the parser expects the next key of the enclosing mapping, indented more than
its keys: an empty line and a comment are passed over, anything else starts a
token that is not a key of that mapping. -/
def expectKey : List (List Char × List Char) → Except String Unit
  | [] => .ok ()
  | (line, _) :: more =>
    match line.dropWhile fun c => c == ' ' with
    | [] => expectKey more
    | c :: _ => if c == '#' then expectKey more else .error "did not find expected key"

/-- The scanner's `yaml_parser_scan_block_scalar` on the text of a literal
block scalar that is the value of a key of a block mapping at column `parent`:
with an indentation indicator the content is expected at `parent` plus the
indicator, without one at the column of the first line that is not empty. -/
def scanBlockScalar (parent : Nat) (text : List Char) : Except String (List Char) :=
  match text with
  | '|' :: afterIndicator =>
    match textLines afterIndicator with
    | [] => .error "did not find expected comment or line break"
    | (headerLine, _) :: lines =>
      match scanHeader headerLine with
      | .error e => .error e
      | .ok header =>
        let scanned :=
          if header.increment = 0 then
            match detectIndent parent 0 [] lines with
            | .error e => .error e
            | .ok (indent, breaks, rest) => scanContent indent [] [] breaks rest
          else scanContent (parent + header.increment) [] [] [] lines
        match scanned with
        | .error e => .error e
        | .ok content =>
          match expectKey content.following with
          | .error e => .error e
          | .ok _ => .ok (chomp header.chomping content)
  | _ => .error "did not find a block scalar"

/-- What the parser reads from a written string: a flow scalar gives the
string, a block scalar what the scanner makes of its text. -/
def Scalar.read : Scalar → Except String String
  | .flow value => .ok value
  | .block indent text =>
    match scanBlockScalar indent text.data with
    | .ok value => .ok (String.mk value)
    | .error e => .error ("yaml: " ++ e)

/-! ## The encoder on the structs of the schema -/

/-- A document as `yaml.Marshal` writes it: the block scalars by their text,
the rest by its structure. -/
inductive Written where
  /-- The text `null`. -/
  | null
  /-- The text `true` or `false`. -/
  | bool (value : Bool)
  | scalar (s : Scalar)
  /-- A block sequence, or `[]` when it has no items. -/
  | sequence (items : List Written)
  /-- A block mapping with plain keys. -/
  | mapping (pairs : List (String × Written))

def marshalPtr {α : Type} (f : α → Written) : Option α → Written
  | none => .null
  | some x => f x

def marshalSlice {α : Type} (f : α → Written) : Option (List α) → Written
  | none => .sequence []
  | some xs => .sequence (xs.map f)

/-- An output whose keys are written at column `indent`. -/
def marshalBuildOutput (indent : Nat) (o : BuildOutput) : Written :=
  .mapping [("type", .scalar (marshalString indent o.Type_)),
    ("path", .scalar (marshalString indent o.Path)),
    ("ref", .scalar (marshalString indent o.Ref))]

/-- A build step whose keys are written at column `indent`; the items of
`outputs` start one indentation further, their keys after the `- `. -/
def marshalBuildStep (indent : Nat) (s : BuildStep) : Written :=
  .mapping [("name", .scalar (marshalString indent s.Name)),
    ("run", .scalar (marshalString indent s.Run)),
    ("outputs", marshalSlice (marshalBuildOutput (increaseIndent indent + 2)) s.Outputs)]

def marshalBuildConfig (indent : Nat) (b : BuildConfig) : Written :=
  .mapping [("steps", marshalSlice (marshalBuildStep (increaseIndent indent + 2)) b.Steps)]

def marshalTestArtifact (indent : Nat) (a : TestArtifact) : Written :=
  .mapping [("type", .scalar (marshalString indent a.Type_)),
    ("path", .scalar (marshalString indent a.Path))]

def marshalTestStep (indent : Nat) (s : TestStep) : Written :=
  .mapping [("name", .scalar (marshalString indent s.Name)),
    ("run", .scalar (marshalString indent s.Run)),
    ("parallel", .bool s.Parallel),
    ("artifacts", marshalSlice (marshalTestArtifact (increaseIndent indent + 2)) s.Artifacts)]

def marshalTestConfig (indent : Nat) (t : TestConfig) : Written :=
  .mapping [("steps", marshalSlice (marshalTestStep (increaseIndent indent + 2)) t.Steps)]

def marshalDeployConfig (indent : Nat) (d : DeployConfig) : Written :=
  .mapping [("artifact", .scalar (marshalString indent d.Artifact)),
    ("target", .scalar (marshalString indent d.Target)),
    ("namespace", .scalar (marshalString indent d.Namespace))]

/-- The call `yaml.Marshal(cfg)`: the three sections at column 0, the keys of
a section one indentation to the right. -/
def Marshal (cfg : ShipinatorConfig) : Written :=
  .mapping [("build", marshalPtr (marshalBuildConfig (increaseIndent 0)) cfg.Build),
    ("test", marshalPtr (marshalTestConfig (increaseIndent 0)) cfg.Test),
    ("deploy", marshalPtr (marshalDeployConfig (increaseIndent 0)) cfg.Deploy)]

mutual
/-- The nodes the parser delivers for a written document, or the error of the
first block scalar that does not scan. -/
def Written.read : Written → Except String Node
  | .null => .ok .null
  | .bool value => .ok (boolNode value)
  | .scalar s =>
    match s.read with
    | .error e => .error e
    | .ok value => .ok (.str value)
  | .sequence items =>
    match Written.readItems items with
    | .error e => .error e
    | .ok nodes => .ok (.sequence nodes)
  | .mapping pairs =>
    match Written.readPairs pairs with
    | .error e => .error e
    | .ok nodes => .ok (.mapping nodes)
def Written.readItems : List Written → Except String (List Node)
  | [] => .ok []
  | w :: ws =>
    match w.read with
    | .error e => .error e
    | .ok node =>
      match Written.readItems ws with
      | .error e => .error e
      | .ok nodes => .ok (node :: nodes)
def Written.readPairs : List (String × Written) → Except String (List (String × Node))
  | [] => .ok []
  | (key, w) :: ws =>
    match w.read with
    | .error e => .error e
    | .ok node =>
      match Written.readPairs ws with
      | .error e => .error e
      | .ok nodes => .ok ((key, node) :: nodes)
end

/-- The written document as a reader's content. -/
def Written.stream (w : Written) : Stream :=
  match w.read with
  | .error e => .syntaxError e
  | .ok root => .document root

/-- Serializing a document and loading the result. -/
def reload (cfg : ShipinatorConfig) : Option ShipinatorConfig × Option LoadError :=
  Load (Stream.reader (Marshal cfg).stream)

/-! ## Vocabulary for the properties of the YAML layer -/

/-- A nil slice turned into the empty slice. -/
def emptyForNil {α : Type} : Option (List α) → Option (List α)
  | none => some []
  | some xs => some xs

def BuildStep.withEmptyForNil (s : BuildStep) : BuildStep :=
  { s with Outputs := emptyForNil s.Outputs }

def BuildConfig.withEmptyForNil (b : BuildConfig) : BuildConfig :=
  { Steps := emptyForNil (b.Steps.map fun steps => steps.map BuildStep.withEmptyForNil) }

def TestStep.withEmptyForNil (s : TestStep) : TestStep :=
  { s with Artifacts := emptyForNil s.Artifacts }

def TestConfig.withEmptyForNil (t : TestConfig) : TestConfig :=
  { Steps := emptyForNil (t.Steps.map fun steps => steps.map TestStep.withEmptyForNil) }

/-- The document with every nil slice replaced by the empty slice. -/
def ShipinatorConfig.withEmptyForNil (cfg : ShipinatorConfig) : ShipinatorConfig :=
  { Build := cfg.Build.map BuildConfig.withEmptyForNil,
    Test := cfg.Test.map TestConfig.withEmptyForNil,
    Deploy := cfg.Deploy }

/-- No slice of the document is nil. -/
def NoNilSlice (cfg : ShipinatorConfig) : Prop :=
  (∀ b, cfg.Build = some b → b.Steps ≠ none ∧
    ∀ s ∈ b.Steps.getD [], s.Outputs ≠ none) ∧
  (∀ t, cfg.Test = some t → t.Steps ≠ none ∧
    ∀ s ∈ t.Steps.getD [], s.Artifacts ≠ none)

/-- The strings of an output, each with the column of the key it is the value
of. -/
def BuildOutput.scalars (indent : Nat) (o : BuildOutput) : List (Nat × String) :=
  [(indent, o.Type_), (indent, o.Path), (indent, o.Ref)]

def BuildStep.scalars (indent : Nat) (s : BuildStep) : List (Nat × String) :=
  [(indent, s.Name), (indent, s.Run)] ++
    (s.Outputs.getD []).flatMap (BuildOutput.scalars (increaseIndent indent + 2))

def BuildConfig.scalars (indent : Nat) (b : BuildConfig) : List (Nat × String) :=
  (b.Steps.getD []).flatMap (BuildStep.scalars (increaseIndent indent + 2))

def TestArtifact.scalars (indent : Nat) (a : TestArtifact) : List (Nat × String) :=
  [(indent, a.Type_), (indent, a.Path)]

def TestStep.scalars (indent : Nat) (s : TestStep) : List (Nat × String) :=
  [(indent, s.Name), (indent, s.Run)] ++
    (s.Artifacts.getD []).flatMap (TestArtifact.scalars (increaseIndent indent + 2))

def TestConfig.scalars (indent : Nat) (t : TestConfig) : List (Nat × String) :=
  (t.Steps.getD []).flatMap (TestStep.scalars (increaseIndent indent + 2))

def DeployConfig.scalars (indent : Nat) (d : DeployConfig) : List (Nat × String) :=
  [(indent, d.Artifact), (indent, d.Target), (indent, d.Namespace)]

/-- The strings of a document, each with the column at which `Marshal` writes
the key it is the value of. -/
def ShipinatorConfig.scalars (cfg : ShipinatorConfig) : List (Nat × String) :=
  (match cfg.Build with
   | none => []
   | some b => b.scalars (increaseIndent 0)) ++
  (match cfg.Test with
   | none => []
   | some t => t.scalars (increaseIndent 0)) ++
  (match cfg.Deploy with
   | none => []
   | some d => d.scalars (increaseIndent 0))

/-- The string, written as the value of a key at column `indent`, is read
back as itself. -/
def readsBack (indent : Nat) (s : String) : Bool :=
  match (marshalString indent s).read with
  | .ok value => value == s
  | .error _ => false

/-- Every string of the document is read back as itself from the text that is
written for it. -/
def ReadBack (cfg : ShipinatorConfig) : Prop :=
  ∀ p ∈ cfg.scalars, readsBack p.1 p.2 = true

instance (cfg : ShipinatorConfig) : Decidable (ReadBack cfg) := by
  unfold ReadBack; infer_instance

/-- No string of the document contains a line feed. -/
def NoLineFeed (cfg : ShipinatorConfig) : Prop :=
  ∀ p ∈ cfg.scalars, p.2.data.contains '\n' = false

instance (cfg : ShipinatorConfig) : Decidable (NoLineFeed cfg) := by
  unfold NoLineFeed; infer_instance

/-- Some key of the mapping is not among the field names. -/
def HasUnknownKey (fields : List String) (pairs : List (String × Node)) : Prop :=
  ∃ p ∈ pairs, p.1 ∉ fields

/-- The document is a mapping with a key that is not in the schema, at the
top level or inside build, a build step, an output, test, a test step, an
artifact, or deploy. -/
def UnknownKeyInDocument (root : Node) : Prop :=
  ∃ pairs, root = .mapping pairs ∧
    (HasUnknownKey ["build", "test", "deploy"] pairs ∨
     (∃ build, ("build", Node.mapping build) ∈ pairs ∧
        (HasUnknownKey ["steps"] build ∨
         ∃ steps step, ("steps", Node.sequence steps) ∈ build ∧ Node.mapping step ∈ steps ∧
           (HasUnknownKey ["name", "run", "outputs"] step ∨
            ∃ outputs output, ("outputs", Node.sequence outputs) ∈ step ∧
              Node.mapping output ∈ outputs ∧ HasUnknownKey ["type", "path", "ref"] output))) ∨
     (∃ test, ("test", Node.mapping test) ∈ pairs ∧
        (HasUnknownKey ["steps"] test ∨
         ∃ steps step, ("steps", Node.sequence steps) ∈ test ∧ Node.mapping step ∈ steps ∧
           (HasUnknownKey ["name", "run", "parallel", "artifacts"] step ∨
            ∃ artifacts artifact, ("artifacts", Node.sequence artifacts) ∈ step ∧
              Node.mapping artifact ∈ artifacts ∧ HasUnknownKey ["type", "path"] artifact))) ∨
     (∃ deploy, ("deploy", Node.mapping deploy) ∈ pairs ∧
        HasUnknownKey ["artifact", "target", "namespace"] deploy))

/-! ## Example documents -/

/-- The document of the build-only scenario: one step `go-build` that runs
`go build ./...`, no outputs, nothing else. -/
def goBuildNode : Node :=
  .mapping [("build", .mapping [("steps", .sequence
    [.mapping [("name", .str "go-build"), ("run", .str "go build ./...")]])])]

/-- What the decoder makes of `goBuildNode`: the `outputs` key is absent and
the slice stays nil. -/
def goBuildDoc : ShipinatorConfig :=
  ⟨some ⟨some [⟨"go-build", "go build ./...", none⟩]⟩, none, none⟩

/-- The build-only document with the typo `step` beside `steps`. -/
def typoNode : Node :=
  .mapping [("build", .mapping [("step", .null), ("steps", .sequence
    [.mapping [("name", .str "go-build"), ("run", .str "go build ./...")]])])]

/-- A valid document whose two build steps have the same name, whose test
step has an empty artifact list and runs in parallel. -/
def sameNamesDoc : ShipinatorConfig :=
  ⟨some ⟨some [⟨"build", "make", some []⟩, ⟨"build", "make install", none⟩]⟩,
   some ⟨some [⟨"unit", "go test ./...", true, some []⟩]⟩, none⟩

/-- A deploy-only document whose target is a single line feed. -/
def lineFeedTargetDoc : ShipinatorConfig :=
  ⟨none, none, some ⟨"binary", "\n", "prod"⟩⟩

/-- A build-only document whose step name starts with a line feed. -/
def lineFeedNameDoc : ShipinatorConfig :=
  ⟨some ⟨some [⟨"\nx", "make", some []⟩]⟩, none, none⟩

/-- A build-only document whose step runs a script of two lines. -/
def scriptDoc : ShipinatorConfig :=
  ⟨some ⟨some [⟨"build", "make\nmake install\n", some [⟨"binary", "bin/app", ""⟩]⟩]⟩, none, none⟩

/-- The document with the `parallel` flag of every test step set by `f`. -/
def withParallel (f : TestStep → Bool) (cfg : ShipinatorConfig) : ShipinatorConfig :=
  { cfg with
    Test := cfg.Test.map fun t =>
      { Steps := t.Steps.map fun steps => steps.map fun s => { s with Parallel := f s } } }

end Config
end Internal

namespace Internal
namespace Server

/-! ## More vocabulary for the resolver: messages, merged view, search -/

/-- Text of an error of `ReadInConfig`, shortened to its leading words. -/
def ReadError.Error : ReadError → String
  | .ConfigFileNotFoundError => "Config File \"config\" Not Found"
  | .UnsupportedConfigError => "Unsupported Config Type \"yaml\""
  | .readFailed path => "open " ++ path ++ ": cannot read the file"
  | .ConfigParseError => "While parsing config"

/-- Text of an error of `Load`: the format strings of its `fmt.Errorf` calls
around the text of the wrapped error. -/
def LoadError.Error : LoadError → String
  | .reading cause => "reading config: " ++ cause.Error
  | .binding key cause => "binding env for " ++ key ++ ": " ++ cause
  | .unmarshalling cause => "unmarshalling config: " ++ cause
  | .dbNameRequired => "db.name is required"

/-- The first half of `resolve`: the value of `cfg` after
`v.Unmarshal(&cfg)`, before `db.name` is checked. -/
def mergeFrom (env : Env) (v : Viper) : Except LoadError Config :=
  let v := SetEnvPrefix v "SHIPINATOR"
  let v := SetEnvKeyReplacer v [('.', '_'), ('-', '_')]
  let v := AutomaticEnv v
  match bindAll v boundKeys with
  | .error (key, e) => .error (.binding key e)
  | .ok v =>
    match Unmarshal env v with
    | .error e => .error (.unmarshalling e)
    | .ok cfg => .ok cfg

/-- The merged configuration of one call of `Load`: `cfg` as the three layers
fill it, before `db.name` is checked; an error when `Load` has returned
earlier. -/
def merged (env : Env) (fs : FS) (configPath : String) : Except LoadError Config :=
  let v := configure configPath
  match ReadInConfig fs v with
  | .error .ConfigFileNotFoundError => mergeFrom env v
  | .error e => .error (.reading e)
  | .ok v1 => mergeFrom env v1

/-- What the layers give for one key: the non-empty value of the key's
variable; failing that nothing when a parent's variable has a value; failing
that the file's value; failing that the registered default. -/
def layered (env : Env) (kv : List (String × FileValue)) (key : String) : Option FileValue :=
  match envValue env (envVarOf key) with
  | some val => some (.text val)
  | none =>
    if parentSet env key then none
    else
      match kv.lookup key with
      | some val => some val
      | none => (loadDefaults.lookup key).map .text

/-- The configuration whose leaf fields are given key by key. -/
def Config.ofFields (f : String → String) : Config :=
  { ListenAddr := f "listen_addr",
    DB := { Host := f "db.host", Port := f "db.port", User := f "db.user",
            Password := f "db.password", Name := f "db.name", SSLMode := f "db.ssl_mode" },
    ArtifactPath := f "artifact_path",
    KubeConfig := f "kubeconfig",
    LogLevel := f "log_level" }

/-- The string a layered value puts in a field: nothing leaves the field
empty. -/
def fieldOf : Option FileValue → String
  | some (.text s) => s
  | _ => ""

/-- The name of a key's variable in the words of the specification: the
prefix `SHIPINATOR_`, then the key with every `.` and `-` replaced by `_` and
every other character in upper case. -/
def specEnvName (key : String) : String :=
  "SHIPINATOR_" ++ String.mk (key.data.map fun c => if c = '.' ∨ c = '-' then '_' else c.toUpper)

/-- The places `ReadInConfig` looks at when no path is given: in the current
directory, then in `/etc/shipinator`, the name `config` with each supported
extension, then the bare name. -/
def searchLocations : List String :=
  (configure "").configPaths.flatMap fun dir =>
    SupportedExts.map (fun ext => dir ++ "/" ++ "config" ++ "." ++ ext) ++
      [dir ++ "/" ++ "config"]

/-- No file content reaches the resolver: no configuration file is found, or
the file that is read sets nothing. -/
def noFileContent (fs : FS) (configPath : String) : Prop :=
  ReadInConfig fs (configure configPath) = .error .ConfigFileNotFoundError ∨
    ∃ v, ReadInConfig fs (configure configPath) = .ok v ∧ v.config = []

/-- An environment that sets `SHIPINATOR_DB_NAME` to `n` and nothing else. -/
def envOnlyDBName (n : String) : Env := fun name =>
  if name = "SHIPINATOR_DB_NAME" then some n else none

/-- The documented defaults around the database name `n`. -/
def defaultsWithName (n : String) : Config :=
  { ListenAddr := ":8080",
    DB := { Host := "localhost", Port := "5432", User := "postgres", Password := "postgres",
            Name := n, SSLMode := "disable" },
    ArtifactPath := "/var/lib/shipinator/artifacts",
    KubeConfig := "",
    LogLevel := "info" }

/-- The environment with one variable removed. -/
def unsetVar (env : Env) (name : String) : Env := fun other =>
  if other = name then none else env other

/-- The environment with one variable set. -/
def setVar (env : Env) (name val : String) : Env := fun other =>
  if other = name then some val else env other

/-- The empty environment. -/
def noEnv : Env := fun _ => none

/-- An environment that sets `SHIPINATOR_DB_NAME=app` and sets
`SHIPINATOR_DB_HOST` to the empty string. -/
def envEmptyHost : Env := fun name =>
  if name = "SHIPINATOR_DB_NAME" then some "app"
  else if name = "SHIPINATOR_DB_HOST" then some ""
  else none

/-- An environment that sets `SHIPINATOR_DB_NAME=app` and `SHIPINATOR_DB=x`,
and sets `SHIPINATOR_DB_HOST` to the empty string. -/
def envEmptyHostParentSet : Env := fun name =>
  if name = "SHIPINATOR_DB_NAME" then some "app"
  else if name = "SHIPINATOR_DB" then some "x"
  else if name = "SHIPINATOR_DB_HOST" then some ""
  else none

/-- An environment that sets `SHIPINATOR_DB_NAME` to the empty string and
nothing else. -/
def envEmptyName : Env := fun name =>
  if name = "SHIPINATOR_DB_NAME" then some "" else none

/-- A file system whose only file is `/etc/empty.yaml`, an empty file. -/
def emptyFile : FS := fun p =>
  if p = "/etc/empty.yaml" then some (.settings []) else none

/-- A file system whose only file is `/etc/locked.yaml`, which cannot be
read. -/
def lockedFile : FS := fun p =>
  if p = "/etc/locked.yaml" then some .unreadable else none

/-- A file system whose only file is `/etc/levels.yaml`, which sets
`log_level` to a sequence and nothing else. -/
def levelsFile : FS := fun p =>
  if p = "/etc/levels.yaml" then some (.settings [("log_level", .sequence)]) else none

end Server
end Internal

namespace Internal
namespace Config

/-! ## The validator reports nothing exactly when the schema rules hold -/

theorem hasValue_iff (s : String) : hasValue s = true ↔ s ≠ "" := by
  simp [hasValue]

theorem requiredIf_iff (other value field : String) :
    requiredIf other value field = true ↔ (other = value → field ≠ "") := by
  unfold requiredIf
  by_cases h : other = value <;> simp [h, hasValue]

theorem isOneOf_iff (vals : List String) (s : String) :
    isOneOf vals s = true ↔ s ∈ vals := by
  simp [isOneOf]

theorem runTags_nil_eq_nil (ns : String) : runTags ns [] = [] ↔ True := by
  simp [runTags]

theorem runTags_cons_eq_nil (ns tag : String) (ok : Bool) (rest : List (String × Bool)) :
    runTags ns ((tag, ok) :: rest) = [] ↔ ok = true ∧ runTags ns rest = [] := by
  cases ok <;> simp [runTags]

theorem diveFrom_eq_nil_iff {α : Type} (f : String → α → List FieldError) (p : α → Prop)
    (hf : ∀ ns x, f ns x = [] ↔ p x) (ns : String) (i : Nat) (xs : List α) :
    diveFrom f ns i xs = [] ↔ ∀ x ∈ xs, p x := by
  induction xs generalizing i with
  | nil => simp [diveFrom]
  | cons x rest ih => simp [diveFrom, hf, ih]

theorem validateBuildOutput_eq_nil_iff (ns : String) (o : BuildOutput) :
    validateBuildOutput ns o = [] ↔ OutputRule o := by
  simp only [validateBuildOutput, List.append_eq_nil, runTags_cons_eq_nil, runTags_nil_eq_nil,
    OutputRule, requiredIf_iff, isOneOf_iff, hasValue_iff, List.mem_cons, List.not_mem_nil,
    or_false, and_true]
  constructor
  · intro h
    tauto
  · intro h
    have hne : o.Type_ ≠ "" := by
      rcases h.1 with h1 | h1 | h1 <;> rw [h1] <;> decide
    tauto

theorem validateTestArtifact_eq_nil_iff (ns : String) (a : TestArtifact) :
    validateTestArtifact ns a = [] ↔ ArtifactRule a := by
  simp only [validateTestArtifact, List.append_eq_nil, runTags_cons_eq_nil, runTags_nil_eq_nil,
    ArtifactRule, isOneOf_iff, hasValue_iff, List.mem_cons, List.not_mem_nil,
    or_false, and_true]
  constructor
  · intro h
    tauto
  · intro h
    have hne : a.Type_ ≠ "" := by
      rcases h.1 with h1 | h1 <;> rw [h1] <;> decide
    tauto

theorem validateDeployConfig_eq_nil_iff (ns : String) (d : DeployConfig) :
    validateDeployConfig ns d = [] ↔ DeployRule d := by
  simp only [validateDeployConfig, List.append_eq_nil, runTags_cons_eq_nil, runTags_nil_eq_nil,
    DeployRule, isOneOf_iff, hasValue_iff, List.mem_cons, List.not_mem_nil,
    or_false, and_true]
  constructor
  · intro h
    tauto
  · intro h
    have hne : d.Artifact ≠ "" := by
      rcases h.1 with h1 | h1 | h1 <;> rw [h1] <;> decide
    tauto

theorem omitemptyDive_eq_nil_iff {α : Type} (f : String → α → List FieldError) (p : α → Prop)
    (hf : ∀ ns x, f ns x = [] ↔ p x) (ns : String) (s : Option (List α)) :
    omitemptyDive f ns s = [] ↔ ∀ x ∈ s.getD [], p x := by
  cases s with
  | none => simp [omitemptyDive, hasValueSlice]
  | some xs => simp [omitemptyDive, hasValueSlice, diveFrom_eq_nil_iff f p hf]

theorem requiredMin1Dive_eq_nil_iff {α : Type} (f : String → α → List FieldError)
    (p : α → Prop) (hf : ∀ ns x, f ns x = [] ↔ p x) (ns : String) (s : Option (List α)) :
    requiredMin1Dive f ns s = [] ↔ 1 ≤ (s.getD []).length ∧ ∀ x ∈ s.getD [], p x := by
  cases s with
  | none => simp [requiredMin1Dive, hasValueSlice]
  | some xs =>
    cases xs with
    | nil => simp [requiredMin1Dive, hasValueSlice, sliceLen]
    | cons x rest =>
      simp [requiredMin1Dive, hasValueSlice, sliceLen, diveFrom_eq_nil_iff f p hf]

theorem validateBuildStep_eq_nil_iff (ns : String) (s : BuildStep) :
    validateBuildStep ns s = [] ↔ BuildStepRule s := by
  simp only [validateBuildStep, List.append_eq_nil, runTags_cons_eq_nil, runTags_nil_eq_nil, BuildStepRule,
    hasValue_iff, false_implies, implies_true,
    and_true, omitemptyDive_eq_nil_iff validateBuildOutput OutputRule
      validateBuildOutput_eq_nil_iff, and_assoc]

theorem validateTestStep_eq_nil_iff (ns : String) (s : TestStep) :
    validateTestStep ns s = [] ↔ TestStepRule s := by
  simp only [validateTestStep, List.append_eq_nil, runTags_cons_eq_nil, runTags_nil_eq_nil, TestStepRule,
    hasValue_iff, false_implies, implies_true,
    and_true, omitemptyDive_eq_nil_iff validateTestArtifact ArtifactRule
      validateTestArtifact_eq_nil_iff, and_assoc]

theorem validateBuildConfig_eq_nil_iff (ns : String) (b : BuildConfig) :
    validateBuildConfig ns b = [] ↔ BuildRule b := by
  simp only [validateBuildConfig, BuildRule,
    requiredMin1Dive_eq_nil_iff validateBuildStep BuildStepRule validateBuildStep_eq_nil_iff]

theorem validateTestConfig_eq_nil_iff (ns : String) (t : TestConfig) :
    validateTestConfig ns t = [] ↔ TestRule t := by
  simp only [validateTestConfig, TestRule,
    requiredMin1Dive_eq_nil_iff validateTestStep TestStepRule validateTestStep_eq_nil_iff]

theorem validateStruct_eq_nil_iff (cfg : ShipinatorConfig) :
    validateStruct cfg = [] ↔ SectionsRule cfg := by
  obtain ⟨b, t, d⟩ := cfg
  cases b <;> cases t <;> cases d <;>
    simp [validateStruct, omitemptyStruct, SectionsRule, validateBuildConfig_eq_nil_iff,
      validateTestConfig_eq_nil_iff, validateDeployConfig_eq_nil_iff]

/-- `Load` on a decoded document succeeds exactly when some section is present
and the validator reports nothing. -/
theorem Load_document_ok_iff (cfg : ShipinatorConfig) :
    Load (.document cfg) = (some cfg, none) ↔ SchemaRules cfg := by
  unfold SchemaRules
  rw [← validateStruct_eq_nil_iff]
  obtain ⟨b, t, d⟩ := cfg
  simp only [Load, Decode]
  cases hv : validateStruct ⟨b, t, d⟩ <;> cases b <;> cases t <;> cases d <;> simp

theorem Load_document_cases (cfg : ShipinatorConfig) :
    Load (.document cfg) = (some cfg, none) ∨ Failed (Load (.document cfg)) := by
  simp only [Load, Decode, Failed]
  split
  · simp
  · split <;> simp

theorem Load_document_failed_iff (cfg : ShipinatorConfig) :
    Failed (Load (.document cfg)) ↔ ¬ SchemaRules cfg := by
  rw [← Load_document_ok_iff]
  rcases Load_document_cases cfg with h | h
  · simp [h, Failed]
  · constructor
    · intro _ h2
      rw [h2] at h
      simp [Failed] at h
    · intro _; exact h

theorem buildStepRule_withOutput (name run : String) (before after : List BuildOutput)
    (o : BuildOutput) :
    BuildStepRule { Name := name, Run := run, Outputs := some (before ++ o :: after) } ↔
      OutputRule o ∧ name ≠ "" ∧ run ≠ "" ∧ ∀ x ∈ before ++ after, OutputRule x := by
  simp only [BuildStepRule, Option.getD_some, List.mem_append, List.mem_cons]
  constructor
  · rintro ⟨h1, h2, h3⟩
    refine ⟨h3 o (Or.inr (Or.inl rfl)), h1, h2, ?_⟩
    intro x hx
    exact h3 x (hx.elim Or.inl (fun h => Or.inr (Or.inr h)))
  · rintro ⟨ho, h1, h2, h3⟩
    refine ⟨h1, h2, ?_⟩
    intro x hx
    rcases hx with hx | hx | hx
    · exact h3 x (Or.inl hx)
    · exact hx ▸ ho
    · exact h3 x (Or.inr hx)

theorem schemaRules_docWithOutput (pre : List BuildStep) (name run : String)
    (before after : List BuildOutput) (post : List BuildStep)
    (test : Option TestConfig) (deploy : Option DeployConfig) (o : BuildOutput) :
    SchemaRules (docWithOutput pre name run before after post test deploy o) ↔
      OutputRule o ∧ (name ≠ "" ∧ run ≠ "" ∧ ∀ x ∈ before ++ after, OutputRule x) ∧
        (∀ s ∈ pre ++ post, BuildStepRule s) ∧
        (∀ t, test = some t → TestRule t) ∧ (∀ d, deploy = some d → DeployRule d) := by
  simp only [SchemaRules, SectionsRule, docWithOutput, BuildRule]
  simp only [Option.some.injEq, forall_eq', Option.getD_some, List.mem_append, List.mem_cons,
    ne_eq, not_false_eq_true, true_or, true_and, reduceCtorEq, List.length_append,
    List.length_cons]
  constructor
  · rintro ⟨⟨_, h⟩, ht, hd⟩
    have h1 := (buildStepRule_withOutput name run before after o).1 (h _ (Or.inr (Or.inl rfl)))
    refine ⟨h1.1, ⟨h1.2.1, h1.2.2.1, ?_⟩, ?_, ht, hd⟩
    · intro x hx
      exact h1.2.2.2 x (List.mem_append.2 hx)
    · intro s hs
      exact h s (hs.elim Or.inl (fun h => Or.inr (Or.inr h)))
  · rintro ⟨ho, ⟨h1, h2, h3⟩, hs, ht, hd⟩
    refine ⟨⟨by omega, ?_⟩, ht, hd⟩
    intro s hmem
    rcases hmem with hmem | hmem | hmem
    · exact hs s (Or.inl hmem)
    · rw [hmem]
      exact (buildStepRule_withOutput name run before after o).2
        ⟨ho, h1, h2, fun x hx => h3 x (List.mem_append.1 hx)⟩
    · exact hs s (Or.inr hmem)

/-- Inside a document that loads with some output at the distinguished place,
the rules hold with `o` there exactly when `o` obeys `OutputRule`. -/
theorem docWithOutput_rules_iff (pre : List BuildStep) (name run : String)
    (before after : List BuildOutput) (post : List BuildStep)
    (test : Option TestConfig) (deploy : Option DeployConfig) (o o0 : BuildOutput)
    (h0 : SchemaRules (docWithOutput pre name run before after post test deploy o0)) :
    SchemaRules (docWithOutput pre name run before after post test deploy o) ↔ OutputRule o := by
  rw [schemaRules_docWithOutput] at h0 ⊢
  exact ⟨fun h => h.1, fun h => ⟨h, h0.2⟩⟩

/-! ## Properties of the pipeline `Load` -/

/-- C1: when the input is empty, or its document has none of build, test and
deploy, `Load` returns an error and no document. -/
theorem Load_fails_without_sections (r : Reader)
    (h : r = .empty ∨
      ∃ cfg, r = .document cfg ∧ cfg.Build = none ∧ cfg.Test = none ∧ cfg.Deploy = none) :
    (Load r).1 = none ∧
      ((Load r).2 = some (.parsing "EOF") ∨ (Load r).2 = some .noSections) := by
  rcases h with h | ⟨cfg, h, hb, ht, hd⟩
  · subst h
    simp [Load, Decode]
  · subst h
    simp [Load, Decode, hb, ht, hd]

/-- The empty input and the document without sections both fail. -/
theorem Load_fails_without_sections_witness :
    ((Load .empty).1 = none ∧
      ((Load .empty).2 = some (.parsing "EOF") ∨ (Load .empty).2 = some .noSections)) ∧
    ((Load (.document ⟨none, none, none⟩)).1 = none ∧
      ((Load (.document ⟨none, none, none⟩)).2 = some (.parsing "EOF") ∨
        (Load (.document ⟨none, none, none⟩)).2 = some .noSections)) :=
  ⟨Load_fails_without_sections .empty (Or.inl rfl),
   Load_fails_without_sections (.document ⟨none, none, none⟩)
     (Or.inr ⟨⟨none, none, none⟩, rfl, rfl, rfl, rfl⟩)⟩

/-- C2: inside a pipeline document that is valid apart from the output at
the distinguished place (it loads with some output `o0` there), an output of
type `oci_image` makes `Load` fail when its `ref` is empty, and makes `Load`
succeed when its `ref` is non-empty and its `path` is empty. -/
theorem oci_image_output_ref_required (pre : List BuildStep) (name run : String)
    (before after : List BuildOutput) (post : List BuildStep)
    (test : Option TestConfig) (deploy : Option DeployConfig) (o o0 : BuildOutput)
    (hctx : Load (.document (docWithOutput pre name run before after post test deploy o0)) =
      (some (docWithOutput pre name run before after post test deploy o0), none))
    (hty : o.Type_ = "oci_image") :
    (o.Ref = "" →
      Failed (Load (.document (docWithOutput pre name run before after post test deploy o)))) ∧
    (o.Ref ≠ "" → o.Path = "" →
      Load (.document (docWithOutput pre name run before after post test deploy o)) =
        (some (docWithOutput pre name run before after post test deploy o), none)) := by
  rw [Load_document_ok_iff] at hctx
  have hiff := docWithOutput_rules_iff pre name run before after post test deploy o o0 hctx
  constructor
  · intro href
    rw [Load_document_failed_iff, hiff]
    intro ho
    exact ho.2.2 hty href
  · intro href _
    rw [Load_document_ok_iff, hiff]
    refine ⟨Or.inr (Or.inl hty), ?_, fun _ => href⟩
    intro h
    rw [hty] at h
    exact absurd h (by decide)

/-- An `oci_image` output in a one-step document, without and with a `ref`. -/
theorem oci_image_output_ref_required_witness :
    Failed (Load (.document (docWithOutput [] "image" "docker build ." [] [] [] none none
      ⟨"oci_image", "out/app", ""⟩))) ∧
    Load (.document (docWithOutput [] "image" "docker build ." [] [] [] none none
      ⟨"oci_image", "", "registry.local/app:1"⟩)) =
      (some (docWithOutput [] "image" "docker build ." [] [] [] none none
        ⟨"oci_image", "", "registry.local/app:1"⟩), none) :=
  ⟨(oci_image_output_ref_required [] "image" "docker build ." [] [] [] none none
      ⟨"oci_image", "out/app", ""⟩ ⟨"binary", "bin/app", ""⟩ (by decide) rfl).1 rfl,
   (oci_image_output_ref_required [] "image" "docker build ." [] [] [] none none
      ⟨"oci_image", "", "registry.local/app:1"⟩ ⟨"binary", "bin/app", ""⟩ (by decide) rfl).2
      (by decide) rfl⟩

/-- C3: inside a pipeline document that is valid apart from the output at
the distinguished place, an output of type `binary` or `helm_chart` makes
`Load` fail when its `path` is empty and succeed when its `path` is non-empty,
whatever its `ref` is. -/
theorem binary_helm_chart_output_path_required (pre : List BuildStep) (name run : String)
    (before after : List BuildOutput) (post : List BuildStep)
    (test : Option TestConfig) (deploy : Option DeployConfig) (o o0 : BuildOutput)
    (hctx : Load (.document (docWithOutput pre name run before after post test deploy o0)) =
      (some (docWithOutput pre name run before after post test deploy o0), none))
    (hty : o.Type_ = "binary" ∨ o.Type_ = "helm_chart") :
    (o.Path = "" →
      Failed (Load (.document (docWithOutput pre name run before after post test deploy o)))) ∧
    (o.Path ≠ "" →
      Load (.document (docWithOutput pre name run before after post test deploy o)) =
        (some (docWithOutput pre name run before after post test deploy o), none)) := by
  rw [Load_document_ok_iff] at hctx
  have hiff := docWithOutput_rules_iff pre name run before after post test deploy o o0 hctx
  constructor
  · intro hpath
    rw [Load_document_failed_iff, hiff]
    intro ho
    exact ho.2.1 hty hpath
  · intro hpath
    rw [Load_document_ok_iff, hiff]
    refine ⟨?_, fun _ => hpath, ?_⟩
    · rcases hty with h | h
      · exact Or.inl h
      · exact Or.inr (Or.inr h)
    · intro h
      rcases hty with h1 | h1 <;> rw [h1] at h <;> exact absurd h (by decide)

/-- A `helm_chart` output without a `path` and a `binary` output with both
`path` and `ref`, in a one-step document. -/
theorem binary_helm_chart_output_path_required_witness :
    Failed (Load (.document (docWithOutput [] "chart" "helm package ." [] [] [] none none
      ⟨"helm_chart", "", "registry.local/chart"⟩))) ∧
    Load (.document (docWithOutput [] "chart" "helm package ." [] [] [] none none
      ⟨"binary", "bin/app", "registry.local/app:1"⟩)) =
      (some (docWithOutput [] "chart" "helm package ." [] [] [] none none
        ⟨"binary", "bin/app", "registry.local/app:1"⟩), none) :=
  ⟨(binary_helm_chart_output_path_required [] "chart" "helm package ." [] [] [] none none
      ⟨"helm_chart", "", "registry.local/chart"⟩ ⟨"oci_image", "", "r"⟩ (by decide)
      (Or.inr rfl)).1 rfl,
   (binary_helm_chart_output_path_required [] "chart" "helm package ." [] [] [] none none
      ⟨"binary", "bin/app", "registry.local/app:1"⟩ ⟨"oci_image", "", "r"⟩ (by decide)
      (Or.inl rfl)).2 (by decide)⟩

/-- C4: a pipeline document with a build output, at any index of any build
step, whose type is none of `binary`, `oci_image`, `helm_chart` (the empty
type included) makes `Load` fail, whatever the output's `path` and `ref`. -/
theorem output_type_outside_enumeration_fails (cfg : ShipinatorConfig) (b : BuildConfig)
    (steps : List BuildStep) (i : Nat) (s : BuildStep) (outs : List BuildOutput) (j : Nat)
    (o : BuildOutput)
    (hb : cfg.Build = some b) (hsteps : b.Steps = some steps) (hs : steps[i]? = some s)
    (houts : s.Outputs = some outs) (ho : outs[j]? = some o)
    (hty : o.Type_ ≠ "binary" ∧ o.Type_ ≠ "oci_image" ∧ o.Type_ ≠ "helm_chart") :
    Failed (Load (.document cfg)) := by
  rw [Load_document_failed_iff]
  intro hr
  have h1 := (hr.2.1 b hb).2 s (by rw [hsteps]; exact List.getElem?_mem hs)
  have h2 := h1.2.2 o (by rw [houts]; exact List.getElem?_mem ho)
  rcases h2.1 with h | h | h
  · exact hty.1 h
  · exact hty.2.1 h
  · exact hty.2.2 h

/-- The second output of the step has the type `tarball`. -/
theorem output_type_outside_enumeration_fails_witness :
    Failed (Load (.document
      ⟨some ⟨some [⟨"go-build", "go build ./...",
          some [⟨"binary", "bin/app", ""⟩, ⟨"tarball", "out.tgz", "r"⟩]⟩]⟩, none, none⟩)) :=
  output_type_outside_enumeration_fails _ _ _ 0 _ _ 1 ⟨"tarball", "out.tgz", "r"⟩
    rfl rfl rfl rfl rfl (by decide)

/-- C5: a pipeline document with a test artifact, at any index of any test
step, whose `path` is empty makes `Load` fail, whatever the artifact's type. -/
theorem test_artifact_empty_path_fails (cfg : ShipinatorConfig) (t : TestConfig)
    (steps : List TestStep) (i : Nat) (s : TestStep) (arts : List TestArtifact) (j : Nat)
    (a : TestArtifact)
    (ht : cfg.Test = some t) (hsteps : t.Steps = some steps) (hs : steps[i]? = some s)
    (harts : s.Artifacts = some arts) (ha : arts[j]? = some a)
    (hpath : a.Path = "") :
    Failed (Load (.document cfg)) := by
  rw [Load_document_failed_iff]
  intro hr
  have h1 := (hr.2.2.1 t ht).2 s (by rw [hsteps]; exact List.getElem?_mem hs)
  have h2 := h1.2.2 a (by rw [harts]; exact List.getElem?_mem ha)
  exact h2.2 hpath

/-- A `coverage` artifact without a `path`. -/
theorem test_artifact_empty_path_fails_witness :
    Failed (Load (.document
      ⟨none, some ⟨some [⟨"unit", "go test ./...", false, some [⟨"coverage", ""⟩]⟩]⟩,
        none⟩)) :=
  test_artifact_empty_path_fails _ _ _ 0 _ _ 0 ⟨"coverage", ""⟩ rfl rfl rfl rfl rfl rfl

/-- C6: a pipeline document in which some build step or some test step, at
whatever index `i` of its step sequence, has an empty `name` or an empty `run`
makes `Load` fail. -/
theorem step_empty_name_or_run_fails (cfg : ShipinatorConfig)
    (h : (∃ (b : BuildConfig) (steps : List BuildStep) (i : Nat) (s : BuildStep),
            cfg.Build = some b ∧ b.Steps = some steps ∧ steps[i]? = some s ∧
              (s.Name = "" ∨ s.Run = "")) ∨
         (∃ (t : TestConfig) (steps : List TestStep) (i : Nat) (s : TestStep),
            cfg.Test = some t ∧ t.Steps = some steps ∧ steps[i]? = some s ∧
              (s.Name = "" ∨ s.Run = ""))) :
    Failed (Load (.document cfg)) := by
  rw [Load_document_failed_iff]
  intro hr
  rcases h with ⟨b, steps, i, s, hb, hsteps, hs, hbad⟩ | ⟨t, steps, i, s, ht, hsteps, hs, hbad⟩
  · have h1 := (hr.2.1 b hb).2 s (by rw [hsteps]; exact List.getElem?_mem hs)
    exact hbad.elim h1.1 h1.2.1
  · have h1 := (hr.2.2.1 t ht).2 s (by rw [hsteps]; exact List.getElem?_mem hs)
    exact hbad.elim h1.1 h1.2.1

/-- The second build step has no name. -/
theorem step_empty_name_or_run_fails_witness :
    Failed (Load (.document
      ⟨some ⟨some [⟨"go-build", "go build ./...", none⟩, ⟨"", "make dist", none⟩]⟩,
        none, none⟩)) :=
  step_empty_name_or_run_fails _
    (Or.inl ⟨_, _, 1, ⟨"", "make dist", none⟩,
      rfl, rfl, rfl, Or.inl rfl⟩)

/-- C7: a pipeline document whose build section is present with zero steps
(nil or empty), or whose test section is present with zero steps, makes `Load`
fail, whatever the other sections are. -/
theorem section_without_steps_fails (cfg : ShipinatorConfig)
    (h : (∃ b, cfg.Build = some b ∧ sliceLen b.Steps = 0) ∨
         (∃ t, cfg.Test = some t ∧ sliceLen t.Steps = 0)) :
    Failed (Load (.document cfg)) := by
  rw [Load_document_failed_iff]
  intro hr
  rcases h with ⟨b, hb, hlen⟩ | ⟨t, ht, hlen⟩
  · have h1 := (hr.2.1 b hb).1
    cases hst : b.Steps <;> simp [hst, sliceLen] at h1 hlen
    simp [hlen] at h1
  · have h1 := (hr.2.2.1 t ht).1
    cases hst : t.Steps <;> simp [hst, sliceLen] at h1 hlen
    simp [hlen] at h1

/-- An empty build section beside a valid deploy section. -/
theorem section_without_steps_fails_witness :
    Failed (Load (.document
      ⟨some ⟨some []⟩, none, some ⟨"helm_chart", "prod-cluster", "apps"⟩⟩)) :=
  section_without_steps_fails _ (Or.inl ⟨⟨some []⟩, rfl, rfl⟩)

/-- C8: on a document whose only section is deploy, `Load` succeeds exactly
when `artifact` is one of `binary`, `oci_image`, `helm_chart` and `target` and
`namespace` are both non-empty; when it does not succeed it fails. -/
theorem deploy_only_loads_iff (d : DeployConfig) :
    (Load (.document (deployOnly d)) = (some (deployOnly d), none) ↔
      (d.Artifact = "binary" ∨ d.Artifact = "oci_image" ∨ d.Artifact = "helm_chart") ∧
        d.Target ≠ "" ∧ d.Namespace ≠ "") ∧
    (Load (.document (deployOnly d)) = (some (deployOnly d), none) ∨
      Failed (Load (.document (deployOnly d)))) := by
  refine ⟨?_, Load_document_cases _⟩
  rw [Load_document_ok_iff]
  simp [SchemaRules, SectionsRule, deployOnly, DeployRule]

/-- C9: on every input `Load` either returns an error with a nil document, or
returns no error with a document, the decoded one, that satisfies every rule
of the schema; no partially valid document is returned. -/
theorem Load_all_or_nothing (r : Reader) :
    Failed (Load r) ∨
      ∃ cfg, r = .document cfg ∧ Load r = (some cfg, none) ∧ SchemaRules cfg := by
  cases r with
  | empty => left; simp [Load, Decode, Failed]
  | invalid cause => left; simp [Load, Decode, Failed]
  | document cfg =>
    rcases Load_document_cases cfg with h | h
    · exact Or.inr ⟨cfg, rfl, h, (Load_document_ok_iff cfg).1 h⟩
    · exact Or.inl h

/-! ## The decoder: unknown fields -/

theorem unknownFields_ne_nil (fields : List String) (pairs : List (String × Node))
    (h : HasUnknownKey fields pairs) : unknownFields fields pairs ≠ [] := by
  obtain ⟨p, hp, hnot⟩ := h
  unfold unknownFields
  intro hnil
  rw [List.map_eq_nil_iff, List.filter_eq_nil_iff] at hnil
  have := hnil p hp
  simp [hnot] at this

theorem lookup_of_mem (pairs : List (String × Node)) (key : String) (n : Node)
    (hd : hasDuplicateKey pairs = false) (hm : (key, n) ∈ pairs) :
    pairs.lookup key = some n := by
  induction pairs with
  | nil => simp at hm
  | cons p rest ih =>
    obtain ⟨k, v⟩ := p
    simp only [hasDuplicateKey, Bool.or_eq_false_iff, List.any_eq_false, beq_iff_eq] at hd
    rcases List.mem_cons.1 hm with h | h
    · simp only [Prod.mk.injEq] at h
      obtain ⟨hk, hv⟩ := h
      subst hk hv
      simp [List.lookup]
    · have hne : key ≠ k := by
        intro hk
        exact hd.1 (key, n) h hk
      have hbeq : (key == k) = false := by simp [hne]
      simp only [List.lookup, hbeq]
      exact ih hd.2 h

theorem fieldNode_of_mem (pairs : List (String × Node)) (key : String) (n : Node)
    (hd : hasDuplicateKey pairs = false) (hm : (key, n) ∈ pairs) :
    fieldNode pairs key = n := by
  unfold fieldNode
  rw [lookup_of_mem pairs key n hd hm]
  rfl

theorem unmarshalSlice_errors {α : Type} (f : Node → Decoded α) (items : List Node)
    (pairs : List (String × Node)) (hm : Node.mapping pairs ∈ items)
    (he : (f (.mapping pairs)).2 ≠ []) :
    (unmarshalSlice f (.sequence items)).2 ≠ [] := by
  simp only [unmarshalSlice]
  intro hnil
  rw [List.flatMap_eq_nil_iff] at hnil
  have hmem : f (.mapping pairs) ∈ (items.filter fun n => !n.isNull).map f :=
    List.mem_map.2 ⟨_, List.mem_filter.2 ⟨hm, by simp [Node.isNull]⟩, rfl⟩
  exact he (hnil _ hmem)

theorem unmarshalPtr_errors {α : Type} (f : Node → Decoded α) (pairs : List (String × Node))
    (he : (f (.mapping pairs)).2 ≠ []) : (unmarshalPtr f (.mapping pairs)).2 ≠ [] := by
  simpa [unmarshalPtr] using he

theorem unmarshalBuildOutput_errors (output : List (String × Node))
    (h : HasUnknownKey ["type", "path", "ref"] output) :
    (unmarshalBuildOutput (.mapping output)).2 ≠ [] := by
  simp only [unmarshalBuildOutput]
  split
  · simp
  · have := unknownFields_ne_nil _ _ h
    simp [this]

theorem unmarshalTestArtifact_errors (artifact : List (String × Node))
    (h : HasUnknownKey ["type", "path"] artifact) :
    (unmarshalTestArtifact (.mapping artifact)).2 ≠ [] := by
  simp only [unmarshalTestArtifact]
  split
  · simp
  · have := unknownFields_ne_nil _ _ h
    simp [this]

theorem unmarshalDeployConfig_errors (deploy : List (String × Node))
    (h : HasUnknownKey ["artifact", "target", "namespace"] deploy) :
    (unmarshalDeployConfig (.mapping deploy)).2 ≠ [] := by
  simp only [unmarshalDeployConfig]
  split
  · simp
  · have := unknownFields_ne_nil _ _ h
    simp [this]

theorem unmarshalBuildStep_errors (step : List (String × Node))
    (h : HasUnknownKey ["name", "run", "outputs"] step ∨
      ∃ outputs output, ("outputs", Node.sequence outputs) ∈ step ∧
        Node.mapping output ∈ outputs ∧ HasUnknownKey ["type", "path", "ref"] output) :
    (unmarshalBuildStep (.mapping step)).2 ≠ [] := by
  simp only [unmarshalBuildStep]
  split
  · simp
  · rename_i hd
    rcases h with h | ⟨outputs, output, h1, h2, h3⟩
    · have := unknownFields_ne_nil _ _ h
      simp [this]
    · rw [fieldNode_of_mem step "outputs" _ (by simpa using hd) h1]
      have := unmarshalSlice_errors unmarshalBuildOutput outputs output h2
        (unmarshalBuildOutput_errors output h3)
      simp [this]

theorem unmarshalTestStep_errors (step : List (String × Node))
    (h : HasUnknownKey ["name", "run", "parallel", "artifacts"] step ∨
      ∃ artifacts artifact, ("artifacts", Node.sequence artifacts) ∈ step ∧
        Node.mapping artifact ∈ artifacts ∧ HasUnknownKey ["type", "path"] artifact) :
    (unmarshalTestStep (.mapping step)).2 ≠ [] := by
  simp only [unmarshalTestStep]
  split
  · simp
  · rename_i hd
    rcases h with h | ⟨artifacts, artifact, h1, h2, h3⟩
    · have := unknownFields_ne_nil _ _ h
      simp [this]
    · rw [fieldNode_of_mem step "artifacts" _ (by simpa using hd) h1]
      have := unmarshalSlice_errors unmarshalTestArtifact artifacts artifact h2
        (unmarshalTestArtifact_errors artifact h3)
      simp [this]

theorem unmarshalBuildConfig_errors (build : List (String × Node))
    (h : HasUnknownKey ["steps"] build ∨
      ∃ steps step, ("steps", Node.sequence steps) ∈ build ∧ Node.mapping step ∈ steps ∧
        (HasUnknownKey ["name", "run", "outputs"] step ∨
          ∃ outputs output, ("outputs", Node.sequence outputs) ∈ step ∧
            Node.mapping output ∈ outputs ∧ HasUnknownKey ["type", "path", "ref"] output)) :
    (unmarshalBuildConfig (.mapping build)).2 ≠ [] := by
  simp only [unmarshalBuildConfig]
  split
  · simp
  · rename_i hd
    rcases h with h | ⟨steps, step, h1, h2, h3⟩
    · have := unknownFields_ne_nil _ _ h
      simp [this]
    · rw [fieldNode_of_mem build "steps" _ (by simpa using hd) h1]
      have := unmarshalSlice_errors unmarshalBuildStep steps step h2
        (unmarshalBuildStep_errors step h3)
      simp [this]

theorem unmarshalTestConfig_errors (test : List (String × Node))
    (h : HasUnknownKey ["steps"] test ∨
      ∃ steps step, ("steps", Node.sequence steps) ∈ test ∧ Node.mapping step ∈ steps ∧
        (HasUnknownKey ["name", "run", "parallel", "artifacts"] step ∨
          ∃ artifacts artifact, ("artifacts", Node.sequence artifacts) ∈ step ∧
            Node.mapping artifact ∈ artifacts ∧ HasUnknownKey ["type", "path"] artifact)) :
    (unmarshalTestConfig (.mapping test)).2 ≠ [] := by
  simp only [unmarshalTestConfig]
  split
  · simp
  · rename_i hd
    rcases h with h | ⟨steps, step, h1, h2, h3⟩
    · have := unknownFields_ne_nil _ _ h
      simp [this]
    · rw [fieldNode_of_mem test "steps" _ (by simpa using hd) h1]
      have := unmarshalSlice_errors unmarshalTestStep steps step h2
        (unmarshalTestStep_errors step h3)
      simp [this]

theorem unmarshalShipinatorConfig_errors (root : Node) (h : UnknownKeyInDocument root) :
    (unmarshalShipinatorConfig root).2 ≠ [] := by
  obtain ⟨pairs, hroot, h⟩ := h
  subst hroot
  simp only [unmarshalShipinatorConfig]
  split
  · simp
  · rename_i hd
    have hd1 : hasDuplicateKey pairs = false := by simpa using hd
    rcases h with h | ⟨build, h1, h2⟩ | ⟨test, h1, h2⟩ | ⟨deploy, h1, h2⟩
    · have := unknownFields_ne_nil _ _ h
      simp [this]
    · rw [fieldNode_of_mem pairs "build" _ hd1 h1]
      have := unmarshalPtr_errors unmarshalBuildConfig build
        (unmarshalBuildConfig_errors build h2)
      simp [this]
    · rw [fieldNode_of_mem pairs "test" _ hd1 h1]
      have := unmarshalPtr_errors unmarshalTestConfig test
        (unmarshalTestConfig_errors test h2)
      simp [this]
    · rw [fieldNode_of_mem pairs "deploy" _ hd1 h1]
      have := unmarshalPtr_errors unmarshalDeployConfig deploy
        (unmarshalDeployConfig_errors deploy h2)
      simp [this]

theorem reader_of_errors (root : Node) (h : (unmarshalShipinatorConfig root).2 ≠ []) :
    ∃ cause, Stream.reader (.document root) = .invalid cause := by
  simp only [Stream.reader]
  cases he : (unmarshalShipinatorConfig root).2 with
  | nil => exact absurd he h
  | cons e es => exact ⟨_, rfl⟩

theorem reader_of_no_errors (root : Node) (h : (unmarshalShipinatorConfig root).2 = []) :
    Stream.reader (.document root) = .document (unmarshalShipinatorConfig root).1 := by
  simp only [Stream.reader, h]

/-- C15: a document that is a mapping with a key outside the schema, at the top
level or inside build, test, deploy, a step, an output or an artifact, makes
`Load` fail with the parse error, whatever the known fields hold. -/
theorem Load_rejects_unknown_fields (root : Node) (h : UnknownKeyInDocument root) :
    ∃ cause, Load (Stream.reader (.document root)) = (none, some (.parsing cause)) := by
  obtain ⟨cause, hc⟩ := reader_of_errors root (unmarshalShipinatorConfig_errors root h)
  exact ⟨cause, by rw [hc]; rfl⟩

/-- The key `step` beside `steps` is refused, although the document without it
loads. -/
theorem Load_rejects_unknown_fields_witness :
    (∃ cause, Load (Stream.reader (.document typoNode)) = (none, some (.parsing cause))) ∧
    Load (Stream.reader (.document goBuildNode)) = (some goBuildDoc, none) :=
  ⟨Load_rejects_unknown_fields typoNode
    ⟨_, rfl, Or.inr (Or.inl ⟨_, List.Mem.head _, Or.inl ⟨("step", .null), List.Mem.head _,
      by decide⟩⟩)⟩, by decide⟩

/-! ## The decoder on the node tree of a document -/

theorem unmarshalSlice_sliceNode {α : Type} (f : Node → Decoded α) (g : α → Node)
    (h : α → α) (hfg : ∀ x, f (g x) = (h x, [])) (hnull : ∀ x, (g x).isNull = false)
    (s : Option (List α)) :
    unmarshalSlice f (sliceNode g s) = (emptyForNil (s.map fun xs => xs.map h), []) := by
  have hfilter : ∀ xs : List α, (xs.map g).filter (fun n => !n.isNull) = xs.map g := by
    intro xs
    rw [List.filter_eq_self]
    intro n hn
    obtain ⟨x, _, hx⟩ := List.mem_map.1 hn
    simp [← hx, hnull x]
  cases s with
  | none => rfl
  | some xs =>
    simp only [sliceNode, unmarshalSlice, hfilter, List.map_map, Option.map_some',
      emptyForNil]
    have h1 : (fun d : Decoded α => d.1) ∘ f ∘ g = h := by
      funext x
      simp [hfg x]
    have h2 : List.flatMap (List.map (f ∘ g) xs) (fun d => d.2) = [] := by
      rw [List.flatMap_eq_nil_iff]
      intro d hd
      obtain ⟨x, _, hx⟩ := List.mem_map.1 hd
      simp [← hx, hfg x]
    rw [h1, h2]

theorem map_map_id {α : Type} (s : Option (List α)) :
    (s.map fun xs => xs.map id) = s := by
  cases s <;> simp

theorem unmarshal_buildOutputNode (o : BuildOutput) :
    unmarshalBuildOutput (buildOutputNode o) = (o, []) := by
  cases o
  rfl

theorem unmarshal_testArtifactNode (a : TestArtifact) :
    unmarshalTestArtifact (testArtifactNode a) = (a, []) := by
  cases a
  rfl

theorem unmarshal_deployConfigNode (d : DeployConfig) :
    unmarshalDeployConfig (deployConfigNode d) = (d, []) := by
  cases d
  rfl

theorem unmarshal_buildStepNode (s : BuildStep) :
    unmarshalBuildStep (buildStepNode s) = (s.withEmptyForNil, []) := by
  have hs := unmarshalSlice_sliceNode unmarshalBuildOutput buildOutputNode id
    unmarshal_buildOutputNode (fun _ => rfl) s.Outputs
  rw [map_map_id] at hs
  have hf : fieldNode [("name", Node.str s.Name), ("run", Node.str s.Run),
      ("outputs", sliceNode buildOutputNode s.Outputs)] "outputs" =
      sliceNode buildOutputNode s.Outputs := rfl
  have hd : hasDuplicateKey [("name", Node.str s.Name), ("run", Node.str s.Run),
      ("outputs", sliceNode buildOutputNode s.Outputs)] = false := rfl
  simp only [buildStepNode, unmarshalBuildStep, hd, hf, hs]
  rfl

theorem unmarshal_testStepNode (s : TestStep) :
    unmarshalTestStep (testStepNode s) = (s.withEmptyForNil, []) := by
  have hs := unmarshalSlice_sliceNode unmarshalTestArtifact testArtifactNode id
    unmarshal_testArtifactNode (fun _ => rfl) s.Artifacts
  rw [map_map_id] at hs
  have hf : fieldNode [("name", Node.str s.Name), ("run", Node.str s.Run),
      ("parallel", boolNode s.Parallel),
      ("artifacts", sliceNode testArtifactNode s.Artifacts)] "artifacts" =
      sliceNode testArtifactNode s.Artifacts := rfl
  have hd : hasDuplicateKey [("name", Node.str s.Name), ("run", Node.str s.Run),
      ("parallel", boolNode s.Parallel),
      ("artifacts", sliceNode testArtifactNode s.Artifacts)] = false := rfl
  simp only [testStepNode, unmarshalTestStep, hd, hf, hs]
  rfl

theorem unmarshal_buildConfigNode (b : BuildConfig) :
    unmarshalBuildConfig (buildConfigNode b) = (b.withEmptyForNil, []) := by
  have hs := unmarshalSlice_sliceNode unmarshalBuildStep buildStepNode
    BuildStep.withEmptyForNil unmarshal_buildStepNode (fun _ => rfl) b.Steps
  have hf : fieldNode [("steps", sliceNode buildStepNode b.Steps)] "steps" =
      sliceNode buildStepNode b.Steps := rfl
  have hd : hasDuplicateKey [("steps", sliceNode buildStepNode b.Steps)] = false := rfl
  simp only [buildConfigNode, unmarshalBuildConfig, hd, hf, hs]
  rfl

theorem unmarshal_testConfigNode (t : TestConfig) :
    unmarshalTestConfig (testConfigNode t) = (t.withEmptyForNil, []) := by
  have hs := unmarshalSlice_sliceNode unmarshalTestStep testStepNode
    TestStep.withEmptyForNil unmarshal_testStepNode (fun _ => rfl) t.Steps
  have hf : fieldNode [("steps", sliceNode testStepNode t.Steps)] "steps" =
      sliceNode testStepNode t.Steps := rfl
  have hd : hasDuplicateKey [("steps", sliceNode testStepNode t.Steps)] = false := rfl
  simp only [testConfigNode, unmarshalTestConfig, hd, hf, hs]
  rfl

theorem unmarshalPtr_ptrNode {α : Type} (f : Node → Decoded α) (g : α → Node)
    (h : α → α) (hfg : ∀ x, f (g x) = (h x, [])) (hnull : ∀ x, (g x).isNull = false)
    (p : Option α) : unmarshalPtr f (ptrNode g p) = (p.map h, []) := by
  cases p with
  | none => rfl
  | some x =>
    simp only [ptrNode, Option.map_some']
    have hn := hnull x
    cases hg : g x with
    | null => rw [hg] at hn; exact absurd hn (by decide)
    | str v => simp only [unmarshalPtr]; rw [← hg, hfg x]
    | bool b t => simp only [unmarshalPtr]; rw [← hg, hfg x]
    | other t => simp only [unmarshalPtr]; rw [← hg, hfg x]
    | sequence items => simp only [unmarshalPtr]; rw [← hg, hfg x]
    | mapping pairs => simp only [unmarshalPtr]; rw [← hg, hfg x]

theorem unmarshal_documentNode (cfg : ShipinatorConfig) :
    unmarshalShipinatorConfig (documentNode cfg) = (cfg.withEmptyForNil, []) := by
  have hb := unmarshalPtr_ptrNode unmarshalBuildConfig buildConfigNode
    BuildConfig.withEmptyForNil unmarshal_buildConfigNode (fun _ => rfl) cfg.Build
  have ht := unmarshalPtr_ptrNode unmarshalTestConfig testConfigNode
    TestConfig.withEmptyForNil unmarshal_testConfigNode (fun _ => rfl) cfg.Test
  have hdp := unmarshalPtr_ptrNode unmarshalDeployConfig deployConfigNode id
    unmarshal_deployConfigNode (fun _ => rfl) cfg.Deploy
  have hid : Option.map id cfg.Deploy = cfg.Deploy := by cases cfg.Deploy <;> rfl
  rw [hid] at hdp
  have hd : hasDuplicateKey [("build", ptrNode buildConfigNode cfg.Build),
      ("test", ptrNode testConfigNode cfg.Test),
      ("deploy", ptrNode deployConfigNode cfg.Deploy)] = false := rfl
  have hf1 : fieldNode [("build", ptrNode buildConfigNode cfg.Build),
      ("test", ptrNode testConfigNode cfg.Test),
      ("deploy", ptrNode deployConfigNode cfg.Deploy)] "build" =
      ptrNode buildConfigNode cfg.Build := rfl
  have hf2 : fieldNode [("build", ptrNode buildConfigNode cfg.Build),
      ("test", ptrNode testConfigNode cfg.Test),
      ("deploy", ptrNode deployConfigNode cfg.Deploy)] "test" =
      ptrNode testConfigNode cfg.Test := rfl
  have hf3 : fieldNode [("build", ptrNode buildConfigNode cfg.Build),
      ("test", ptrNode testConfigNode cfg.Test),
      ("deploy", ptrNode deployConfigNode cfg.Deploy)] "deploy" =
      ptrNode deployConfigNode cfg.Deploy := rfl
  simp only [documentNode, unmarshalShipinatorConfig, hd, hf1, hf2, hf3, hb, ht, hdp]
  rfl

/-! ## Round trip and the build-only document -/

theorem getD_emptyForNil {α : Type} (s : Option (List α)) :
    (emptyForNil s).getD [] = s.getD [] := by
  cases s <;> rfl

theorem buildStepRule_withEmptyForNil (s : BuildStep) :
    BuildStepRule s.withEmptyForNil ↔ BuildStepRule s := by
  simp only [BuildStepRule, BuildStep.withEmptyForNil, getD_emptyForNil]

theorem testStepRule_withEmptyForNil (s : TestStep) :
    TestStepRule s.withEmptyForNil ↔ TestStepRule s := by
  simp only [TestStepRule, TestStep.withEmptyForNil, getD_emptyForNil]

theorem buildRule_withEmptyForNil (b : BuildConfig) :
    BuildRule b.withEmptyForNil ↔ BuildRule b := by
  have hsteps : b.withEmptyForNil.Steps.getD [] =
      (b.Steps.getD []).map BuildStep.withEmptyForNil := by
    cases b with
    | mk steps => cases steps <;> rfl
  simp only [BuildRule, hsteps, List.length_map, List.mem_map, forall_exists_index, and_imp,
    forall_apply_eq_imp_iff₂, buildStepRule_withEmptyForNil]

theorem testRule_withEmptyForNil (t : TestConfig) :
    TestRule t.withEmptyForNil ↔ TestRule t := by
  have hsteps : t.withEmptyForNil.Steps.getD [] =
      (t.Steps.getD []).map TestStep.withEmptyForNil := by
    cases t with
    | mk steps => cases steps <;> rfl
  simp only [TestRule, hsteps, List.length_map, List.mem_map, forall_exists_index, and_imp,
    forall_apply_eq_imp_iff₂, testStepRule_withEmptyForNil]

theorem schemaRules_withEmptyForNil (cfg : ShipinatorConfig) :
    SchemaRules cfg.withEmptyForNil ↔ SchemaRules cfg := by
  obtain ⟨b, t, d⟩ := cfg
  cases b <;> cases t <;> cases d <;>
    simp [SchemaRules, SectionsRule, ShipinatorConfig.withEmptyForNil,
      buildRule_withEmptyForNil, testRule_withEmptyForNil]

theorem emptyForNil_of_ne_none {α : Type} (s : Option (List α)) (h : s ≠ none) :
    emptyForNil s = s := by
  cases s with
  | none => exact absurd rfl h
  | some xs => rfl

theorem withEmptyForNil_of_noNilSlice (cfg : ShipinatorConfig) (h : NoNilSlice cfg) :
    cfg.withEmptyForNil = cfg := by
  obtain ⟨b, t, d⟩ := cfg
  obtain ⟨hb, ht⟩ := h
  have hbuild : b.map BuildConfig.withEmptyForNil = b := by
    cases b with
    | none => rfl
    | some bc =>
      obtain ⟨h1, h2⟩ := hb bc rfl
      obtain ⟨steps⟩ := bc
      cases steps with
      | none => exact absurd rfl h1
      | some xs =>
        have hx : xs.map BuildStep.withEmptyForNil = xs := by
          conv_rhs => rw [← List.map_id xs]
          apply List.map_congr_left
          intro s hs
          have := h2 s hs
          cases s with
          | mk n r o =>
            simp only [BuildStep.withEmptyForNil, id]
            rw [emptyForNil_of_ne_none o this]
        simp only [Option.map_some', BuildConfig.withEmptyForNil, hx, emptyForNil]
  have htest : t.map TestConfig.withEmptyForNil = t := by
    cases t with
    | none => rfl
    | some tc =>
      obtain ⟨h1, h2⟩ := ht tc rfl
      obtain ⟨steps⟩ := tc
      cases steps with
      | none => exact absurd rfl h1
      | some xs =>
        have hx : xs.map TestStep.withEmptyForNil = xs := by
          conv_rhs => rw [← List.map_id xs]
          apply List.map_congr_left
          intro s hs
          have := h2 s hs
          cases s with
          | mk n r p a =>
            simp only [TestStep.withEmptyForNil, id]
            rw [emptyForNil_of_ne_none a this]
        simp only [Option.map_some', TestConfig.withEmptyForNil, hx, emptyForNil]
  simp only [ShipinatorConfig.withEmptyForNil, hbuild, htest]

theorem emptyForNil_ne_none {α : Type} (s : Option (List α)) : emptyForNil s ≠ none := by
  cases s <;> simp [emptyForNil]

theorem noNilSlice_withEmptyForNil (cfg : ShipinatorConfig) :
    NoNilSlice cfg.withEmptyForNil := by
  obtain ⟨b, t, d⟩ := cfg
  constructor
  · intro bc hbc
    cases b with
    | none => simp [ShipinatorConfig.withEmptyForNil] at hbc
    | some b0 =>
      simp only [ShipinatorConfig.withEmptyForNil, Option.map_some', Option.some.injEq] at hbc
      subst hbc
      refine ⟨emptyForNil_ne_none _, ?_⟩
      intro s hs
      have hsteps : b0.withEmptyForNil.Steps.getD [] =
          (b0.Steps.getD []).map BuildStep.withEmptyForNil := by
        cases b0 with
        | mk steps => cases steps <;> rfl
      rw [hsteps] at hs
      obtain ⟨s0, _, rfl⟩ := List.mem_map.1 hs
      exact emptyForNil_ne_none _
  · intro tc htc
    cases t with
    | none => simp [ShipinatorConfig.withEmptyForNil] at htc
    | some t0 =>
      simp only [ShipinatorConfig.withEmptyForNil, Option.map_some', Option.some.injEq] at htc
      subst htc
      refine ⟨emptyForNil_ne_none _, ?_⟩
      intro s hs
      have hsteps : t0.withEmptyForNil.Steps.getD [] =
          (t0.Steps.getD []).map TestStep.withEmptyForNil := by
        cases t0 with
        | mk steps => cases steps <;> rfl
      rw [hsteps] at hs
      obtain ⟨s0, _, rfl⟩ := List.mem_map.1 hs
      exact emptyForNil_ne_none _

/-! ## The parser on the written document -/

theorem marshalString_of_noLineFeed (indent : Nat) (s : String)
    (h : s.data.contains '\n' = false) : marshalString indent s = .flow s := by
  simp only [marshalString, h, Bool.false_and]
  rfl

theorem readsBack_of_noLineFeed (indent : Nat) (s : String)
    (h : s.data.contains '\n' = false) : readsBack indent s = true := by
  simp [readsBack, marshalString_of_noLineFeed indent s h, Scalar.read]

theorem read_of_readsBack (indent : Nat) (s : String) (h : readsBack indent s = true) :
    (Written.scalar (marshalString indent s)).read = .ok (.str s) := by
  unfold readsBack at h
  rw [Written.read]
  cases hr : (marshalString indent s).read with
  | error e => rw [hr] at h; exact absurd h (by simp)
  | ok value =>
    rw [hr] at h
    have hv : value = s := by simpa using h
    rw [hv]

theorem readPairs_cons (key : String) (w : Written) (node : Node) (ws : List (String × Written))
    (nodes : List (String × Node)) (hw : w.read = .ok node)
    (hws : Written.readPairs ws = .ok nodes) :
    Written.readPairs ((key, w) :: ws) = .ok ((key, node) :: nodes) := by
  simp only [Written.readPairs, hw, hws]

theorem read_mapping (pairs : List (String × Written)) (nodes : List (String × Node))
    (h : Written.readPairs pairs = .ok nodes) :
    (Written.mapping pairs).read = .ok (.mapping nodes) := by
  simp only [Written.read, h]

theorem read_bool (b : Bool) : (Written.bool b).read = .ok (boolNode b) := by
  simp only [Written.read]

theorem readItems_map {α : Type} (f : α → Written) (g : α → Node) (xs : List α)
    (h : ∀ x ∈ xs, (f x).read = .ok (g x)) :
    Written.readItems (xs.map f) = .ok (xs.map g) := by
  induction xs with
  | nil => simp [Written.readItems]
  | cons x xs ih =>
    have hx := h x (List.mem_cons_self _ _)
    have hxs := ih fun y hy => h y (List.mem_cons_of_mem _ hy)
    simp only [List.map_cons, Written.readItems, hx, hxs]

theorem read_marshalSlice {α : Type} (f : α → Written) (g : α → Node) (s : Option (List α))
    (h : ∀ x ∈ s.getD [], (f x).read = .ok (g x)) :
    (marshalSlice f s).read = .ok (sliceNode g s) := by
  cases s with
  | none => simp [marshalSlice, sliceNode, Written.read, Written.readItems]
  | some xs =>
    have := readItems_map f g xs h
    simp only [marshalSlice, sliceNode, Written.read, this]

theorem read_marshalPtr {α : Type} (f : α → Written) (g : α → Node) (p : Option α)
    (h : ∀ x, p = some x → (f x).read = .ok (g x)) :
    (marshalPtr f p).read = .ok (ptrNode g p) := by
  cases p with
  | none => simp [marshalPtr, ptrNode, Written.read]
  | some x => simpa [marshalPtr, ptrNode] using h x rfl

theorem read_marshalBuildOutput (indent : Nat) (o : BuildOutput)
    (h : ∀ p ∈ o.scalars indent, readsBack p.1 p.2 = true) :
    (marshalBuildOutput indent o).read = .ok (buildOutputNode o) := by
  have h1 := read_of_readsBack indent o.Type_ (h (indent, o.Type_) (by simp [BuildOutput.scalars]))
  have h2 := read_of_readsBack indent o.Path (h (indent, o.Path) (by simp [BuildOutput.scalars]))
  have h3 := read_of_readsBack indent o.Ref (h (indent, o.Ref) (by simp [BuildOutput.scalars]))
  exact read_mapping _ _ (readPairs_cons _ _ _ _ _ h1 (readPairs_cons _ _ _ _ _ h2
    (readPairs_cons _ _ _ _ _ h3 (by simp only [Written.readPairs]))))

theorem read_marshalTestArtifact (indent : Nat) (a : TestArtifact)
    (h : ∀ p ∈ a.scalars indent, readsBack p.1 p.2 = true) :
    (marshalTestArtifact indent a).read = .ok (testArtifactNode a) := by
  have h1 := read_of_readsBack indent a.Type_ (h (indent, a.Type_) (by simp [TestArtifact.scalars]))
  have h2 := read_of_readsBack indent a.Path (h (indent, a.Path) (by simp [TestArtifact.scalars]))
  exact read_mapping _ _ (readPairs_cons _ _ _ _ _ h1 (readPairs_cons _ _ _ _ _ h2
    (by simp only [Written.readPairs])))

theorem read_marshalDeployConfig (indent : Nat) (d : DeployConfig)
    (h : ∀ p ∈ d.scalars indent, readsBack p.1 p.2 = true) :
    (marshalDeployConfig indent d).read = .ok (deployConfigNode d) := by
  have h1 := read_of_readsBack indent d.Artifact (h (indent, d.Artifact) (by simp [DeployConfig.scalars]))
  have h2 := read_of_readsBack indent d.Target (h (indent, d.Target) (by simp [DeployConfig.scalars]))
  have h3 := read_of_readsBack indent d.Namespace (h (indent, d.Namespace) (by simp [DeployConfig.scalars]))
  exact read_mapping _ _ (readPairs_cons _ _ _ _ _ h1 (readPairs_cons _ _ _ _ _ h2
    (readPairs_cons _ _ _ _ _ h3 (by simp only [Written.readPairs]))))

theorem read_marshalBuildStep (indent : Nat) (s : BuildStep)
    (h : ∀ p ∈ s.scalars indent, readsBack p.1 p.2 = true) :
    (marshalBuildStep indent s).read = .ok (buildStepNode s) := by
  have h1 := read_of_readsBack indent s.Name (h (indent, s.Name) (by simp [BuildStep.scalars]))
  have h2 := read_of_readsBack indent s.Run (h (indent, s.Run) (by simp [BuildStep.scalars]))
  have h3 := read_marshalSlice (marshalBuildOutput (increaseIndent indent + 2)) buildOutputNode
    s.Outputs (fun o ho => read_marshalBuildOutput _ o fun p hp =>
      h p (by
        simp only [BuildStep.scalars, List.mem_append, List.mem_flatMap]
        exact Or.inr ⟨o, ho, hp⟩))
  exact read_mapping _ _ (readPairs_cons _ _ _ _ _ h1 (readPairs_cons _ _ _ _ _ h2
    (readPairs_cons _ _ _ _ _ h3 (by simp only [Written.readPairs]))))

theorem read_marshalTestStep (indent : Nat) (s : TestStep)
    (h : ∀ p ∈ s.scalars indent, readsBack p.1 p.2 = true) :
    (marshalTestStep indent s).read = .ok (testStepNode s) := by
  have h1 := read_of_readsBack indent s.Name (h (indent, s.Name) (by simp [TestStep.scalars]))
  have h2 := read_of_readsBack indent s.Run (h (indent, s.Run) (by simp [TestStep.scalars]))
  have h3 := read_marshalSlice (marshalTestArtifact (increaseIndent indent + 2)) testArtifactNode
    s.Artifacts (fun a ha => read_marshalTestArtifact _ a fun p hp =>
      h p (by
        simp only [TestStep.scalars, List.mem_append, List.mem_flatMap]
        exact Or.inr ⟨a, ha, hp⟩))
  exact read_mapping _ _ (readPairs_cons _ _ _ _ _ h1 (readPairs_cons _ _ _ _ _ h2
    (readPairs_cons _ _ _ _ _ (read_bool s.Parallel)
      (readPairs_cons _ _ _ _ _ h3 (by simp only [Written.readPairs])))))

theorem read_marshalBuildConfig (indent : Nat) (b : BuildConfig)
    (h : ∀ p ∈ b.scalars indent, readsBack p.1 p.2 = true) :
    (marshalBuildConfig indent b).read = .ok (buildConfigNode b) := by
  have h1 := read_marshalSlice (marshalBuildStep (increaseIndent indent + 2)) buildStepNode
    b.Steps (fun s hs => read_marshalBuildStep _ s fun p hp =>
      h p (by
        simp only [BuildConfig.scalars, List.mem_flatMap]
        exact ⟨s, hs, hp⟩))
  exact read_mapping _ _ (readPairs_cons _ _ _ _ _ h1 (by simp only [Written.readPairs]))

theorem read_marshalTestConfig (indent : Nat) (t : TestConfig)
    (h : ∀ p ∈ t.scalars indent, readsBack p.1 p.2 = true) :
    (marshalTestConfig indent t).read = .ok (testConfigNode t) := by
  have h1 := read_marshalSlice (marshalTestStep (increaseIndent indent + 2)) testStepNode
    t.Steps (fun s hs => read_marshalTestStep _ s fun p hp =>
      h p (by
        simp only [TestConfig.scalars, List.mem_flatMap]
        exact ⟨s, hs, hp⟩))
  exact read_mapping _ _ (readPairs_cons _ _ _ _ _ h1 (by simp only [Written.readPairs]))

theorem read_Marshal (cfg : ShipinatorConfig) (h : ReadBack cfg) :
    (Marshal cfg).read = .ok (documentNode cfg) := by
  obtain ⟨build, test, deploy⟩ := cfg
  have h1 := read_marshalPtr (marshalBuildConfig (increaseIndent 0)) buildConfigNode build
    (fun b hb => read_marshalBuildConfig _ b fun p hp =>
      h p (by subst hb; simp only [ShipinatorConfig.scalars, List.mem_append]; exact Or.inl (Or.inl hp)))
  have h2 := read_marshalPtr (marshalTestConfig (increaseIndent 0)) testConfigNode test
    (fun t ht => read_marshalTestConfig _ t fun p hp =>
      h p (by subst ht; simp only [ShipinatorConfig.scalars, List.mem_append]; exact Or.inl (Or.inr hp)))
  have h3 := read_marshalPtr (marshalDeployConfig (increaseIndent 0)) deployConfigNode deploy
    (fun d hd => read_marshalDeployConfig _ d fun p hp =>
      h p (by subst hd; simp only [ShipinatorConfig.scalars, List.mem_append]; exact Or.inr hp))
  exact read_mapping _ _ (readPairs_cons _ _ _ _ _ h1 (readPairs_cons _ _ _ _ _ h2
    (readPairs_cons _ _ _ _ _ h3 (by simp only [Written.readPairs]))))

theorem readBack_of_noLineFeed (cfg : ShipinatorConfig) (h : NoLineFeed cfg) : ReadBack cfg :=
  fun p hp => readsBack_of_noLineFeed p.1 p.2 (h p hp)

theorem scalars_withEmptyForNil (cfg : ShipinatorConfig) :
    cfg.withEmptyForNil.scalars = cfg.scalars := by
  have hb : ∀ (k : Nat) (s : BuildStep), s.withEmptyForNil.scalars k = s.scalars k := by
    intro k s
    simp only [BuildStep.scalars, BuildStep.withEmptyForNil, getD_emptyForNil]
  have ht : ∀ (k : Nat) (s : TestStep), s.withEmptyForNil.scalars k = s.scalars k := by
    intro k s
    simp only [TestStep.scalars, TestStep.withEmptyForNil, getD_emptyForNil]
  have hbc : ∀ (k : Nat) (b : BuildConfig), b.withEmptyForNil.scalars k = b.scalars k := by
    intro k b
    have hsteps : b.withEmptyForNil.Steps.getD [] =
        (b.Steps.getD []).map BuildStep.withEmptyForNil := by
      cases b with
      | mk steps => cases steps <;> rfl
    simp only [BuildConfig.scalars, hsteps, List.flatMap_map, hb]
  have htc : ∀ (k : Nat) (t : TestConfig), t.withEmptyForNil.scalars k = t.scalars k := by
    intro k t
    have hsteps : t.withEmptyForNil.Steps.getD [] =
        (t.Steps.getD []).map TestStep.withEmptyForNil := by
      cases t with
      | mk steps => cases steps <;> rfl
    simp only [TestConfig.scalars, hsteps, List.flatMap_map, ht]
  obtain ⟨build, test, deploy⟩ := cfg
  cases build <;> cases test <;>
    simp [ShipinatorConfig.scalars, ShipinatorConfig.withEmptyForNil, hbc, htc]

theorem reload_eq (cfg : ShipinatorConfig) (h : ReadBack cfg) :
    reload cfg = Load (.document cfg.withEmptyForNil) := by
  unfold reload Written.stream
  rw [read_Marshal cfg h]
  have hu := unmarshal_documentNode cfg
  show Load (Stream.reader (.document (documentNode cfg))) = _
  rw [reader_of_no_errors _ (by rw [hu]), hu]

/-- C18, amended: let `d` be a document that `Load` accepts.  When no string
of `d` contains a line feed, every string of `d` is read back as itself from
the text `Marshal` writes for it.  When every string of `d` is read back as
itself, `d` serialized under the YAML field names and loaded again is accepted
and comes back as `d` with every nil slice (an absent `outputs` or
`artifacts`) turned into the empty slice; that document round-trips to itself,
and `d` comes back equal when it has no nil slice. -/
theorem reload_of_accepted (d : ShipinatorConfig) (h : Load (.document d) = (some d, none)) :
    (NoLineFeed d → ReadBack d) ∧
    (ReadBack d →
      reload d = (some d.withEmptyForNil, none) ∧
      reload d.withEmptyForNil = (some d.withEmptyForNil, none) ∧
      (NoNilSlice d → reload d = (some d, none))) := by
  refine ⟨readBack_of_noLineFeed d, ?_⟩
  intro hs
  have hr : SchemaRules d.withEmptyForNil :=
    (schemaRules_withEmptyForNil d).2 ((Load_document_ok_iff d).1 h)
  have h1 : reload d = (some d.withEmptyForNil, none) := by
    rw [reload_eq d hs]
    exact (Load_document_ok_iff _).2 hr
  have hs2 : ReadBack d.withEmptyForNil := by
    intro p hp
    rw [scalars_withEmptyForNil] at hp
    exact hs p hp
  have h2 : reload d.withEmptyForNil = (some d.withEmptyForNil, none) := by
    rw [reload_eq _ hs2]
    have hr2 := (schemaRules_withEmptyForNil d.withEmptyForNil).2 hr
    have := (Load_document_ok_iff _).2 hr2
    rw [this]
    have hi : d.withEmptyForNil.withEmptyForNil = d.withEmptyForNil := by
      exact withEmptyForNil_of_noNilSlice _ (noNilSlice_withEmptyForNil d)
    rw [hi]
  refine ⟨h1, h2, ?_⟩
  intro hn
  rw [h1, withEmptyForNil_of_noNilSlice d hn]

/-- The build-only scenario, without a line feed, and a document whose step
runs a script of two lines, written as a block scalar. -/
theorem reload_of_accepted_witness :
    ReadBack goBuildDoc ∧
    reload goBuildDoc = (some goBuildDoc.withEmptyForNil, none) ∧
    reload goBuildDoc.withEmptyForNil = (some goBuildDoc.withEmptyForNil, none) ∧
    reload scriptDoc = (some scriptDoc, none) :=
  ⟨(reload_of_accepted goBuildDoc (by decide)).1 (by decide),
   ((reload_of_accepted goBuildDoc (by decide)).2 (by decide)).1,
   ((reload_of_accepted goBuildDoc (by decide)).2 (by decide)).2.1,
   ((reload_of_accepted scriptDoc (by decide)).2 (by decide)).2.2
     ⟨fun _ hb => by
        cases hb
        exact ⟨by decide, by decide⟩,
      fun _ ht => by cases ht⟩⟩

/-- C18 as stated fails in three ways.  In the build-only scenario the step
has no `outputs` key, its `Outputs` is nil, the encoder writes the empty
sequence and the decoder returns a non-nil empty slice.  A target that is a
single line feed is written as the block scalar `|4+` whose header line the
line feed ends, it is read back as the empty string, and the reloaded document
fails validation.  A step name that starts with a line feed is written under
the indentation indicator `4` with its line at column 12, where the scanner
expects column 14, and the text does not parse. -/
theorem round_trip_as_stated_fails :
    (Load (.document goBuildDoc) = (some goBuildDoc, none) ∧
      reload goBuildDoc =
        (some ⟨some ⟨some [⟨"go-build", "go build ./...", some []⟩]⟩, none, none⟩, none) ∧
      reload goBuildDoc ≠ (some goBuildDoc, none)) ∧
    (Load (.document lineFeedTargetDoc) = (some lineFeedTargetDoc, none) ∧
      marshalString 4 "\n" = .block 4 "|4+\n" ∧
      (marshalString 4 "\n").read = .ok "" ∧
      reload lineFeedTargetDoc =
        (none, some (.validating [⟨"ShipinatorConfig.Deploy.Target", "required"⟩]))) ∧
    (Load (.document lineFeedNameDoc) = (some lineFeedNameDoc, none) ∧
      marshalString 10 "\nx" = .block 10 "|4-\n            x\n" ∧
      ∃ cause, reload lineFeedNameDoc = (none, some (.parsing cause))) := by
  exact ⟨by decide, ⟨by decide, by decide, rfl, by decide⟩, by decide, by decide,
    "yaml: did not find expected key", by decide⟩

/-- C16: a document that consists of a valid build section only is accepted
and returned with `Build` equal to the decoded build section, `Test = nil` and
`Deploy = nil`, both for a decoded document and for a YAML mapping whose only
key is `build`. -/
theorem build_only_document_loads :
    (∀ b, BuildRule b →
      Load (.document ⟨some b, none, none⟩) = (some ⟨some b, none, none⟩, none)) ∧
    (∀ pairs b, unmarshalBuildConfig (.mapping pairs) = (b, []) → BuildRule b →
      Load (Stream.reader (.document (.mapping [("build", .mapping pairs)]))) =
        (some ⟨some b, none, none⟩, none)) := by
  have h1 : ∀ b, BuildRule b →
      Load (.document ⟨some b, none, none⟩) = (some ⟨some b, none, none⟩, none) := by
    intro b hb
    rw [Load_document_ok_iff]
    refine ⟨Or.inl (by simp), ?_, ?_, ?_⟩
    · intro b1 hb1
      simp only [Option.some.injEq] at hb1
      exact hb1 ▸ hb
    · intro t ht
      simp at ht
    · intro d hd
      simp at hd
  refine ⟨h1, ?_⟩
  intro pairs b hdec hb
  have hroot : unmarshalShipinatorConfig (.mapping [("build", .mapping pairs)]) =
      (⟨some b, none, none⟩, []) := by
    have hd : hasDuplicateKey [("build", Node.mapping pairs)] = false := rfl
    have hf1 : fieldNode [("build", Node.mapping pairs)] "build" = .mapping pairs := rfl
    have hf2 : fieldNode [("build", Node.mapping pairs)] "test" = .null := rfl
    have hf3 : fieldNode [("build", Node.mapping pairs)] "deploy" = .null := rfl
    simp only [unmarshalShipinatorConfig, hd, hf1, hf2, hf3, unmarshalPtr, hdec]
    rfl
  rw [reader_of_no_errors _ (by rw [hroot]), hroot]
  exact h1 b hb

/-- The scenario `go-build` running `go build ./...`, no outputs, nothing else. -/
theorem build_only_document_loads_witness :
    Load (Stream.reader (.document goBuildNode)) = (some goBuildDoc, none) ∧
    goBuildDoc.Test = none ∧ goBuildDoc.Deploy = none :=
  ⟨build_only_document_loads.2 _ ⟨some [⟨"go-build", "go build ./...", none⟩]⟩ rfl (by decide),
   rfl, rfl⟩

/-! ## Irrelevant fields, and validation as the conjunction of the rules -/

theorem outputRule_congr (o o1 : BuildOutput) (ht : o.Type_ = o1.Type_)
    (hp : (o.Type_ = "binary" ∨ o.Type_ = "helm_chart") → o.Path = o1.Path)
    (hr : o.Type_ = "oci_image" → o.Ref = o1.Ref) : OutputRule o ↔ OutputRule o1 := by
  unfold OutputRule
  rw [← ht]
  constructor
  · rintro ⟨h1, h2, h3⟩
    exact ⟨h1, fun h => hp h ▸ h2 h, fun h => hr h ▸ h3 h⟩
  · rintro ⟨h1, h2, h3⟩
    exact ⟨h1, fun h => (hp h).symm ▸ h2 h, fun h => (hr h).symm ▸ h3 h⟩

theorem requiredIf_congr (t value a b : String) (h : t = value → a = b) :
    requiredIf t value a = requiredIf t value b := by
  unfold requiredIf
  by_cases ht : t = value
  · rw [h ht]
  · simp [ht]

/-- C17: for each of the three types an output with both `path` and `ref`
non-empty passes validation; two outputs of the same type that agree on the
field the type requires (`path` for `binary` and `helm_chart`, `ref` for
`oci_image`) get the same validation errors, and in any document one loads
exactly when the other does: the other field is ignored and never rejected. -/
theorem irrelevant_output_fields_ignored :
    (∀ ns o, (o.Type_ = "binary" ∨ o.Type_ = "oci_image" ∨ o.Type_ = "helm_chart") →
      o.Path ≠ "" → o.Ref ≠ "" → validateBuildOutput ns o = []) ∧
    (∀ ns o o1, o.Type_ = o1.Type_ →
      ((o.Type_ = "binary" ∨ o.Type_ = "helm_chart") → o.Path = o1.Path) →
      (o.Type_ = "oci_image" → o.Ref = o1.Ref) →
      validateBuildOutput ns o = validateBuildOutput ns o1) ∧
    (∀ pre name run before after post test deploy o o1, o.Type_ = o1.Type_ →
      ((o.Type_ = "binary" ∨ o.Type_ = "helm_chart") → o.Path = o1.Path) →
      (o.Type_ = "oci_image" → o.Ref = o1.Ref) →
      (Load (.document (docWithOutput pre name run before after post test deploy o)) =
          (some (docWithOutput pre name run before after post test deploy o), none) ↔
        Load (.document (docWithOutput pre name run before after post test deploy o1)) =
          (some (docWithOutput pre name run before after post test deploy o1), none))) := by
  refine ⟨?_, ?_, ?_⟩
  · intro ns o ht hp hr
    rw [validateBuildOutput_eq_nil_iff]
    exact ⟨ht, fun _ => hp, fun _ => hr⟩
  · intro ns o o1 ht hp hr
    unfold validateBuildOutput
    rw [← ht, requiredIf_congr o.Type_ "binary" o.Path o1.Path (fun h => hp (Or.inl h)),
      requiredIf_congr o.Type_ "helm_chart" o.Path o1.Path (fun h => hp (Or.inr h)),
      requiredIf_congr o.Type_ "oci_image" o.Ref o1.Ref hr]
  · intro pre name run before after post test deploy o o1 ht hp hr
    rw [Load_document_ok_iff, Load_document_ok_iff, schemaRules_docWithOutput,
      schemaRules_docWithOutput, outputRule_congr o o1 ht hp hr]

/-- An `oci_image` output with a `path` passes, and a `binary` output is
validated the same with and without a `ref`. -/
theorem irrelevant_output_fields_ignored_witness :
    validateBuildOutput "ShipinatorConfig.Build.Steps[0].Outputs[0]"
      ⟨"oci_image", "out/image.tar", "registry.local/app:1"⟩ = [] ∧
    validateBuildOutput "out" ⟨"binary", "bin/app", "registry.local/app:1"⟩ =
      validateBuildOutput "out" ⟨"binary", "bin/app", ""⟩ :=
  ⟨irrelevant_output_fields_ignored.1 _ ⟨"oci_image", "out/image.tar", "registry.local/app:1"⟩
      (Or.inr (Or.inl rfl)) (by decide) (by decide),
   irrelevant_output_fields_ignored.2.1 "out" ⟨"binary", "bin/app", "registry.local/app:1"⟩
      ⟨"binary", "bin/app", ""⟩ rfl (fun _ => rfl) (fun h => absurd h (by decide))⟩

theorem testRule_withParallel (f : TestStep → Bool) (t : TestConfig) :
    TestRule { Steps := t.Steps.map fun steps => steps.map fun s => { s with Parallel := f s } } ↔
      TestRule t := by
  obtain ⟨steps⟩ := t
  cases steps with
  | none => simp [TestRule]
  | some xs =>
    simp only [TestRule, Option.map_some', Option.getD_some, List.length_map, List.mem_map,
      forall_exists_index, and_imp, forall_apply_eq_imp_iff₂]
    constructor
    · rintro ⟨h1, h2⟩
      exact ⟨h1, fun s hs => h2 s hs⟩
    · rintro ⟨h1, h2⟩
      exact ⟨h1, fun s hs => h2 s hs⟩

theorem schemaRules_withParallel (f : TestStep → Bool) (cfg : ShipinatorConfig) :
    SchemaRules (withParallel f cfg) ↔ SchemaRules cfg := by
  obtain ⟨b, t, d⟩ := cfg
  cases b <;> cases t <;> cases d <;>
    simp [SchemaRules, SectionsRule, withParallel, testRule_withParallel]

/-- C19: `Load` accepts a decoded document exactly when (1) a section is
present, (2) each present build or test section has a step, (3) every step
has a name and a run, (4) every output has an enumerated type with `path` for
`binary` and `helm_chart` and `ref` for `oci_image`, (5) every artifact has an
enumerated type and a `path`, (6) a present deploy has an enumerated artifact,
a target and a namespace; otherwise it fails.  Step names may repeat and
outputs or artifacts may be empty (`sameNamesDoc`), and the `parallel` flags
never change the outcome. -/
theorem validation_is_the_schema_rules :
    (∀ cfg, Load (.document cfg) = (some cfg, none) ↔
      (cfg.Build ≠ none ∨ cfg.Test ≠ none ∨ cfg.Deploy ≠ none) ∧
      (∀ b, cfg.Build = some b →
        1 ≤ (b.Steps.getD []).length ∧
        ∀ s ∈ b.Steps.getD [], s.Name ≠ "" ∧ s.Run ≠ "" ∧
          ∀ o ∈ s.Outputs.getD [],
            (o.Type_ = "binary" ∨ o.Type_ = "oci_image" ∨ o.Type_ = "helm_chart") ∧
            ((o.Type_ = "binary" ∨ o.Type_ = "helm_chart") → o.Path ≠ "") ∧
            (o.Type_ = "oci_image" → o.Ref ≠ "")) ∧
      (∀ t, cfg.Test = some t →
        1 ≤ (t.Steps.getD []).length ∧
        ∀ s ∈ t.Steps.getD [], s.Name ≠ "" ∧ s.Run ≠ "" ∧
          ∀ a ∈ s.Artifacts.getD [],
            (a.Type_ = "coverage" ∨ a.Type_ = "test_report") ∧ a.Path ≠ "") ∧
      (∀ d, cfg.Deploy = some d →
        (d.Artifact = "binary" ∨ d.Artifact = "oci_image" ∨ d.Artifact = "helm_chart") ∧
        d.Target ≠ "" ∧ d.Namespace ≠ "")) ∧
    (∀ cfg, Load (.document cfg) = (some cfg, none) ∨ Failed (Load (.document cfg))) ∧
    Load (.document sameNamesDoc) = (some sameNamesDoc, none) ∧
    (∀ f cfg, Load (.document (withParallel f cfg)) = (some (withParallel f cfg), none) ↔
      Load (.document cfg) = (some cfg, none)) := by
  refine ⟨?_, Load_document_cases, by decide, ?_⟩
  · intro cfg
    rw [Load_document_ok_iff]
    rfl
  · intro f cfg
    rw [Load_document_ok_iff, Load_document_ok_iff, schemaRules_withParallel]

end Config
end Internal

namespace Internal
namespace Server

/-! ## The registry of `Load` and what `find` returns from it -/

theorem configure_configured (path : String) : Configured (configure path) := by
  unfold configure
  by_cases h : path = ""
  · subst h; exact ⟨rfl, rfl, rfl⟩
  · simp only [bne_iff_ne, ne_eq, h, not_false_eq_true, ↓reduceIte, SetConfigFile]
    exact ⟨rfl, rfl, rfl⟩

theorem configure_config (path : String) : (configure path).config = [] := by
  unfold configure
  by_cases h : path = ""
  · subst h; rfl
  · simp only [bne_iff_ne, ne_eq, h, not_false_eq_true, ↓reduceIte, SetConfigFile]
    rfl

theorem ReadInConfig_ok (fs : FS) (v v1 : Viper) (h : ReadInConfig fs v = .ok v1) :
    v1.defaults = v.defaults ∧ v1.env = v.env ∧ v1.allowEmptyEnv = v.allowEmptyEnv := by
  unfold ReadInConfig at h
  split at h
  · exact absurd h (by simp)
  · split at h
    · exact absurd h (by simp)
    · split at h
      · exact absurd h (by simp)
      · exact absurd h (by simp)
      · exact absurd h (by simp)
      · simp only [Except.ok.injEq] at h
        subst h
        exact ⟨rfl, rfl, rfl⟩

theorem bindAll_boundKeys (v : Viper) (hc : Configured v) :
    ∃ v1, bindAll (AutomaticEnv (SetEnvKeyReplacer (SetEnvPrefix v "SHIPINATOR")
        [('.', '_'), ('-', '_')])) boundKeys = .ok v1 ∧
      EnvReady v1 ∧ v1.env = loadBindings ∧ v1.defaults = loadDefaults ∧ v1.config = v.config := by
  obtain ⟨d, ct, cf, cn, cp, c, ep, er, au, al, e⟩ := v
  obtain ⟨h1, h2, h3⟩ := hc
  simp only at h1 h2 h3
  subst h1 h2 h3
  exact ⟨_, rfl, ⟨rfl, rfl, rfl, rfl⟩, rfl, rfl, rfl⟩

theorem getEnv_eq (env : Env) (v : Viper) (h : EnvReady v) (name : String) :
    getEnv env v name = envValue env (Replace [('.', '_'), ('-', '_')] name) := by
  unfold getEnv envValue
  simp only [h.repl, h.allow, Bool.false_or]

theorem getEnv_merge (env : Env) (v : Viper) (h : EnvReady v) (key : String) :
    getEnv env v (mergeWithEnvPrefix v key) = envValue env (envVarOf key) := by
  rw [getEnv_eq env v h]
  unfold mergeWithEnvPrefix envVarOf
  simp [h.pref]

theorem isPathShadowedInAutoEnv_eq (env : Env) (v : Viper) (h : EnvReady v) (key : String) :
    isPathShadowedInAutoEnv env v (Split key) = parentSet env key := by
  unfold isPathShadowedInAutoEnv parentSet
  simp only [getEnv_merge env v h]

theorem parentKeys_of_not_nested (path : List String) (h : ¬ path.length > 1) :
    parentKeys path = [] := by
  unfold parentKeys
  have : path.length - 1 = 0 := by omega
  simp [this]

theorem find_eq (env : Env) (v : Viper) (h : EnvReady v) (key : String)
    (hbound : firstBoundEnv env v ((v.env.lookup key).getD []) = none ∨
      firstBoundEnv env v ((v.env.lookup key).getD []) = envValue env (envVarOf key))
    (hflat : isPathShadowedInEnvBindings v (Split key) = false) :
    find env v key =
      match envValue env (envVarOf key) with
      | some val => some (.text val)
      | none =>
        if parentSet env key then none
        else
          match v.config.lookup key with
          | some val => some val
          | none => (v.defaults.lookup key).map .text := by
  unfold find
  simp only [h.auto, if_true, getEnv_merge env v h, isPathShadowedInAutoEnv_eq env v h, hflat,
    Bool.true_and, Bool.and_false]
  cases he : envValue env (envVarOf key) with
  | some val => rfl
  | none =>
    simp only [he, or_self] at hbound
    simp only [hbound]
    have hlast : (match v.defaults.lookup key with
        | some d => some (FileValue.text d)
        | none => none) = (v.defaults.lookup key).map .text := by
      cases List.lookup key v.defaults with
      | none => rfl
      | some d => rfl
    by_cases hn : (Split key).length > 1
    · simp only [hn, decide_True, Bool.true_and, Bool.false_eq_true, if_false, hlast]
    · have hp : parentSet env key = false := by
        unfold parentSet
        rw [parentKeys_of_not_nested _ hn]
        rfl
      simp only [hn, decide_False, Bool.false_and, Bool.false_eq_true, if_false, hp, hlast]

theorem Unmarshal_ok (env : Env) (v : Viper) (cfg : Config) (h : Unmarshal env v = .ok cfg) :
    decodeString (setting env v "listen_addr") = .ok cfg.ListenAddr ∧
    decodeString (setting env v "db.host") = .ok cfg.DB.Host ∧
    decodeString (setting env v "db.port") = .ok cfg.DB.Port ∧
    decodeString (setting env v "db.user") = .ok cfg.DB.User ∧
    decodeString (setting env v "db.password") = .ok cfg.DB.Password ∧
    decodeString (setting env v "db.name") = .ok cfg.DB.Name ∧
    decodeString (setting env v "db.ssl_mode") = .ok cfg.DB.SSLMode ∧
    decodeString (setting env v "artifact_path") = .ok cfg.ArtifactPath ∧
    decodeString (setting env v "kubeconfig") = .ok cfg.KubeConfig ∧
    decodeString (setting env v "log_level") = .ok cfg.LogLevel := by
  unfold Unmarshal at h
  simp only [bind, Except.bind, pure, Except.pure] at h
  cases h1 : decodeString (setting env v "listen_addr") <;> simp only [h1] at h <;> first | contradiction | skip
  cases h2 : decodeString (setting env v "db.host") <;> simp only [h2] at h <;> first | contradiction | skip
  cases h3 : decodeString (setting env v "db.port") <;> simp only [h3] at h <;> first | contradiction | skip
  cases h4 : decodeString (setting env v "db.user") <;> simp only [h4] at h <;> first | contradiction | skip
  cases h5 : decodeString (setting env v "db.password") <;> simp only [h5] at h <;> first | contradiction | skip
  cases h6 : decodeString (setting env v "db.name") <;> simp only [h6] at h <;> first | contradiction | skip
  cases h7 : decodeString (setting env v "db.ssl_mode") <;> simp only [h7] at h <;> first | contradiction | skip
  cases h8 : decodeString (setting env v "artifact_path") <;> simp only [h8] at h <;> first | contradiction | skip
  cases h9 : decodeString (setting env v "kubeconfig") <;> simp only [h9] at h <;> first | contradiction | skip
  cases h10 : decodeString (setting env v "log_level") <;> simp only [h10] at h <;> first | contradiction | skip
  simp only [Except.ok.injEq] at h
  subst h
  exact ⟨rfl, rfl, rfl, rfl, rfl, rfl, rfl, rfl, rfl, rfl⟩

theorem Unmarshal_field (env : Env) (v : Viper) (cfg : Config) (h : Unmarshal env v = .ok cfg)
    (key : String) (hk : key ∈ leafKeys) :
    decodeString (setting env v key) = .ok (cfg.field key) := by
  have hu := Unmarshal_ok env v cfg h
  simp only [leafKeys, List.mem_cons, List.mem_singleton, List.not_mem_nil, or_false] at hk
  rcases hk with hk | hk | hk | hk | hk | hk | hk | hk | hk | hk <;> subst hk <;>
    simp only [Config.field] <;> tauto

theorem firstBoundEnv_single (env : Env) (v : Viper) (h : EnvReady v) (name : String) :
    firstBoundEnv env v [name] = envValue env (Replace [('.', '_'), ('-', '_')] name) := by
  simp only [firstBoundEnv, getEnv_eq env v h]
  cases envValue env (Replace [('.', '_'), ('-', '_')] name) <;> rfl

theorem setting_leaf (env : Env) (v : Viper) (hr : EnvReady v) (henv : v.env = loadBindings)
    (hdef : v.defaults = loadDefaults) (key : String) (hk : key ∈ leafKeys) :
    setting env v key =
      match envValue env (envVarOf key) with
      | some val => some (.text val)
      | none =>
        if parentSet env key then none
        else
          match v.config.lookup key with
          | some val => some val
          | none => (loadDefaults.lookup key).map .text := by
  have hall : (AllKeys v).contains key = true := by
    have hmem : key ∈ loadBindings.map (fun e => e.1) ∨ key ∈ loadDefaults.map (fun e => e.1) :=
      (by decide : ∀ k ∈ leafKeys,
        k ∈ loadBindings.map (fun e => e.1) ∨ k ∈ loadDefaults.map (fun e => e.1)) key hk
    simp only [AllKeys, henv, hdef, List.contains_eq_any_beq, List.any_eq_true, beq_iff_eq,
      List.mem_append]
    rcases hmem with hm | hm
    · exact ⟨key, Or.inl (Or.inl hm), rfl⟩
    · exact ⟨key, Or.inr hm, rfl⟩
  have hlow : ToLower key = key :=
    (by decide : ∀ k ∈ leafKeys, ToLower k = k) key hk
  have hflat : isPathShadowedInEnvBindings v (Split key) = false := by
    unfold isPathShadowedInEnvBindings
    rw [henv]
    exact (by decide : ∀ k ∈ leafKeys,
      ((parentKeys (Split k)).any fun parent => (loadBindings.lookup parent).isSome) = false)
      key hk
  have hbound : firstBoundEnv env v ((v.env.lookup key).getD []) = none ∨
      firstBoundEnv env v ((v.env.lookup key).getD []) = envValue env (envVarOf key) := by
    rw [henv]
    simp only [leafKeys, List.mem_cons, List.mem_singleton, List.not_mem_nil, or_false] at hk
    rcases hk with hk | hk | hk | hk | hk | hk | hk | hk | hk | hk <;> subst hk <;>
      first
        | exact Or.inl rfl
        | exact Or.inr (firstBoundEnv_single env v hr _)
  have hfind := find_eq env v hr key hbound hflat
  rw [hdef] at hfind
  unfold setting Get
  rw [hall, hlow, if_pos rfl]
  exact hfind

theorem Load_cases (env : Env) (fs : FS) (configPath : String) :
    (∃ e, e ≠ ReadError.ConfigFileNotFoundError ∧
      ReadInConfig fs (configure configPath) = .error e ∧
      Load env fs configPath = (none, some (.reading e))) ∨
    (∃ v, Configured v ∧ v.config = fileLayer fs configPath ∧
      Load env fs configPath = resolve env v) := by
  unfold Load fileLayer
  dsimp only
  cases hR : ReadInConfig fs (configure configPath) with
  | error e =>
    cases e with
    | ConfigFileNotFoundError =>
      right
      dsimp only
      exact ⟨configure configPath, configure_configured configPath,
        configure_config configPath, rfl⟩
    | UnsupportedConfigError =>
      left
      dsimp only
      exact ⟨_, by simp, rfl, rfl⟩
    | readFailed p =>
      left
      dsimp only
      exact ⟨_, by simp, rfl, rfl⟩
    | ConfigParseError =>
      left
      dsimp only
      exact ⟨_, by simp, rfl, rfl⟩
  | ok v1 =>
    right
    dsimp only
    obtain ⟨h1, h2, h3⟩ := ReadInConfig_ok fs _ v1 hR
    have hc := configure_configured configPath
    exact ⟨v1, ⟨h1.trans hc.defaults, h2.trans hc.env, h3.trans hc.allow⟩, rfl, rfl⟩

theorem Load_ok_registry (env : Env) (fs : FS) (configPath : String) (cfg : Config)
    (h : Load env fs configPath = (some cfg, none)) :
    ∃ v, Configured v ∧ v.config = fileLayer fs configPath ∧ resolve env v = (some cfg, none) := by
  rcases Load_cases env fs configPath with ⟨e, _, _, hl⟩ | ⟨v, hc, hf, hl⟩
  · rw [hl] at h
    exact absurd (congrArg Prod.fst h) (by simp)
  · exact ⟨v, hc, hf, hl ▸ h⟩

theorem resolve_ok (env : Env) (v : Viper) (hc : Configured v) (cfg : Config)
    (h : resolve env v = (some cfg, none)) :
    ∃ v1, EnvReady v1 ∧ v1.env = loadBindings ∧ v1.defaults = loadDefaults ∧
      v1.config = v.config ∧ Unmarshal env v1 = .ok cfg ∧ cfg.DB.Name ≠ "" := by
  obtain ⟨v1, hb, hr, he, hd, hcfg⟩ := bindAll_boundKeys v hc
  unfold resolve at h
  dsimp only at h
  rw [hb] at h
  dsimp only at h
  cases hu : Unmarshal env v1 with
  | error e => simp [hu] at h
  | ok c =>
    simp only [hu] at h
    by_cases hn : c.DB.Name = ""
    · simp [hn] at h
    · simp only [beq_iff_eq, hn, if_false, Prod.mk.injEq, Option.some.injEq, and_true] at h
      subst h
      exact ⟨v1, hr, he, hd, hcfg, hu, hn⟩

/-- What `Load` puts in the field of a leaf key. -/
theorem Load_ok_field (env : Env) (fs : FS) (configPath : String) (cfg : Config)
    (h : Load env fs configPath = (some cfg, none)) (key : String) (hk : key ∈ leafKeys) :
    decodeString
      (match envValue env (envVarOf key) with
      | some val => some (.text val)
      | none =>
        if parentSet env key then none
        else
          match (fileLayer fs configPath).lookup key with
          | some val => some val
          | none => (loadDefaults.lookup key).map .text) = .ok (cfg.field key) := by
  obtain ⟨v, hc, hfile, hres⟩ := Load_ok_registry env fs configPath cfg h
  obtain ⟨v1, hr, he, hd, hcfg, hu, _⟩ := resolve_ok env v hc cfg hres
  have hf := Unmarshal_field env v1 cfg hu key hk
  rw [setting_leaf env v1 hr he hd key hk, hcfg, hfile] at hf
  exact hf

/-! ## Properties of the runtime `Load` -/

/-- The variables of the ten leaf keys, and of the parent of the nested ones. -/
theorem envVarOf_leafKeys :
    leafKeys.map envVarOf =
      ["SHIPINATOR_LISTEN_ADDR", "SHIPINATOR_ARTIFACT_PATH", "SHIPINATOR_KUBECONFIG",
       "SHIPINATOR_LOG_LEVEL", "SHIPINATOR_DB_HOST", "SHIPINATOR_DB_PORT", "SHIPINATOR_DB_USER",
       "SHIPINATOR_DB_PASSWORD", "SHIPINATOR_DB_NAME", "SHIPINATOR_DB_SSL_MODE"] ∧
    leafKeys.map (fun key => (parentKeys (Split key)).map envVarOf) =
      [[], [], [], [], ["SHIPINATOR_DB"], ["SHIPINATOR_DB"], ["SHIPINATOR_DB"],
       ["SHIPINATOR_DB"], ["SHIPINATOR_DB"], ["SHIPINATOR_DB"]] := by
  decide

theorem default_of_leaf (key : String) (hk : key ∈ leafKeys) :
    decodeString ((loadDefaults.lookup key).map .text) = .ok (defaultOf key) := by
  simp only [leafKeys, List.mem_cons, List.mem_singleton, List.not_mem_nil, or_false] at hk
  rcases hk with hk | hk | hk | hk | hk | hk | hk | hk | hk | hk <;> subst hk <;> rfl

theorem envValue_of_set (env : Env) (name val : String) (h : env name = some val)
    (hne : val ≠ "") : envValue env name = some val := by
  simp [envValue, h, hne]

theorem envValue_of_unsetOrEmpty (env : Env) (name : String) (h : unsetOrEmpty env name) :
    envValue env name = none := by
  rcases h with h | h <;> simp [envValue, h]

theorem parentSet_eq_false (env : Env) (key : String)
    (h : ∀ parent ∈ parentKeys (Split key), unsetOrEmpty env (envVarOf parent)) :
    parentSet env key = false := by
  unfold parentSet
  rw [List.any_eq_false]
  intro p hp
  simp [envValue_of_unsetOrEmpty env _ (h p hp)]

/-- C10, amended: in a resolution that succeeds, for every leaf key on its
own, a non-empty value of the key's variable is the resolved value; when the
variable is unset or empty, and no parent of the key (`db` for the `db.*`
keys) has a variable with a non-empty value, the resolved value is the file's
value if the file sets the key, and the default otherwise. -/
theorem Load_precedence (env : Env) (fs : FS) (configPath : String) (cfg : Config)
    (h : Load env fs configPath = (some cfg, none)) (key : String) (hk : key ∈ leafKeys) :
    (∀ val, env (envVarOf key) = some val → val ≠ "" → cfg.field key = val) ∧
    (unsetOrEmpty env (envVarOf key) →
      (∀ parent ∈ parentKeys (Split key), unsetOrEmpty env (envVarOf parent)) →
      (∀ s, (fileLayer fs configPath).lookup key = some (.text s) → cfg.field key = s) ∧
      ((fileLayer fs configPath).lookup key = none → cfg.field key = defaultOf key)) := by
  have hf := Load_ok_field env fs configPath cfg h key hk
  constructor
  · intro val hv hne
    rw [envValue_of_set env _ val hv hne] at hf
    simp only [decodeString, Except.ok.injEq] at hf
    exact hf.symm
  · intro hu hp
    rw [envValue_of_unsetOrEmpty env _ hu] at hf
    simp only [parentSet_eq_false env key hp, Bool.false_eq_true, if_false] at hf
    constructor
    · intro s hs
      rw [hs] at hf
      simp only [decodeString, Except.ok.injEq] at hf
      exact hf.symm
    · intro hnone
      rw [hnone] at hf
      simp only at hf
      rw [default_of_leaf key hk] at hf
      simp only [Except.ok.injEq] at hf
      exact hf.symm

/-- One resolution takes `db.name` from the environment, `log_level` from the
file and `db.port` from the defaults. -/
theorem Load_precedence_witness :
    resolvedMixed.field "db.name" = "fromenv" ∧
    resolvedMixed.field "log_level" = "warn" ∧
    resolvedMixed.field "db.port" = defaultOf "db.port" :=
  ⟨(Load_precedence envNameAndHost oneFile "/etc/app.yaml" resolvedMixed (by decide)
      "db.name" (by decide)).1 "fromenv" rfl (by decide),
   ((Load_precedence envNameAndHost oneFile "/etc/app.yaml" resolvedMixed (by decide)
      "log_level" (by decide)).2 (Or.inl rfl) (by decide)).1 "warn" rfl,
   ((Load_precedence envNameAndHost oneFile "/etc/app.yaml" resolvedMixed (by decide)
      "db.port" (by decide)).2 (Or.inl rfl) (by decide)).2 rfl⟩

/-- C10 as stated fails twice: a variable set to the empty string does not
override (`log_level` stays at its default `info`), and with `SHIPINATOR_DB`
set the key `db.host`, unset everywhere, resolves to the empty string and not
to its default `localhost`. -/
theorem precedence_as_stated_fails :
    (Load envEmptyLogLevel noFiles "" = (some resolvedEmptyLogLevel, none) ∧
      "log_level" ∈ leafKeys ∧
      ¬ PrecedenceAsStated envEmptyLogLevel noFiles "" resolvedEmptyLogLevel "log_level") ∧
    (Load envParentSet noFiles "" = (some resolvedParentSet, none) ∧
      "db.host" ∈ leafKeys ∧
      ¬ PrecedenceAsStated envParentSet noFiles "" resolvedParentSet "db.host") := by
  refine ⟨⟨by decide, by decide, ?_⟩, ⟨by decide, by decide, ?_⟩⟩
  · intro hp
    exact absurd (hp.1 "" rfl) (by decide)
  · intro hp
    exact absurd ((hp.2 rfl).2 rfl) (by decide)

/-! ## The merged configuration, layer by layer -/

theorem setting_layered (env : Env) (v : Viper) (hr : EnvReady v) (henv : v.env = loadBindings)
    (hdef : v.defaults = loadDefaults) (key : String) (hk : key ∈ leafKeys) :
    setting env v key = layered env v.config key := by
  unfold layered
  exact setting_leaf env v hr henv hdef key hk

theorem decodeString_cases (x : Option FileValue) :
    decodeString x = .ok (fieldOf x) ∨
      (x = some .sequence ∧
        decodeString x = .error "expected type 'string', got unconvertible type") := by
  cases x with
  | none => exact Or.inl rfl
  | some fv =>
    cases fv with
    | text s => exact Or.inl rfl
    | sequence => exact Or.inr ⟨rfl, rfl⟩

theorem decodeString_of_ne (x : Option FileValue) (h : x ≠ some .sequence) :
    decodeString x = .ok (fieldOf x) := by
  rcases decodeString_cases x with h1 | ⟨h1, _⟩
  · exact h1
  · exact absurd h1 h

/-- `Unmarshal` on the registry `Load` has built, from the layered values. -/
theorem Unmarshal_layered (env : Env) (v : Viper) (hr : EnvReady v)
    (henv : v.env = loadBindings) (hdef : v.defaults = loadDefaults) :
    ((∀ key ∈ leafKeys, layered env v.config key ≠ some .sequence) →
      Unmarshal env v = .ok (Config.ofFields fun key => fieldOf (layered env v.config key))) ∧
    ((∃ key ∈ leafKeys, layered env v.config key = some .sequence) →
      Unmarshal env v = .error "expected type 'string', got unconvertible type") := by
  have hs : ∀ key ∈ leafKeys, setting env v key = layered env v.config key :=
    fun key hk => setting_layered env v hr henv hdef key hk
  unfold Unmarshal
  rw [hs "listen_addr" (by decide), hs "db.host" (by decide), hs "db.port" (by decide),
    hs "db.user" (by decide), hs "db.password" (by decide), hs "db.name" (by decide),
    hs "db.ssl_mode" (by decide), hs "artifact_path" (by decide), hs "kubeconfig" (by decide),
    hs "log_level" (by decide)]
  constructor
  · intro hall
    have hd : ∀ key ∈ leafKeys,
        decodeString (layered env v.config key) = .ok (fieldOf (layered env v.config key)) :=
      fun key hk => decodeString_of_ne _ (hall key hk)
    rw [hd "listen_addr" (by decide), hd "db.host" (by decide), hd "db.port" (by decide),
      hd "db.user" (by decide), hd "db.password" (by decide), hd "db.name" (by decide),
      hd "db.ssl_mode" (by decide), hd "artifact_path" (by decide), hd "kubeconfig" (by decide),
      hd "log_level" (by decide)]
    rfl
  · rintro ⟨key, hk, hseq⟩
    simp only [leafKeys, List.mem_cons, List.mem_singleton, List.not_mem_nil, or_false] at hk
    rcases decodeString_cases (layered env v.config "listen_addr") with h1 | ⟨_, h1⟩ <;>
      rw [h1] <;> [skip; rfl]
    rcases decodeString_cases (layered env v.config "db.host") with h2 | ⟨_, h2⟩ <;>
      rw [h2] <;> [skip; rfl]
    rcases decodeString_cases (layered env v.config "db.port") with h3 | ⟨_, h3⟩ <;>
      rw [h3] <;> [skip; rfl]
    rcases decodeString_cases (layered env v.config "db.user") with h4 | ⟨_, h4⟩ <;>
      rw [h4] <;> [skip; rfl]
    rcases decodeString_cases (layered env v.config "db.password") with h5 | ⟨_, h5⟩ <;>
      rw [h5] <;> [skip; rfl]
    rcases decodeString_cases (layered env v.config "db.name") with h6 | ⟨_, h6⟩ <;>
      rw [h6] <;> [skip; rfl]
    rcases decodeString_cases (layered env v.config "db.ssl_mode") with h7 | ⟨_, h7⟩ <;>
      rw [h7] <;> [skip; rfl]
    rcases decodeString_cases (layered env v.config "artifact_path") with h8 | ⟨_, h8⟩ <;>
      rw [h8] <;> [skip; rfl]
    rcases decodeString_cases (layered env v.config "kubeconfig") with h9 | ⟨_, h9⟩ <;>
      rw [h9] <;> [skip; rfl]
    rcases decodeString_cases (layered env v.config "log_level") with h10 | ⟨_, h10⟩ <;>
      rw [h10] <;> [skip; rfl]
    exfalso
    have hno : ∀ k, decodeString (layered env v.config k) = .ok (fieldOf (layered env v.config k)) →
        layered env v.config k ≠ some .sequence := by
      intro k hk1 hk2
      rw [hk2] at hk1
      exact absurd hk1 (by simp [decodeString])
    rcases hk with hk | hk | hk | hk | hk | hk | hk | hk | hk | hk <;> subst hk
    · exact hno _ h1 hseq
    · exact hno _ h8 hseq
    · exact hno _ h9 hseq
    · exact hno _ h10 hseq
    · exact hno _ h2 hseq
    · exact hno _ h3 hseq
    · exact hno _ h4 hseq
    · exact hno _ h5 hseq
    · exact hno _ h6 hseq
    · exact hno _ h7 hseq

theorem resolve_eq_mergeFrom (env : Env) (v : Viper) :
    resolve env v =
      match mergeFrom env v with
      | .error e => (none, some e)
      | .ok cfg => if cfg.DB.Name == "" then (none, some .dbNameRequired) else (some cfg, none) := by
  unfold resolve mergeFrom
  dsimp only
  cases bindAll (AutomaticEnv (SetEnvKeyReplacer (SetEnvPrefix v "SHIPINATOR")
      [('.', '_'), ('-', '_')])) boundKeys with
  | error e => rfl
  | ok v1 =>
    dsimp only
    cases Unmarshal env v1 with
    | error e => rfl
    | ok cfg => rfl

theorem Load_eq_merged (env : Env) (fs : FS) (configPath : String) :
    Load env fs configPath =
      match merged env fs configPath with
      | .error e => (none, some e)
      | .ok cfg => if cfg.DB.Name == "" then (none, some .dbNameRequired) else (some cfg, none) := by
  unfold Load merged
  dsimp only
  cases hR : ReadInConfig fs (configure configPath) with
  | error e =>
    cases e with
    | ConfigFileNotFoundError =>
      dsimp only
      exact resolve_eq_mergeFrom env (configure configPath)
    | UnsupportedConfigError => dsimp only
    | readFailed p => dsimp only
    | ConfigParseError => dsimp only
  | ok v1 =>
    dsimp only
    exact resolve_eq_mergeFrom env v1

theorem mergeFrom_layered (env : Env) (v : Viper) (hc : Configured v) :
    ((∀ key ∈ leafKeys, layered env v.config key ≠ some .sequence) →
      mergeFrom env v = .ok (Config.ofFields fun key => fieldOf (layered env v.config key))) ∧
    ((∃ key ∈ leafKeys, layered env v.config key = some .sequence) →
      mergeFrom env v =
        .error (.unmarshalling "expected type 'string', got unconvertible type")) := by
  obtain ⟨v1, hb, hr, he, hd, hcfg⟩ := bindAll_boundKeys v hc
  have hu := Unmarshal_layered env v1 hr he hd
  rw [hcfg] at hu
  unfold mergeFrom
  dsimp only
  rw [hb]
  dsimp only
  constructor
  · intro h
    rw [hu.1 h]
  · intro h
    rw [hu.2 h]

/-- The three ways a call of `Load` can go before the check of `db.name`. -/
theorem merged_cases (env : Env) (fs : FS) (configPath : String) :
    (∃ e, e ≠ ReadError.ConfigFileNotFoundError ∧
      ReadInConfig fs (configure configPath) = .error e ∧
      merged env fs configPath = .error (.reading e)) ∨
    ((∃ key ∈ leafKeys, layered env (fileLayer fs configPath) key = some .sequence) ∧
      merged env fs configPath =
        .error (.unmarshalling "expected type 'string', got unconvertible type")) ∨
    ((∀ key ∈ leafKeys, layered env (fileLayer fs configPath) key ≠ some .sequence) ∧
      merged env fs configPath =
        .ok (Config.ofFields fun key => fieldOf (layered env (fileLayer fs configPath) key))) := by
  have key : ∀ v, Configured v → v.config = fileLayer fs configPath →
      merged env fs configPath = mergeFrom env v →
      ((∃ key ∈ leafKeys, layered env (fileLayer fs configPath) key = some .sequence) ∧
        merged env fs configPath =
          .error (.unmarshalling "expected type 'string', got unconvertible type")) ∨
      ((∀ key ∈ leafKeys, layered env (fileLayer fs configPath) key ≠ some .sequence) ∧
        merged env fs configPath =
          .ok (Config.ofFields fun key =>
            fieldOf (layered env (fileLayer fs configPath) key))) := by
    intro v hc hf hm
    have hl := mergeFrom_layered env v hc
    rw [hf] at hl
    by_cases hex : ∃ key ∈ leafKeys, layered env (fileLayer fs configPath) key = some .sequence
    · exact Or.inl ⟨hex, hm.trans (hl.2 hex)⟩
    · right
      have hall : ∀ key ∈ leafKeys,
          layered env (fileLayer fs configPath) key ≠ some .sequence :=
        fun k hk hs => hex ⟨k, hk, hs⟩
      exact ⟨hall, hm.trans (hl.1 hall)⟩
  unfold merged fileLayer at *
  dsimp only at *
  cases hR : ReadInConfig fs (configure configPath) with
  | error e =>
    rw [hR] at key
    cases e with
    | ConfigFileNotFoundError =>
      right
      exact key (configure configPath) (configure_configured configPath)
        (configure_config configPath) rfl
    | UnsupportedConfigError => left; exact ⟨_, by simp, rfl, rfl⟩
    | readFailed p => left; exact ⟨_, by simp, rfl, rfl⟩
    | ConfigParseError => left; exact ⟨_, by simp, rfl, rfl⟩
  | ok v1 =>
    rw [hR] at key
    right
    obtain ⟨h1, h2, h3⟩ := ReadInConfig_ok fs _ v1 hR
    have hc := configure_configured configPath
    exact key v1 ⟨h1.trans hc.defaults, h2.trans hc.env, h3.trans hc.allow⟩ rfl rfl

theorem layered_congr (env env1 : Env) (h : ∀ name, envValue env name = envValue env1 name)
    (kv : List (String × FileValue)) (key : String) :
    layered env kv key = layered env1 kv key := by
  unfold layered parentSet
  simp only [h]

theorem mergeFrom_congr (env env1 : Env) (h : ∀ name, envValue env name = envValue env1 name)
    (v : Viper) (hc : Configured v) : mergeFrom env v = mergeFrom env1 v := by
  have h1 := mergeFrom_layered env v hc
  have h2 := mergeFrom_layered env1 v hc
  simp only [layered_congr env env1 h] at h1
  by_cases hex : ∃ key ∈ leafKeys, layered env1 v.config key = some .sequence
  · rw [h1.2 hex, h2.2 hex]
  · have hall : ∀ key ∈ leafKeys, layered env1 v.config key ≠ some .sequence :=
      fun k hk hs => hex ⟨k, hk, hs⟩
    rw [h1.1 hall, h2.1 hall]

theorem merged_congr (env env1 : Env) (h : ∀ name, envValue env name = envValue env1 name)
    (fs : FS) (configPath : String) :
    merged env fs configPath = merged env1 fs configPath := by
  unfold merged
  dsimp only
  cases hR : ReadInConfig fs (configure configPath) with
  | error e =>
    cases e with
    | ConfigFileNotFoundError =>
      dsimp only
      exact mergeFrom_congr env env1 h _ (configure_configured configPath)
    | UnsupportedConfigError => dsimp only
    | readFailed p => dsimp only
    | ConfigParseError => dsimp only
  | ok v1 =>
    dsimp only
    obtain ⟨h1, h2, h3⟩ := ReadInConfig_ok fs _ v1 hR
    have hc := configure_configured configPath
    exact mergeFrom_congr env env1 h v1 ⟨h1.trans hc.defaults, h2.trans hc.env, h3.trans hc.allow⟩

/-- `Load` sees the environment only through the non-empty values of the
variables. -/
theorem Load_congr (env env1 : Env) (h : ∀ name, envValue env name = envValue env1 name)
    (fs : FS) (configPath : String) :
    Load env fs configPath = Load env1 fs configPath := by
  rw [Load_eq_merged, Load_eq_merged, merged_congr env env1 h]

theorem envValue_unsetVar (env : Env) (name : String) (h : unsetOrEmpty env name)
    (other : String) : envValue (unsetVar env name) other = envValue env other := by
  unfold envValue unsetVar
  by_cases ho : other = name
  · subst ho
    rcases h with h | h <;> simp [h]
  · simp [ho]

theorem mem_searchLocations (dir : String) (hd : dir = "." ∨ dir = "/etc/shipinator") :
    (∀ ext ∈ SupportedExts, dir ++ "/" ++ "config" ++ "." ++ ext ∈ searchLocations) ∧
      dir ++ "/" ++ "config" ∈ searchLocations := by
  have hp : (configure "").configPaths = [".", "/etc/shipinator"] := by decide
  unfold searchLocations
  rw [hp]
  simp only [List.mem_flatMap, List.mem_append, List.mem_map, List.mem_cons, List.mem_singleton,
    List.not_mem_nil, or_false]
  constructor
  · intro ext hext
    exact ⟨dir, hd, Or.inl ⟨ext, hext, rfl⟩⟩
  · exact ⟨dir, hd, Or.inr rfl⟩

theorem searchInPath_none (fs : FS) (h : ∀ p ∈ searchLocations, fs p = none) (dir : String)
    (hd : dir = "." ∨ dir = "/etc/shipinator") :
    searchInPath fs (configure "") dir = none := by
  have hn : (configure "").configName = "config" := by decide
  obtain ⟨h1, h2⟩ := mem_searchLocations dir hd
  unfold searchInPath
  rw [hn]
  have hfind : SupportedExts.find?
      (fun ext => (fs (dir ++ "/" ++ "config" ++ "." ++ ext)).isSome) = none := by
    rw [List.find?_eq_none]
    intro ext hext
    simp [h _ (h1 ext hext)]
  rw [hfind]
  simp [h _ h2]

theorem ReadInConfig_not_found (fs : FS) (h : ∀ p ∈ searchLocations, fs p = none) :
    ReadInConfig fs (configure "") = .error .ConfigFileNotFoundError := by
  have hp : (configure "").configPaths = [".", "/etc/shipinator"] := by decide
  have hf : (configure "").configFile = "" := by decide
  have hfind : findConfigFile fs (configure "") = .error .ConfigFileNotFoundError := by
    unfold findConfigFile
    rw [hp]
    simp [List.findSome?, searchInPath_none fs h]
  unfold ReadInConfig getConfigFile
  rw [hf]
  simp [hfind]

theorem ReadInConfig_explicit (fs : FS) (configPath : String) (hp : configPath ≠ "") :
    ((fs configPath = none ∨ fs configPath = some .unreadable) →
      ReadInConfig fs (configure configPath) = .error (.readFailed configPath)) ∧
    (fs configPath = some .malformed →
      ReadInConfig fs (configure configPath) = .error .ConfigParseError) ∧
    (∀ kv, fs configPath = some (.settings kv) →
      ∃ v, ReadInConfig fs (configure configPath) = .ok v ∧ v.config = kv) := by
  have hf : getConfigFile fs (configure configPath) = .ok configPath := by
    unfold getConfigFile configure
    simp [hp, SetConfigFile]
  have hsup : (!SupportedExts.contains (configure configPath).configType) = false := by
    have ht : (configure configPath).configType = "yaml" := by
      unfold configure
      simp only [bne_iff_ne, ne_eq, hp, not_false_eq_true, ↓reduceIte, SetConfigFile]
      rfl
    rw [ht]
    decide
  unfold ReadInConfig
  rw [hf]
  simp only [hsup, Bool.false_eq_true, if_false]
  refine ⟨?_, ?_, ?_⟩
  · rintro (h | h) <;> rw [h]
  · intro h
    rw [h]
  · intro kv h
    rw [h]
    exact ⟨_, rfl, rfl⟩

theorem fileLayer_of_noFileContent (fs : FS) (configPath : String)
    (h : noFileContent fs configPath) : fileLayer fs configPath = [] := by
  unfold fileLayer
  rcases h with h | ⟨v, h, hv⟩
  · rw [h]
  · rw [h]
    exact hv

theorem layered_nil_ne_sequence (env : Env) (key : String) :
    layered env [] key ≠ some .sequence := by
  unfold layered
  cases envValue env (envVarOf key) with
  | some val => simp
  | none =>
    cases parentSet env key with
    | true => simp
    | false =>
      cases hl : loadDefaults.lookup key <;> simp [hl]

/-- With no file content the layers always merge. -/
theorem merged_of_noFileContent (env : Env) (fs : FS) (configPath : String)
    (h : noFileContent fs configPath) :
    merged env fs configPath = .ok (Config.ofFields fun key => fieldOf (layered env [] key)) := by
  have hf := fileLayer_of_noFileContent fs configPath h
  rcases merged_cases env fs configPath with ⟨e, hne, hr, _⟩ | ⟨⟨k, _, hs⟩, _⟩ | ⟨_, hm⟩
  · rcases h with h | ⟨v, h, _⟩
    · rw [h] at hr
      simp only [Except.error.injEq] at hr
      exact absurd hr.symm hne
    · rw [h] at hr
      exact absurd hr (by simp)
  · rw [hf] at hs
    exact absurd hs (layered_nil_ne_sequence env k)
  · rw [hf] at hm
    exact hm

theorem envVarOf_db_name : envVarOf "db.name" = "SHIPINATOR_DB_NAME" := by decide

theorem Load_of_noFileContent (env : Env) (fs : FS) (configPath : String)
    (h : noFileContent fs configPath) (n : String)
    (hn : envValue env "SHIPINATOR_DB_NAME" = some n) :
    Load env fs configPath =
      (some (Config.ofFields fun key => fieldOf (layered env [] key)), none) ∧
    n ≠ "" := by
  have hne : n ≠ "" := by
    unfold envValue at hn
    cases he : env "SHIPINATOR_DB_NAME" with
    | none => simp [he] at hn
    | some val =>
      by_cases hv : val = ""
      · simp [he, hv] at hn
      · simp [he, hv] at hn
        exact hn ▸ hv
  refine ⟨?_, hne⟩
  rw [Load_eq_merged, merged_of_noFileContent env fs configPath h]
  have hname : (Config.ofFields fun key => fieldOf (layered env [] key)).DB.Name = n := by
    simp only [Config.ofFields, layered, envVarOf_db_name, hn, fieldOf]
  simp only [hname, beq_iff_eq, hne, if_false]

theorem noFileContent_of_search (fs : FS) (h : ∀ p ∈ searchLocations, fs p = none) :
    noFileContent fs "" :=
  Or.inl (ReadInConfig_not_found fs h)

theorem defaults_of_envOnlyDBName (n : String) (hn : n ≠ "") :
    (Config.ofFields fun key => fieldOf (layered (envOnlyDBName n) [] key)) =
      defaultsWithName n := by
  have hv : ∀ name, envValue (envOnlyDBName n) name =
      if name = "SHIPINATOR_DB_NAME" then some n else none := by
    intro name
    unfold envValue envOnlyDBName
    by_cases h : name = "SHIPINATOR_DB_NAME" <;> simp [h, hn]
  have hvars : leafKeys.map envVarOf =
      ["SHIPINATOR_LISTEN_ADDR", "SHIPINATOR_ARTIFACT_PATH", "SHIPINATOR_KUBECONFIG",
       "SHIPINATOR_LOG_LEVEL", "SHIPINATOR_DB_HOST", "SHIPINATOR_DB_PORT", "SHIPINATOR_DB_USER",
       "SHIPINATOR_DB_PASSWORD", "SHIPINATOR_DB_NAME", "SHIPINATOR_DB_SSL_MODE"] := by decide
  simp only [leafKeys, List.map, List.cons.injEq, and_true] at hvars
  obtain ⟨h1, h2, h3, h4, h5, h6, h7, h8, h9, h10⟩ := hvars
  have hpar : ∀ key ∈ leafKeys, parentSet (envOnlyDBName n) key = false := by
    intro key hk
    unfold parentSet
    rw [List.any_eq_false]
    intro p hp
    have hne : envVarOf p ≠ "SHIPINATOR_DB_NAME" :=
      (by decide : ∀ k ∈ leafKeys, ∀ q ∈ parentKeys (Split k),
        envVarOf q ≠ "SHIPINATOR_DB_NAME") key hk p hp
    simp [hv, hne]
  simp only [Config.ofFields, defaultsWithName, layered, hv, h1, h2, h3, h4, h5, h6, h7, h8, h9,
    h10, hpar "listen_addr" (by decide), hpar "artifact_path" (by decide),
    hpar "kubeconfig" (by decide), hpar "log_level" (by decide), hpar "db.host" (by decide),
    hpar "db.port" (by decide), hpar "db.user" (by decide), hpar "db.password" (by decide),
    hpar "db.ssl_mode" (by decide)]
  simp [loadDefaults, fieldOf, List.lookup]

theorem merged_noEnv (fs : FS) (configPath : String) (h : noFileContent fs configPath) :
    merged noEnv fs configPath = .ok (defaultsWithName "") := by
  rw [merged_of_noFileContent noEnv fs configPath h]
  have hl : ∀ key, layered noEnv [] key = (loadDefaults.lookup key).map .text := by
    intro key
    unfold layered parentSet envValue noEnv
    simp
  simp only [hl]
  exact congrArg Except.ok (by decide)

theorem ofNat_toNat_small : ∀ k, k < 128 → (Char.ofNat k).toNat = k := by decide

theorem toUpper_ne (c : Char) (d : Char) (hd : d.toNat < 65) (h1 : c ≠ d) : c.toUpper ≠ d := by
  unfold Char.toUpper
  dsimp only
  split
  · rename_i h
    intro hc
    have h3 := congrArg Char.toNat hc
    rw [ofNat_toNat_small _ (by omega)] at h3
    omega
  · exact h1

theorem toUpper_replace (c : Char) :
    ([('.', '_'), ('-', '_')].lookup (Char.toUpper c)).getD (Char.toUpper c) =
      if c = '.' ∨ c = '-' then '_' else c.toUpper := by
  by_cases h1 : c = '.'
  · subst h1; decide
  · by_cases h2 : c = '-'
    · subst h2; decide
    · have hu1 : c.toUpper ≠ '.' := toUpper_ne c '.' (by decide) h1
      have hu2 : c.toUpper ≠ '-' := toUpper_ne c '-' (by decide) h2
      have e1 : (c.toUpper == '.') = false := by simp [hu1]
      have e2 : (c.toUpper == '-') = false := by simp [hu2]
      simp [List.lookup, h1, h2, e1, e2]

theorem envVarOf_eq_specEnvName (key : String) : envVarOf key = specEnvName key := by
  unfold envVarOf specEnvName Replace ToUpper
  have hd : ("SHIPINATOR" ++ "_" ++ key).data = "SHIPINATOR_".data ++ key.data := by
    simp [String.data_append]
  simp only [hd, List.map_append, List.map_map]
  have hp : List.map ((fun c => (List.lookup c [('.', '_'), ('-', '_')]).getD c) ∘ Char.toUpper)
      "SHIPINATOR_".data = "SHIPINATOR_".data := by decide
  rw [hp]
  have hk : List.map ((fun c => (List.lookup c [('.', '_'), ('-', '_')]).getD c) ∘ Char.toUpper)
      key.data = key.data.map fun c => if c = '.' ∨ c = '-' then '_' else c.toUpper := by
    apply List.map_congr_left
    intro c _
    exact toUpper_replace c
  rw [hk]
  rfl

/-! ## Properties of the runtime `Load`: invariant, defaults, binding, files -/

/-- C11: every configuration `Load` returns has a non-empty `DB.Name`; whenever
the layers merge and leave `db.name` empty, `Load` returns no configuration
and the error whose text is "db.name is required"; in particular with no file
in any search location and an empty environment the merge gives exactly the
defaults, `db.name` is empty, and `Load` fails with that error. -/
theorem Load_requires_db_name (env : Env) (fs : FS) (configPath : String) :
    (∀ cfg, Load env fs configPath = (some cfg, none) → cfg.DB.Name ≠ "") ∧
    (∀ cfg, merged env fs configPath = .ok cfg → cfg.DB.Name = "" →
      Load env fs configPath = (none, some .dbNameRequired)) ∧
    LoadError.dbNameRequired.Error = "db.name is required" ∧
    ((∀ p ∈ searchLocations, fs p = none) →
      merged noEnv fs "" = .ok (defaultsWithName "") ∧
      Load noEnv fs "" = (none, some .dbNameRequired)) := by
  have hb : ∀ (e : Env) (p : String) (cfg : Config), merged e fs p = .ok cfg → cfg.DB.Name = "" →
      Load e fs p = (none, some .dbNameRequired) := by
    intro e p cfg hm hn
    rw [Load_eq_merged, hm]
    simp [hn]
  refine ⟨?_, hb env configPath, rfl, ?_⟩
  · intro cfg h hn
    rw [Load_eq_merged] at h
    cases hm : merged env fs configPath with
    | error e =>
      rw [hm] at h
      exact absurd (congrArg Prod.fst h) (by simp)
    | ok c =>
      rw [hm] at h
      by_cases hc : c.DB.Name = ""
      · simp [hc] at h
      · simp only [beq_iff_eq, hc, if_false, Prod.mk.injEq, Option.some.injEq, and_true] at h
        exact hc (h ▸ hn)
  · intro hs
    have hm := merged_noEnv fs "" (noFileContent_of_search fs hs)
    exact ⟨hm, hb noEnv "" _ hm rfl⟩

/-- A returned configuration has a name, and the bare defaults are refused. -/
theorem Load_requires_db_name_witness :
    resolvedMixed.DB.Name ≠ "" ∧
    (merged noEnv noFiles "" = .ok (defaultsWithName "") ∧
      Load noEnv noFiles "" = (none, some .dbNameRequired)) :=
  ⟨(Load_requires_db_name envNameAndHost oneFile "/etc/app.yaml").1 resolvedMixed (by decide),
   (Load_requires_db_name noEnv noFiles "").2.2.2 (fun _ _ => rfl)⟩

/-- C12: with no file content (no file found, or a file that sets nothing) and
an environment that sets only `SHIPINATOR_DB_NAME` to a non-empty `n`, `Load`
succeeds and returns exactly the documented defaults around `DB.Name = n`,
with `KubeConfig` empty. -/
theorem Load_defaults_with_db_name (n : String) (hn : n ≠ "") (fs : FS) (configPath : String)
    (hfile : noFileContent fs configPath) :
    Load (envOnlyDBName n) fs configPath = (some (defaultsWithName n), none) := by
  have hv : envValue (envOnlyDBName n) "SHIPINATOR_DB_NAME" = some n := by
    simp [envValue, envOnlyDBName, hn]
  rw [(Load_of_noFileContent (envOnlyDBName n) fs configPath hfile n hv).1,
    defaults_of_envOnlyDBName n hn]

/-- The name `shipinator` without a file, and with an empty file given by path. -/
theorem Load_defaults_with_db_name_witness :
    Load (envOnlyDBName "shipinator") noFiles "" = (some (defaultsWithName "shipinator"), none) ∧
    Load (envOnlyDBName "shipinator") emptyFile "/etc/empty.yaml" =
      (some (defaultsWithName "shipinator"), none) :=
  ⟨Load_defaults_with_db_name "shipinator" (by decide) noFiles "" (Or.inl rfl),
   Load_defaults_with_db_name "shipinator" (by decide) emptyFile "/etc/empty.yaml"
     (Or.inr ⟨_, rfl, rfl⟩)⟩

/-- C14: with an explicit path whose file is missing or unreadable, `Load`
fails with the read error in every environment; with no path and no file in
any search location, nothing is read, `Load` is the resolution from defaults
and environment alone (the same as on a file system without files), and its
result is never a read error. -/
theorem missing_file_explicit_or_searched (env : Env) (fs : FS) (configPath : String) :
    (configPath ≠ "" → (fs configPath = none ∨ fs configPath = some .unreadable) →
      Load env fs configPath = (none, some (.reading (.readFailed configPath)))) ∧
    (configPath = "" → (∀ p ∈ searchLocations, fs p = none) →
      fileLayer fs configPath = [] ∧
      Load env fs configPath = resolve env (configure "") ∧
      Load env fs configPath = Load env noFiles "" ∧
      ∀ e, (Load env fs configPath).2 ≠ some (.reading e)) := by
  constructor
  · intro hp hmiss
    have hr := (ReadInConfig_explicit fs configPath hp).1 hmiss
    unfold Load
    dsimp only
    rw [hr]
  · intro hp hs
    subst hp
    have hr := ReadInConfig_not_found fs hs
    have hr0 := ReadInConfig_not_found noFiles (fun _ _ => rfl)
    have hl : Load env fs "" = resolve env (configure "") := by
      unfold Load
      dsimp only
      rw [hr]
    have hl0 : Load env noFiles "" = resolve env (configure "") := by
      unfold Load
      dsimp only
      rw [hr0]
    refine ⟨fileLayer_of_noFileContent fs "" (Or.inl hr), hl, hl.trans hl0.symm, ?_⟩
    intro e he
    rw [Load_eq_merged, merged_of_noFileContent env fs "" (Or.inl hr)] at he
    dsimp only at he
    split at he <;> simp at he

/-- An unreadable and a missing explicit file fail although `SHIPINATOR_DB_NAME`
is set; without a path, a file outside the search locations changes nothing. -/
theorem missing_file_explicit_or_searched_witness :
    Load (envOnlyDBName "app") lockedFile "/etc/locked.yaml" =
      (none, some (.reading (.readFailed "/etc/locked.yaml"))) ∧
    Load (envOnlyDBName "app") oneFile "/etc/missing.yaml" =
      (none, some (.reading (.readFailed "/etc/missing.yaml"))) ∧
    (fileLayer oneFile "" = [] ∧
      Load (envOnlyDBName "app") oneFile "" = resolve (envOnlyDBName "app") (configure "") ∧
      Load (envOnlyDBName "app") oneFile "" = Load (envOnlyDBName "app") noFiles "" ∧
      ∀ e, (Load (envOnlyDBName "app") oneFile "").2 ≠ some (.reading e)) :=
  ⟨(missing_file_explicit_or_searched (envOnlyDBName "app") lockedFile "/etc/locked.yaml").1
      (by decide) (Or.inr rfl),
   (missing_file_explicit_or_searched (envOnlyDBName "app") oneFile "/etc/missing.yaml").1
      (by decide) (Or.inl rfl),
   (missing_file_explicit_or_searched (envOnlyDBName "app") oneFile "").2 rfl (by decide)⟩

/-- What `Load` puts in the field of a leaf key whose variable is unset or
empty, when no parent's variable has a value. -/
theorem Load_field_lower_layers (env : Env) (fs : FS) (configPath : String) (cfg : Config)
    (h : Load env fs configPath = (some cfg, none)) (key : String) (hk : key ∈ leafKeys)
    (hu : unsetOrEmpty env (envVarOf key))
    (hp : ∀ parent ∈ parentKeys (Split key), unsetOrEmpty env (envVarOf parent)) :
    (∀ s, (fileLayer fs configPath).lookup key = some (.text s) → cfg.field key = s) ∧
    ((fileLayer fs configPath).lookup key = none → cfg.field key = defaultOf key) := by
  have hf := Load_ok_field env fs configPath cfg h key hk
  rw [envValue_of_unsetOrEmpty env _ hu] at hf
  simp only [parentSet_eq_false env key hp, Bool.false_eq_true, if_false] at hf
  constructor
  · intro s hs
    rw [hs] at hf
    simp only [decodeString, Except.ok.injEq] at hf
    exact hf.symm
  · intro hnone
    rw [hnone] at hf
    simp only at hf
    rw [default_of_leaf key hk] at hf
    simp only [Except.ok.injEq] at hf
    exact hf.symm

theorem Load_field_of_variable (env : Env) (fs : FS) (configPath : String) (cfg : Config)
    (h : Load env fs configPath = (some cfg, none)) (key : String) (hk : key ∈ leafKeys)
    (val : String) (hv : env (envVarOf key) = some val) (hne : val ≠ "") :
    cfg.field key = val := by
  have hf := Load_ok_field env fs configPath cfg h key hk
  rw [envValue_of_set env _ val hv hne] at hf
  simp only [decodeString, Except.ok.injEq] at hf
  exact hf.symm

/-- C13, amended: the variable of each of the ten leaf keys is `SHIPINATOR_`
followed by the key in upper case with `.` and `-` turned into `_`; a
non-empty value set there is the resolved value of the key in every resolution
that succeeds, whatever the file holds; and with no file content at all such a
resolution does succeed once `SHIPINATOR_DB_NAME` is set. -/
theorem env_binding_covers_every_leaf_key :
    leafKeys.map envVarOf =
      ["SHIPINATOR_LISTEN_ADDR", "SHIPINATOR_ARTIFACT_PATH", "SHIPINATOR_KUBECONFIG",
       "SHIPINATOR_LOG_LEVEL", "SHIPINATOR_DB_HOST", "SHIPINATOR_DB_PORT", "SHIPINATOR_DB_USER",
       "SHIPINATOR_DB_PASSWORD", "SHIPINATOR_DB_NAME", "SHIPINATOR_DB_SSL_MODE"] ∧
    (∀ key, envVarOf key = specEnvName key) ∧
    (∀ (env : Env) (fs : FS) (configPath : String) (cfg : Config) (key val : String),
      key ∈ leafKeys → env (envVarOf key) = some val → val ≠ "" →
      Load env fs configPath = (some cfg, none) → cfg.field key = val) ∧
    (∀ (env : Env) (fs : FS) (configPath : String) (key val n : String),
      key ∈ leafKeys → env (envVarOf key) = some val → val ≠ "" →
      noFileContent fs configPath → env "SHIPINATOR_DB_NAME" = some n → n ≠ "" →
      ∃ cfg, Load env fs configPath = (some cfg, none) ∧ cfg.field key = val) := by
  refine ⟨by decide, envVarOf_eq_specEnvName, ?_, ?_⟩
  · intro env fs configPath cfg key val hk hv hne h
    exact Load_field_of_variable env fs configPath cfg h key hk val hv hne
  · intro env fs configPath key val n hk hv hne hfile hn hnne
    have hload := (Load_of_noFileContent env fs configPath hfile n
      (envValue_of_set env _ n hn hnne)).1
    exact ⟨_, hload, Load_field_of_variable env fs configPath _ hload key hk val hv hne⟩

/-- The host set in `SHIPINATOR_DB_HOST` is resolved, with a file that does not
set `db.host` and without any file. -/
theorem env_binding_covers_every_leaf_key_witness :
    resolvedMixed.field "db.host" = "db.internal" ∧
    ∃ cfg, Load envNameAndHost noFiles "" = (some cfg, none) ∧
      cfg.field "db.host" = "db.internal" :=
  ⟨env_binding_covers_every_leaf_key.2.2.1 envNameAndHost oneFile "/etc/app.yaml" resolvedMixed
      "db.host" "db.internal" (by decide) rfl (by decide) (by decide),
   env_binding_covers_every_leaf_key.2.2.2 envNameAndHost noFiles "" "db.host" "db.internal"
      "fromenv" (by decide) rfl (by decide) (Or.inl rfl) rfl (by decide)⟩

/-- C13 as stated fails for the empty value: `SHIPINATOR_DB_HOST` is set to the
empty string, `db.host` is absent from the file, and the resolved host is the
default `localhost`, not the value set. -/
theorem env_binding_as_stated_fails :
    Load envEmptyHost noFiles "" = (some (defaultsWithName "app"), none) ∧
    "db.host" ∈ leafKeys ∧
    (fileLayer noFiles "").lookup "db.host" = none ∧
    ¬ (∀ val, envEmptyHost (envVarOf "db.host") = some val →
        (defaultsWithName "app").field "db.host" = val) := by
  refine ⟨by decide, by decide, rfl, ?_⟩
  intro h
  exact absurd (h "" rfl) (by decide)

/-- C20, amended: a variable set to the empty string is treated as not set,
`Load` returns what it returns without the variable; for a leaf key whose
variable is empty, when no parent of the key has a variable with a non-empty
value, a successful resolution holds the file's value, or the default when the
file does not set the key; an empty `SHIPINATOR_DB_NAME` with no `db.name` in
the file makes `Load` fail, with the `db.name` error whenever the layers merge
without error. -/
theorem empty_variable_is_unset (env : Env) (fs : FS) (configPath : String) :
    (∀ name, env name = some "" →
      Load env fs configPath = Load (unsetVar env name) fs configPath) ∧
    (∀ cfg key, key ∈ leafKeys → env (envVarOf key) = some "" →
      (∀ parent ∈ parentKeys (Split key), unsetOrEmpty env (envVarOf parent)) →
      Load env fs configPath = (some cfg, none) →
      (∀ s, (fileLayer fs configPath).lookup key = some (.text s) → cfg.field key = s) ∧
      ((fileLayer fs configPath).lookup key = none → cfg.field key = defaultOf key)) ∧
    (env "SHIPINATOR_DB_NAME" = some "" → (fileLayer fs configPath).lookup "db.name" = none →
      Failed (Load env fs configPath) ∧
      (∀ cfg, merged env fs configPath = .ok cfg →
        Load env fs configPath = (none, some .dbNameRequired))) := by
  refine ⟨?_, ?_, ?_⟩
  · intro name hname
    exact Load_congr env (unsetVar env name)
      (fun other => (envValue_unsetVar env name (Or.inr hname) other).symm) fs configPath
  · intro cfg key hk hv hp h
    exact Load_field_lower_layers env fs configPath cfg h key hk (Or.inr hv) hp
  · intro hv hfile
    have hname : ∀ cfg, merged env fs configPath = .ok cfg → cfg.DB.Name = "" := by
      intro cfg hm
      rcases merged_cases env fs configPath with ⟨_, _, _, h1⟩ | ⟨_, h1⟩ | ⟨_, h1⟩
      · rw [h1] at hm; exact absurd hm (by simp)
      · rw [h1] at hm; exact absurd hm (by simp)
      · rw [h1] at hm
        simp only [Except.ok.injEq] at hm
        subst hm
        have he : envValue env "SHIPINATOR_DB_NAME" = none := by simp [envValue, hv]
        simp only [Config.ofFields, layered, envVarOf_db_name, he, hfile]
        cases parentSet env "db.name" <;> rfl
    have hload : ∀ cfg, merged env fs configPath = .ok cfg →
        Load env fs configPath = (none, some .dbNameRequired) := by
      intro cfg hm
      rw [Load_eq_merged, hm]
      simp [hname cfg hm]
    refine ⟨?_, hload⟩
    cases hm : merged env fs configPath with
    | error e =>
      rw [Load_eq_merged, hm]
      simp [Failed]
    | ok cfg =>
      rw [hload cfg hm]
      simp [Failed]

/-- An empty `SHIPINATOR_LOG_LEVEL` leaves the default level, and an empty
`SHIPINATOR_DB_NAME` without a file is refused with the `db.name` error. -/
theorem empty_variable_is_unset_witness :
    Load envEmptyLogLevel noFiles "" =
      Load (unsetVar envEmptyLogLevel "SHIPINATOR_LOG_LEVEL") noFiles "" ∧
    resolvedEmptyLogLevel.field "log_level" = defaultOf "log_level" ∧
    Load envEmptyName noFiles "" = (none, some .dbNameRequired) :=
  ⟨(empty_variable_is_unset envEmptyLogLevel noFiles "").1 "SHIPINATOR_LOG_LEVEL" rfl,
   ((empty_variable_is_unset envEmptyLogLevel noFiles "").2.1 resolvedEmptyLogLevel "log_level"
      (by decide) rfl (by decide) (by decide)).2 rfl,
   ((empty_variable_is_unset envEmptyName noFiles "").2.2 rfl rfl).2 (defaultsWithName "") rfl⟩

/-- C20 as stated fails twice: with `SHIPINATOR_DB=x` an empty
`SHIPINATOR_DB_HOST` resolves `db.host` to the empty string, not to the
default; and with a file whose `log_level` is a sequence an empty
`SHIPINATOR_DB_NAME` fails with the unmarshalling error, not the `db.name`
error. -/
theorem empty_variable_as_stated_fails :
    (Load envEmptyHostParentSet noFiles "" = (some resolvedParentSet, none) ∧
      "db.host" ∈ leafKeys ∧
      envEmptyHostParentSet (envVarOf "db.host") = some "" ∧
      (fileLayer noFiles "").lookup "db.host" = none ∧
      resolvedParentSet.field "db.host" ≠ defaultOf "db.host") ∧
    (envEmptyName (envVarOf "db.name") = some "" ∧
      (fileLayer levelsFile "/etc/levels.yaml").lookup "db.name" = none ∧
      Load envEmptyName levelsFile "/etc/levels.yaml" =
        (none, some (.unmarshalling "expected type 'string', got unconvertible type"))) := by
  refine ⟨⟨by decide, by decide, rfl, rfl, by decide⟩, rfl, rfl, by decide⟩

end Server
end Internal
